import Mathlib

/-!
# grav: message envelope and message filter

A shallow embedding of `grav/filter.go` and `grav/message.go`.

* A Go `string` and a Go `[]byte` are sequences of bytes; a byte is a natural
  number below 256 and a string is a `List Nat`. A `[]byte` is a slice: next to
  its elements (`none` for the nil slice) the embedding keeps what its backing
  array holds after them (`spare`), which the JSON decoder can bring back into
  the slice.
* A Go `map[string]bool` is a finite partial function from strings to booleans;
  it is embedded as a function `GoString → Option Bool` (`none` = no entry).
* The `sync.RWMutex` of `messageFilter` serialises the calls; every method is
  embedded as the atomic function it computes while holding the lock.
* `message.go` delegates its codec to the Go standard library. The parts of
  `unicode/utf8`, `encoding/json`, `encoding/base64` and `time` that
  `json.Marshal` and `json.Unmarshal` run on a `*_message` are embedded byte for
  byte, under the names they have in the library, as they stand in Go 1.20 to
  1.24 (`encoding/json` before its reimplementation on top of version 2).
* `uuid.New()` and `time.Now()` read the environment; what they return is a
  parameter of the constructors.
-/

namespace Grav

/-! ## Basic types -/

/-- Go `string`: an immutable sequence of bytes. -/
abbrev GoString := List Nat

/-- Go `map[string]bool`. -/
abbrev GoMap := GoString → Option Bool

/-- The empty map literal `map[string]bool{}`. -/
def GoMap.empty : GoMap := fun _ => none

/-- The assignment `m[k] = v`. -/
def GoMap.set (m : GoMap) (k : GoString) (v : Bool) : GoMap :=
  fun k' => if k' = k then some v else m k'

/-- The two-valued lookup `v, exists := m[k]`: the zero value `false` and
`exists = false` when the key is absent. -/
def GoMap.lookup (m : GoMap) (k : GoString) : Bool × Bool :=
  match m k with
  | some v => (v, true)
  | none => (false, false)

/-- Go `time.Time`, an instant with a location, held as the civil reading of the
instant in its location, the zone offset in effect (seconds east of UTC) and the
optional monotonic clock reading. -/
structure Time where
  year : Int
  month : Nat
  day : Nat
  hour : Nat
  minute : Nat
  second : Nat
  nsec : Nat
  offset : Int
  mono : Option Int
deriving DecidableEq, Repr

/-- Errors returned by the codec. -/
inductive GoError where
  /-- `*json.SyntaxError`: the input is not a JSON text. -/
  | syntaxError
  /-- `*json.UnmarshalTypeError`: a JSON value does not fit the Go field. -/
  | unmarshalTypeError
  /-- `base64.CorruptInputError`. -/
  | corruptInput
  /-- An error of `Time.MarshalJSON`. -/
  | timeMarshal
  /-- An error of `Time.UnmarshalJSON`. -/
  | timeUnmarshal
  /-- An error of reading a request body. -/
  | readError (code : Nat)
deriving DecidableEq, Repr

/-- The `Message` interface: the method set every implementation provides.
`Unmarshal` has a pointer receiver: it returns the receiver's new value next to
the error. -/
class Message (μ : Type) where
  UUID : μ → GoString
  ParentID : μ → GoString
  ResponseTo : μ → GoString
  Type_ : μ → GoString
  Timestamp : μ → Time
  Data : μ → Option (List Nat)
  Marshal : μ → Except GoError (List Nat)
  Unmarshal : μ → List Nat → μ × Option GoError

/-- The zero `time.Time`: January 1, year 1, 00:00:00 UTC. -/
def zeroTime : Time :=
  { year := 1, month := 1, day := 1, hour := 0, minute := 0, second := 0, nsec := 0,
    offset := 0, mono := none }

/-! ## unicode/utf8 -/

/-- `utf8.RuneError`, U+FFFD. -/
def RuneError : Nat := 0xFFFD

/-- `utf8.DecodeRune`: the first rune of `p` and its width in bytes; an empty
input gives `(RuneError, 0)`, an invalid encoding `(RuneError, 1)`. The second
byte of a sequence is checked against the accept range of its first byte, which
excludes overlong encodings, surrogates and values above U+10FFFF. -/
def decodeRune (p : List Nat) : Nat × Nat :=
  match p with
  | [] => (RuneError, 0)
  | p0 :: rest =>
    if p0 < 0x80 then (p0, 1)
    else if p0 < 0xC2 ∨ 0xF5 ≤ p0 then (RuneError, 1)
    else
      let sz := if p0 < 0xE0 then 2 else if p0 < 0xF0 then 3 else 4
      let lo := if p0 = 0xE0 then 0xA0 else if p0 = 0xF0 then 0x90 else 0x80
      let hi := if p0 = 0xED then 0x9F else if p0 = 0xF4 then 0x8F else 0xBF
      if p.length < sz then (RuneError, 1)
      else
        match rest with
        | [] => (RuneError, 1)
        | b1 :: rest1 =>
          if b1 < lo ∨ hi < b1 then (RuneError, 1)
          else if sz ≤ 2 then ((p0 % 32) * 64 + b1 % 64, 2)
          else
            match rest1 with
            | [] => (RuneError, 1)
            | b2 :: rest2 =>
              if b2 < 0x80 ∨ 0xBF < b2 then (RuneError, 1)
              else if sz ≤ 3 then ((p0 % 16) * 4096 + (b1 % 64) * 64 + b2 % 64, 3)
              else
                match rest2 with
                | [] => (RuneError, 1)
                | b3 :: _ =>
                  if b3 < 0x80 ∨ 0xBF < b3 then (RuneError, 1)
                  else ((p0 % 8) * 262144 + (b1 % 64) * 4096 + (b2 % 64) * 64 + b3 % 64, 4)

/-- `utf8.AppendRune` on an empty buffer: the UTF-8 encoding of `r`; a surrogate
or a value above U+10FFFF is encoded as U+FFFD. -/
def encodeRune (r : Nat) : List Nat :=
  if r ≤ 0x7F then [r]
  else if r ≤ 0x7FF then [0xC0 + r / 64, 0x80 + r % 64]
  else if 0x10FFFF < r ∨ (0xD800 ≤ r ∧ r ≤ 0xDFFF) then [0xEF, 0xBF, 0xBD]
  else if r ≤ 0xFFFF then [0xE0 + r / 4096, 0x80 + r / 64 % 64, 0x80 + r % 64]
  else [0xF0 + r / 262144, 0x80 + r / 4096 % 64, 0x80 + r / 64 % 64, 0x80 + r % 64]

/-- What `decodeRune` gives on a valid multi-byte encoding at the head of `p`: a
rune `r` outside ASCII of `size` bytes, all of them 0x80 or above, which
`encodeRune` maps back to those bytes, whatever follows them. -/
structure RuneOK (p : List Nat) (r size : Nat) : Prop where
  two_le : 2 ≤ size
  le_four : size ≤ 4
  le_len : size ≤ p.length
  enc : encodeRune r = p.take size
  hi : ∀ x ∈ p.take size, 0x80 ≤ x ∧ x < 256
  big : 0x80 ≤ r
  stable : ∀ rest, decodeRune (p.take size ++ rest) = (r, size)

/-- `utf8.Valid`, by repeated `DecodeRune` (`n` bounds the number of runes). -/
def validUTF8Aux : Nat → List Nat → Bool
  | 0, p => p.isEmpty
  | n + 1, p =>
    match p with
    | [] => true
    | _ :: _ =>
      let (r, size) := decodeRune p
      if r = RuneError ∧ size = 1 then false else validUTF8Aux n (p.drop size)

/-- `utf8.Valid(p)`. -/
def validUTF8 (p : List Nat) : Bool := validUTF8Aux p.length p

/-! ## encoding/json: string literals -/

/-- The digit `"0123456789abcdef"[n]`. -/
def hexDigit (n : Nat) : Nat := if n < 10 then 48 + n else 87 + n

/-- `htmlSafeSet[b]`: the ASCII bytes written to a JSON string as they are; the
control characters, the quote, the backslash and `<`, `>`, `&` are not. -/
def htmlSafe (b : Nat) : Bool :=
  decide (0x20 ≤ b ∧ b < 0x80 ∧ b ≠ 34 ∧ b ≠ 92 ∧ b ≠ 60 ∧ b ≠ 62 ∧ b ≠ 38)

/-- The loop of `appendString(dst, src, escapeHTML = true)`: the text of a JSON
string between its quotes (`n` bounds the number of iterations). -/
def appendStringBody : Nat → List Nat → List Nat
  | 0, _ => []
  | _, [] => []
  | n + 1, b :: rest =>
    if b < 0x80 then
      if htmlSafe b then b :: appendStringBody n rest
      else if b = 92 ∨ b = 34 then [92, b] ++ appendStringBody n rest
      else if b = 8 then [92, 98] ++ appendStringBody n rest
      else if b = 12 then [92, 102] ++ appendStringBody n rest
      else if b = 10 then [92, 110] ++ appendStringBody n rest
      else if b = 13 then [92, 114] ++ appendStringBody n rest
      else if b = 9 then [92, 116] ++ appendStringBody n rest
      else [92, 117, 48, 48, hexDigit (b / 16), hexDigit (b % 16)] ++ appendStringBody n rest
    else
      let (c, size) := decodeRune (b :: rest)
      if c = RuneError ∧ size = 1 then
        [92, 117, 102, 102, 102, 100] ++ appendStringBody n rest
      else if c = 0x2028 ∨ c = 0x2029 then
        [92, 117, 50, 48, 50, hexDigit (c % 16)] ++ appendStringBody n ((b :: rest).drop size)
      else
        (b :: rest).take size ++ appendStringBody n ((b :: rest).drop size)

/-- `appendString(nil, src, true)`: `src` as a JSON string literal. -/
def appendString (src : GoString) : List Nat :=
  [34] ++ appendStringBody src.length src ++ [34]

/-! ## encoding/base64 (`StdEncoding`) -/

/-- The alphabet `A-Z a-z 0-9 + /` of `StdEncoding`. -/
def b64Char (n : Nat) : Nat :=
  if n < 26 then 65 + n
  else if n < 52 then 71 + n
  else if n < 62 then n - 4
  else if n = 62 then 43
  else 47

/-- The decode map of `StdEncoding`: the value of an alphabet byte. -/
def b64Val (c : Nat) : Option Nat :=
  if 65 ≤ c ∧ c ≤ 90 then some (c - 65)
  else if 97 ≤ c ∧ c ≤ 122 then some (c - 71)
  else if 48 ≤ c ∧ c ≤ 57 then some (c + 4)
  else if c = 43 then some 62
  else if c = 47 then some 63
  else none

/-- `base64.StdEncoding.EncodeToString`: three bytes to four characters, the
last group padded with `=`. -/
def base64Encode : List Nat → List Nat
  | [] => []
  | [a] => [b64Char (a / 4), b64Char (a % 4 * 16), 61, 61]
  | [a, b] => [b64Char (a / 4), b64Char (a % 4 * 16 + b / 16), b64Char (b % 16 * 4), 61]
  | a :: b :: c :: rest =>
    [b64Char (a / 4), b64Char (a % 4 * 16 + b / 16), b64Char (b % 16 * 4 + c / 64),
      b64Char (c % 64)] ++ base64Encode rest

/-- The quanta of `StdEncoding.Decode` once line breaks are dropped: groups of
four characters, padding only in the last group and only in its last one or two
places; the unused low bits of a padded group are not checked (the encoding is
not `Strict`). -/
def decodeQuanta : List Nat → Option (List Nat)
  | [] => some []
  | c0 :: c1 :: c2 :: c3 :: rest =>
    match b64Val c0, b64Val c1 with
    | some v0, some v1 =>
      if c2 = 61 then
        if c3 = 61 ∧ rest = [] then some [v0 * 4 + v1 / 16] else none
      else
        match b64Val c2 with
        | none => none
        | some v2 =>
          if c3 = 61 then
            if rest = [] then some [v0 * 4 + v1 / 16, v1 % 16 * 16 + v2 / 4] else none
          else
            match b64Val c3 with
            | none => none
            | some v3 =>
              (decodeQuanta rest).map
                (fun out => [v0 * 4 + v1 / 16, v1 % 16 * 16 + v2 / 4, v2 % 4 * 64 + v3] ++ out)
    | _, _ => none
  | _ => none

/-- `base64.StdEncoding.Decode`: `\r` and `\n` are skipped wherever they stand;
`none` is a `CorruptInputError`. -/
def base64Decode (src : List Nat) : Option (List Nat) :=
  decodeQuanta (src.filter (fun c => c ≠ 10 ∧ c ≠ 13))

/-! ## time: RFC 3339 -/

/-- The `width` low decimal digits of `x`, most significant first. -/
def padDigits : Nat → Nat → List Nat
  | 0, _ => []
  | w + 1, x => padDigits w (x / 10) ++ [48 + x % 10]

/-- The number of decimal digits of `u` (`n` bounds the loop), 1 for 0. -/
def digitsLen : Nat → Nat → Nat
  | 0, _ => 1
  | n + 1, u => if u < 10 then 1 else 1 + digitsLen n (u / 10)

/-- `appendInt(nil, x, width)`: `x` in decimal, zero-padded to `width` digits,
after a `-` when negative. -/
def appendInt (x : Int) (width : Nat) : List Nat :=
  (if x < 0 then [45] else []) ++
    padDigits (max width (digitsLen x.natAbs x.natAbs)) x.natAbs

/-- Drop the trailing bytes `0` of a buffer. -/
def trimZeros (b : List Nat) : List Nat :=
  (b.reverse.dropWhile (fun c => c = 48)).reverse

/-- `appendNano` for the layout `.999999999`: nothing for 0, else a period and
the nine digits without their trailing zeros. -/
def appendNano (nanosec : Nat) : List Nat :=
  if nanosec = 0 then []
  else
    let b := trimZeros ([46] ++ appendInt nanosec 9)
    if b.getLast? = some 46 then b.dropLast else b

/-- The zone of `Time.appendFormatRFC3339`: `Z` for the offset 0, else the sign,
the hours and the minutes of the offset, its seconds cut off. -/
def formatZone (offset : Int) : List Nat :=
  if offset = 0 then [90]
  else
    let zone := Int.tdiv offset 60
    (if zone < 0 then [45] else [43]) ++
      appendInt (zone.natAbs / 60 : Nat) 2 ++ [58] ++ appendInt (zone.natAbs % 60 : Nat) 2

/-- `Time.appendFormatRFC3339(nil, true)`: the layout `RFC3339Nano`. -/
def appendFormatRFC3339 (t : Time) : List Nat :=
  appendInt t.year 4 ++ [45] ++ appendInt t.month 2 ++ [45] ++ appendInt t.day 2 ++ [84] ++
    appendInt t.hour 2 ++ [58] ++ appendInt t.minute 2 ++ [58] ++ appendInt t.second 2 ++
    appendNano t.nsec ++ formatZone t.offset

/-- `isDigit`. -/
def isDigit (c : Nat) : Bool := decide (48 ≤ c ∧ c ≤ 57)

/-- `Time.appendStrictRFC3339` as used by `Time.MarshalJSON`: the formatted
time, or `none` when the year is not four digits wide or the zone hour is
outside `[0, 23]`. -/
def appendStrictRFC3339 (t : Time) : Option (List Nat) :=
  let b := appendFormatRFC3339 t
  if b.getD 4 0 ≠ 45 then none
  else if b.getLast? ≠ some 90 then
    let c := b.getD (b.length - 6) 0
    let hh := 10 * (b.getD (b.length - 5) 0 - 48) + (b.getD (b.length - 4) 0 - 48)
    if isDigit c ∨ 24 ≤ hh then none else some b
  else some b

/-- `Time.MarshalJSON`: the strict RFC 3339 text in quotes. -/
def Time.MarshalJSON (t : Time) : Option (List Nat) :=
  (appendStrictRFC3339 t).map (fun b => [34] ++ b ++ [34])

/-- `isLeap(year)`. -/
def isLeap (year : Int) : Bool :=
  decide (year % 4 = 0 ∧ (year % 100 ≠ 0 ∨ year % 400 = 0))

/-- `daysIn(m, year)`. -/
def daysIn (month : Nat) (year : Int) : Nat :=
  if month = 2 then (if isLeap year then 29 else 28)
  else if month = 4 ∨ month = 6 ∨ month = 9 ∨ month = 11 then 30
  else 31

/-- `getnum(s, fixed)`: a number of two digits, or of one digit when `fixed` is
false and no second digit follows. -/
def getnum (s : List Nat) (fixed : Bool) : Option (Nat × List Nat) :=
  match s with
  | [] => none
  | a :: rest =>
    if !isDigit a then none
    else
      match rest with
      | b :: rest' =>
        if isDigit b then some ((a - 48) * 10 + (b - 48), rest')
        else if fixed then none else some (a - 48, rest)
      | [] => if fixed then none else some (a - 48, rest)

/-- A literal byte of the layout. -/
def expectByte (c : Nat) (s : List Nat) : Option (List Nat) :=
  match s with
  | [] => none
  | a :: rest => if a = c then some rest else none

/-- The value of a run of decimal digits. -/
def digitsValue (ds : List Nat) : Nat :=
  ds.foldl (fun acc d => acc * 10 + (d - 48)) 0

/-- The fractional second of `Parse`: after a period or comma that a digit
follows, all the digits; those after the ninth are dropped and the value is
scaled to nanoseconds. -/
def parseFraction (s : List Nat) : Nat × List Nat :=
  match s with
  | sep :: d :: rest =>
    if (sep = 46 ∨ sep = 44) ∧ isDigit d then
      let ds := (d :: rest).takeWhile isDigit
      let kept := ds.take 9
      (digitsValue kept * 10 ^ (9 - kept.length), (d :: rest).dropWhile isDigit)
    else (0, s)
  | _ => (0, s)

/-- The zone of the layout element `Z07:00`: `Z`, or a sign, two digits, a colon
and two digits, the hour at most 24 and the minute at most 60. The result is the
offset in seconds east of UTC. -/
def parseZone (s : List Nat) : Option (Int × List Nat) :=
  match s with
  | 90 :: rest => some (0, rest)
  | sign :: h1 :: h2 :: colon :: m1 :: m2 :: rest =>
    if colon ≠ 58 then none
    else
      match getnum [h1, h2] true, getnum [m1, m2] true with
      | some (hr, _), some (mm, _) =>
        if 24 < hr ∨ 60 < mm then none
        else if sign = 43 then some ((((hr * 60 + mm) * 60 : Nat) : Int), rest)
        else if sign = 45 then some (-(((hr * 60 + mm) * 60 : Nat) : Int), rest)
        else none
      | _, _ => none
  | _ => none

/-- `time.Parse(time.RFC3339, s)`, which is what `Time.UnmarshalJSON` accepts
between the quotes: four digits of year, two of month and day, `T`, one or two
digits of hour, two of minute and second, an optional fraction, and the zone. -/
def parseRFC3339 (s : List Nat) : Option Time :=
  match s with
  | y1 :: y2 :: y3 :: y4 :: s1 =>
    if !(isDigit y1 && isDigit y2 && isDigit y3 && isDigit y4) then none
    else
      let year := digitsValue [y1, y2, y3, y4]
      (expectByte 45 s1).bind fun s2 =>
      (getnum s2 true).bind fun (month, s3) =>
      if month = 0 ∨ 12 < month then none else
      (expectByte 45 s3).bind fun s4 =>
      (getnum s4 true).bind fun (day, s5) =>
      (expectByte 84 s5).bind fun s6 =>
      (getnum s6 false).bind fun (hour, s7) =>
      if 24 ≤ hour then none else
      (expectByte 58 s7).bind fun s8 =>
      (getnum s8 true).bind fun (minute, s9) =>
      if 60 ≤ minute then none else
      (expectByte 58 s9).bind fun s10 =>
      (getnum s10 true).bind fun (second, s11) =>
      if 60 ≤ second then none else
      let (nsec, s12) := parseFraction s11
      (parseZone s12).bind fun (offset, s13) =>
      if s13 ≠ [] then none
      else if day < 1 ∨ daysIn month year < day then none
      else some
        { year := year, month := month, day := day, hour := hour, minute := minute,
          second := second, nsec := nsec, offset := offset, mono := none }
  | _ => none

/-- The civil reading of a `Time` is that of a real instant: a month from 1 to
12, a day of that month, an hour below 24, a minute and a second below 60 and
less than a second of nanoseconds. Every `time.Time` meets this. -/
def Time.wellFormed (t : Time) : Bool :=
  decide (1 ≤ t.month ∧ t.month ≤ 12 ∧ 1 ≤ t.day ∧ t.day ≤ daysIn t.month t.year ∧
    t.hour < 24 ∧ t.minute < 60 ∧ t.second < 60 ∧ t.nsec < 1000000000)

/-- The time has an RFC 3339 text that denotes it: the year is in `[0, 9999]`
and the zone offset is a whole number of minutes, less than 24 hours. -/
def Time.rfc3339 (t : Time) : Bool :=
  decide (0 ≤ t.year ∧ t.year ≤ 9999 ∧ t.offset % 60 = 0 ∧ -86400 < t.offset ∧
    t.offset < 86400)

/-- The time without its monotonic clock reading (`t.Round(0)`): the same
instant in the same location. -/
def Time.stripMono (t : Time) : Time := { t with mono := none }

/-! ## encoding/json: the scanner -/

/-- A JSON value as the scanner delimits it. A string keeps the text between
its quotes, escapes included; a number keeps its text. -/
inductive JValue where
  | null
  | bool (b : Bool)
  | number (text : List Nat)
  | string (raw : List Nat)
  | array (elems : List JValue)
  | object (members : List (List Nat × JValue))

/-- `isSpace`: space, tab, carriage return, line feed. -/
def isSpace (c : Nat) : Bool := decide (c = 32 ∨ c = 9 ∨ c = 13 ∨ c = 10)

/-- Skip insignificant whitespace. -/
def skipWS : List Nat → List Nat
  | [] => []
  | c :: rest => if isSpace c then skipWS rest else c :: rest

/-- The value of a hexadecimal digit, of either case. -/
def hexVal (c : Nat) : Option Nat :=
  if 48 ≤ c ∧ c ≤ 57 then some (c - 48)
  else if 97 ≤ c ∧ c ≤ 102 then some (c - 87)
  else if 65 ≤ c ∧ c ≤ 70 then some (c - 55)
  else none

/-- The scanner inside a string, after the opening quote: the text up to the
closing quote and what follows it. A byte below 0x20 is refused, a backslash is
followed by one of `" \ / b f n r t` or by `u` and four hexadecimal digits. -/
def scanString : List Nat → Option (List Nat × List Nat)
  | [] => none
  | c :: rest =>
    if c = 34 then some ([], rest)
    else if c = 92 then
      match rest with
      | [] => none
      | e :: rest1 =>
        if e = 34 ∨ e = 92 ∨ e = 47 ∨ e = 98 ∨ e = 102 ∨ e = 110 ∨ e = 114 ∨ e = 116 then
          (scanString rest1).map (fun (raw, r) => (c :: e :: raw, r))
        else if e = 117 then
          match rest1 with
          | h1 :: h2 :: h3 :: h4 :: rest2 =>
            if (hexVal h1).isSome ∧ (hexVal h2).isSome ∧ (hexVal h3).isSome ∧ (hexVal h4).isSome
            then (scanString rest2).map (fun (raw, r) => (c :: e :: h1 :: h2 :: h3 :: h4 :: raw, r))
            else none
          | _ => none
        else none
    else if c < 32 then none
    else (scanString rest).map (fun (raw, r) => (c :: raw, r))

/-- One or more digits: the digits and what follows them. -/
def scanDigits (s : List Nat) : Option (List Nat × List Nat) :=
  let ds := s.takeWhile (fun c => decide (48 ≤ c ∧ c ≤ 57))
  if ds = [] then none else some (ds, s.dropWhile (fun c => decide (48 ≤ c ∧ c ≤ 57)))

/-- The scanner on a number: an optional `-`, `0` or a digit `1-9` and more
digits, an optional fraction, an optional exponent. -/
def scanNumber (s : List Nat) : Option (List Nat × List Nat) :=
  let (sign, s1) := match s with
    | 45 :: r => ([45], r)
    | _ => ([], s)
  let intPart : Option (List Nat × List Nat) := match s1 with
    | 48 :: r => some ([48], r)
    | _ => scanDigits s1
  intPart.bind fun (ip, s2) =>
    let fracPart : Option (List Nat × List Nat) := match s2 with
      | 46 :: r => (scanDigits r).map (fun (ds, r') => (46 :: ds, r'))
      | _ => some ([], s2)
    fracPart.bind fun (fp, s3) =>
      let expPart : Option (List Nat × List Nat) := match s3 with
        | e :: r =>
          if e = 101 ∨ e = 69 then
            match r with
            | sg :: r' =>
              if sg = 43 ∨ sg = 45 then (scanDigits r').map (fun (ds, r'') => (e :: sg :: ds, r''))
              else (scanDigits r).map (fun (ds, r'') => (e :: ds, r''))
            | [] => none
          else some ([], s3)
        | [] => some ([], s3)
      expPart.map fun (ep, s4) => (sign ++ ip ++ fp ++ ep, s4)

/-- `maxNestingDepth`. -/
def maxNestingDepth : Nat := 10000

mutual
/-- One JSON value at nesting depth `depth`, after optional whitespace: the
value and the rest of the input (`fuel` bounds the number of values and members
read; the length of the input is enough). -/
def parseValue : Nat → Nat → List Nat → Option (JValue × List Nat)
  | 0, _, _ => none
  | fuel + 1, depth, input =>
    match skipWS input with
    | [] => none
    | c :: rest =>
      if c = 123 then
        if maxNestingDepth ≤ depth then none
        else
          match skipWS rest with
          | 125 :: rest1 => some (JValue.object [], rest1)
          | _ => (parseMembers fuel (depth + 1) rest).map (fun (ms, r) => (JValue.object ms, r))
      else if c = 91 then
        if maxNestingDepth ≤ depth then none
        else
          match skipWS rest with
          | 93 :: rest1 => some (JValue.array [], rest1)
          | _ => (parseElements fuel (depth + 1) rest).map (fun (es, r) => (JValue.array es, r))
      else if c = 34 then
        (scanString rest).map (fun (raw, r) => (JValue.string raw, r))
      else if c = 116 then
        match rest with
        | 114 :: 117 :: 101 :: r => some (JValue.bool true, r)
        | _ => none
      else if c = 102 then
        match rest with
        | 97 :: 108 :: 115 :: 101 :: r => some (JValue.bool false, r)
        | _ => none
      else if c = 110 then
        match rest with
        | 117 :: 108 :: 108 :: r => some (JValue.null, r)
        | _ => none
      else
        (scanNumber (c :: rest)).map (fun (text, r) => (JValue.number text, r))
/-- The members of an object from its first key on, up to the closing brace. -/
def parseMembers : Nat → Nat → List Nat → Option (List (List Nat × JValue) × List Nat)
  | 0, _, _ => none
  | fuel + 1, depth, input =>
    match skipWS input with
    | 34 :: rest =>
      (scanString rest).bind fun (key, r1) =>
        match skipWS r1 with
        | 58 :: r2 =>
          (parseValue fuel depth r2).bind fun (v, r3) =>
            match skipWS r3 with
            | 44 :: r4 => (parseMembers fuel depth r4).map (fun (ms, r) => ((key, v) :: ms, r))
            | 125 :: r4 => some ([(key, v)], r4)
            | _ => none
        | _ => none
    | _ => none
/-- The elements of an array from its first element on, up to the closing
bracket. -/
def parseElements : Nat → Nat → List Nat → Option (List JValue × List Nat)
  | 0, _, _ => none
  | fuel + 1, depth, input =>
    (parseValue fuel depth input).bind fun (v, r1) =>
      match skipWS r1 with
      | 44 :: r2 => (parseElements fuel depth r2).map (fun (es, r) => (v :: es, r))
      | 93 :: r2 => some ([v], r2)
      | _ => none
end

/-- `checkValid` with the value kept: the input is one JSON value between
optional whitespace. -/
def parseJSON (data : List Nat) : Option JValue :=
  match parseValue (data.length + 1) 0 data with
  | some (v, rest) => if skipWS rest = [] then some v else none
  | none => none

/-! ## encoding/json: decoding into the fields -/

/-- `getu4`: the code unit of a `\uXXXX` escape at the head of `s`. -/
def getu4 (s : List Nat) : Option Nat :=
  match s with
  | 92 :: 117 :: h1 :: h2 :: h3 :: h4 :: _ =>
    match hexVal h1, hexVal h2, hexVal h3, hexVal h4 with
    | some a, some b, some c, some d => some (a * 4096 + b * 256 + c * 16 + d)
    | _, _, _, _ => none
  | _ => none

/-- The loop of `unquoteBytes` on the text between the quotes: escapes are
replaced by what they stand for, a surrogate pair of `\u` escapes by its rune, a
lone surrogate and every invalid UTF-8 byte by U+FFFD (`n` bounds the number of
iterations). -/
def unquoteBody : Nat → List Nat → Option (List Nat)
  | 0, s => if s = [] then some [] else none
  | _ + 1, [] => some []
  | n + 1, c :: rest =>
    if c = 92 then
      match rest with
      | [] => none
      | e :: rest1 =>
        if e = 34 ∨ e = 92 ∨ e = 47 ∨ e = 39 then (unquoteBody n rest1).map (fun t => e :: t)
        else if e = 98 then (unquoteBody n rest1).map (fun t => 8 :: t)
        else if e = 102 then (unquoteBody n rest1).map (fun t => 12 :: t)
        else if e = 110 then (unquoteBody n rest1).map (fun t => 10 :: t)
        else if e = 114 then (unquoteBody n rest1).map (fun t => 13 :: t)
        else if e = 116 then (unquoteBody n rest1).map (fun t => 9 :: t)
        else if e = 117 then
          match getu4 (c :: rest) with
          | none => none
          | some rr =>
            let r6 := rest1.drop 4
            if 0xD800 ≤ rr ∧ rr < 0xE000 then
              match getu4 r6 with
              | some rr1 =>
                if rr < 0xDC00 ∧ 0xDC00 ≤ rr1 ∧ rr1 < 0xE000 then
                  (unquoteBody n (r6.drop 6)).map
                    (fun t => encodeRune ((rr - 0xD800) * 1024 + (rr1 - 0xDC00) + 0x10000) ++ t)
                else (unquoteBody n r6).map (fun t => encodeRune RuneError ++ t)
              | none => (unquoteBody n r6).map (fun t => encodeRune RuneError ++ t)
            else (unquoteBody n r6).map (fun t => encodeRune rr ++ t)
        else none
    else if c = 34 ∨ c < 32 then none
    else if c < 0x80 then (unquoteBody n rest).map (fun t => c :: t)
    else
      let (rr, size) := decodeRune (c :: rest)
      (unquoteBody n ((c :: rest).drop size)).map (fun t => encodeRune rr ++ t)

/-- `unquoteBytes` on the text between the quotes of a string literal. -/
def unquote (raw : List Nat) : Option (List Nat) := unquoteBody raw.length raw

/-- `foldRune` as far as a comparison with an ASCII name needs it: the long s
(U+017F) and the Kelvin sign (U+212A) are the only runes outside ASCII in the
fold orbit of an ASCII letter; every other rune outside ASCII stays outside. -/
def foldRune (r : Nat) : Nat :=
  if r = 0x17F then 83 else if r = 0x212A then 75 else r

/-- The loop of `foldName`: ASCII letters to upper case, other runes folded (`n`
bounds the number of iterations). -/
def foldNameAux : Nat → List Nat → List Nat
  | 0, _ => []
  | _ + 1, [] => []
  | n + 1, c :: rest =>
    if c < 0x80 then (if 97 ≤ c ∧ c ≤ 122 then c - 32 else c) :: foldNameAux n rest
    else
      let (r, size) := decodeRune (c :: rest)
      encodeRune (foldRune r) ++ foldNameAux n ((c :: rest).drop size)

/-- `foldName(in)`: two names are equal under Unicode case folding when their
folded names are equal. -/
def foldName (name : List Nat) : List Nat := foldNameAux name.length name

/-- The field a key of a JSON object selects among the names of a struct: the
field of exactly that name, or else the first one equal to it under case
folding. -/
def matchField (names : List (List Nat)) (key : List Nat) : Option (List Nat) :=
  match names.find? (fun n => n = key) with
  | some n => some n
  | none => names.find? (fun n => foldName n = foldName key)

/-- The decoder's progress on one Go value: the value so far, `d.savedError`
(the first type or base64 error, decoding goes on after it) and the error that
stopped the decoding, if any. -/
structure DecodeState (α : Type) where
  val : α
  savedError : Option GoError
  err : Option GoError

/-- `d.saveError(err)`: only the first error is kept. -/
def saveError (saved : Option GoError) (e : GoError) : Option GoError :=
  match saved with
  | some x => some x
  | none => some e

/-- A JSON value into a Go `string` field: a string sets it, `null` leaves it,
anything else is an `UnmarshalTypeError` and leaves it. -/
def decodeString (st : DecodeState GoString) (v : JValue) : DecodeState GoString :=
  match v with
  | JValue.string raw =>
    match unquote raw with
    | some s => { st with val := s }
    | none => { st with err := some GoError.syntaxError }
  | JValue.null => st
  | _ => { st with savedError := saveError st.savedError GoError.unmarshalTypeError }

/-- `Time.UnmarshalJSON` on the text of a JSON value: `null` is a no-op, a
string is parsed between its quotes without unescaping, anything else is an
error; an error stops the decoding, and a failed parse stores the zero time.
This is the decoder of Go 1.20 to 1.24, which hands the method the raw text of
the value; an `encoding/json` built on version 2 resolves the escapes of the
string before it parses it and goes on decoding after a failed parse. -/
def decodeTime (st : DecodeState Time) (v : JValue) : DecodeState Time :=
  match v with
  | JValue.null => st
  | JValue.string raw =>
    match parseRFC3339 raw with
    | some t => { st with val := t }
    | none => { st with val := zeroTime, err := some GoError.timeUnmarshal }
  | _ => { st with err := some GoError.timeUnmarshal }

/-- A JSON value into a `uint8` element of a slice: a number that is a decimal
integer of at most 255 sets it, `null` leaves it, anything else is an
`UnmarshalTypeError` and leaves it. -/
def decodeUint8 (old : Nat) (v : JValue) : Nat × Option GoError :=
  match v with
  | JValue.number text =>
    if text.all isDigit ∧ digitsValue text ≤ 255 then (digitsValue text, none)
    else (old, some GoError.unmarshalTypeError)
  | JValue.null => (old, none)
  | _ => (old, some GoError.unmarshalTypeError)

/-- The elements of a JSON array into a `[]byte` whose backing array holds
`old`: element `i` is decoded into what the array holds at `i`, which `SetLen`
brings into the slice when `i` is beyond the old length; beyond the capacity the
slice is grown with zeros, so what lies beyond `old` reads as 0. -/
def decodeByteArray (old : List Nat) (saved : Option GoError) :
    Nat → List JValue → List Nat × Option GoError
  | _, [] => ([], saved)
  | i, v :: vs =>
    let (b, e) := decodeUint8 (old.getD i 0) v
    let saved1 := match e with
      | some x => saveError saved x
      | none => saved
    let (bs, saved2) := decodeByteArray old saved1 (i + 1) vs
    (b :: bs, saved2)

/-- A JSON value into a struct: an object is decoded member by member in the
order of the text, `null` is a no-op, anything else an `UnmarshalTypeError`.
After an error that stops the decoding no further member is read. -/
def decodeStruct {α : Type} (member : DecodeState α → List Nat → JValue → DecodeState α)
    (st : DecodeState α) (v : JValue) : DecodeState α :=
  match v with
  | JValue.object members =>
    members.foldl
      (fun s kv =>
        if s.err.isSome then s
        else
          match unquote kv.1 with
          | some key => member s key kv.2
          | none => { s with err := some GoError.syntaxError })
      st
  | JValue.null => st
  | _ => { st with savedError := saveError st.savedError GoError.unmarshalTypeError }

/-- Move the progress on a field back into the progress on its struct. -/
def DecodeState.lift {α β : Type} (st : DecodeState β) (put : β → α) : DecodeState α :=
  { val := put st.val, savedError := st.savedError, err := st.err }

/-- Focus the progress on a struct on one of its fields. -/
def DecodeState.focus {α β : Type} (st : DecodeState α) (get : α → β) : DecodeState β :=
  { val := get st.val, savedError := st.savedError, err := st.err }

/-! ## message.go -/

/-- The constant `DefaultMsgType`, the string `grav.default`. -/
def DefaultMsgType : GoString := [103, 114, 97, 118, 46, 100, 101, 102, 97, 117, 108, 116]

/-- The struct `_meta`. -/
structure _meta where
  UUID : GoString
  ParentID : GoString
  ResponseTo : GoString
  MsgType : GoString
  Timestamp : Time
deriving DecidableEq, Repr

/-- The struct `_payload`. Its one field holds a slice: `Data` are the elements
of the slice (`none` is the nil slice) and `spare` is what the backing array of
the slice holds after them, up to its capacity. Memory beyond the capacity is
zero when the slice is grown, so zeros at the end of `spare` and no spare
capacity are the same to the decoder. -/
structure _payload where
  Data : Option (List Nat)
  spare : List Nat
deriving DecidableEq, Repr

/-- The backing array of the slice `Data`, from its first element to its
capacity; the nil slice has none. -/
def _payload.backing (p : _payload) : List Nat :=
  match p.Data with
  | none => []
  | some d => d ++ p.spare

/-- A JSON value into the `[]byte` field `Data`: a string is base64-decoded into
a fresh array, `null` sets nil, an array is decoded element by element into the
backing array of the slice (a fresh empty slice for the empty array), anything
else is an `UnmarshalTypeError`. -/
def decodeBytes (st : DecodeState _payload) (v : JValue) : DecodeState _payload :=
  match v with
  | JValue.null => { st with val := { Data := none, spare := [] } }
  | JValue.string raw =>
    match unquote raw with
    | none => { st with err := some GoError.syntaxError }
    | some s =>
      match base64Decode s with
      | some b => { st with val := { Data := some b, spare := [] } }
      | none => { st with savedError := saveError st.savedError GoError.corruptInput }
  | JValue.array elems =>
    let (bs, saved) := decodeByteArray st.val.backing st.savedError 0 elems
    { st with
      val :=
        { Data := some bs
          spare := if elems.isEmpty then [] else st.val.backing.drop elems.length }
      savedError := saved }
  | _ => { st with savedError := saveError st.savedError GoError.unmarshalTypeError }

/-- The struct `_message`. -/
structure _message where
  Meta : _meta
  Payload : _payload
deriving DecidableEq, Repr

/-- `hex.Encode`: two lower-case hexadecimal digits per byte. -/
def hexEncode (bs : List Nat) : List Nat :=
  bs.flatMap (fun b => [hexDigit (b / 16 % 16), hexDigit (b % 16)])

/-- `uuid.UUID.String()`: the 16 bytes in the form
`xxxxxxxx-xxxx-xxxx-xxxx-xxxxxxxxxxxx`. -/
def UUID.String (u : List Nat) : GoString :=
  hexEncode (u.take 4) ++ [45] ++ hexEncode ((u.drop 4).take 2) ++ [45] ++
    hexEncode ((u.drop 6).take 2) ++ [45] ++ hexEncode ((u.drop 8).take 2) ++ [45] ++
    hexEncode ((u.drop 10).take 6)

/-- `new(msgType, parentID, responseTo, data)`. The two values it takes from its
environment are parameters: `uuid`, the 16 bytes returned by `uuid.New()`, and
`now`, the reading returned by `time.Now()`. The slice `data` is given by its
elements and by `spare`, what its backing array holds after them; the message
holds the slice itself. -/
def new (uuid : List Nat) (now : Time) (msgType parentID responseTo : GoString)
    (data : Option (List Nat)) (spare : List Nat) : _message :=
  { Meta :=
      { UUID := UUID.String uuid
        ParentID := parentID
        ResponseTo := responseTo
        MsgType := msgType
        Timestamp := now }
    Payload := { Data := data, spare := spare } }

/-- `NewMsg(msgType, data)`. -/
def NewMsg (uuid : List Nat) (now : Time) (msgType : GoString) (data : Option (List Nat))
    (spare : List Nat) : _message :=
  new uuid now msgType [] [] data spare

/-- `NewMsgWithParentID(msgType, parentID, data)`. -/
def NewMsgWithParentID (uuid : List Nat) (now : Time) (msgType parentID : GoString)
    (data : Option (List Nat)) (spare : List Nat) : _message :=
  new uuid now msgType parentID [] data spare

/-- `NewMsgResponseTo(msgType, responseTo, data)`. -/
def NewMsgResponseTo (uuid : List Nat) (now : Time) (msgType responseTo : GoString)
    (data : Option (List Nat)) (spare : List Nat) : _message :=
  new uuid now msgType [] responseTo data spare

/-- `(m *_message) UUID()`. -/
def _message.UUID (m : _message) : GoString := m.Meta.UUID

/-- `(m *_message) ParentID()`. -/
def _message.ParentID (m : _message) : GoString := m.Meta.ParentID

/-- `(m *_message) ResponseTo()`. -/
def _message.ResponseTo (m : _message) : GoString := m.Meta.ResponseTo

/-- `(m *_message) Type()`. -/
def _message.Type_ (m : _message) : GoString := m.Meta.MsgType

/-- `(m *_message) Timestamp()`. -/
def _message.Timestamp (m : _message) : Time := m.Meta.Timestamp

/-- `(m *_message) Data()`: the elements of the slice it returns. -/
def _message.Data (m : _message) : Option (List Nat) := m.Payload.Data

/-- The encoder of a `[]byte` field: `null` for the nil slice, else the base64
text in quotes. -/
def encodeByteSlice (data : Option (List Nat)) : List Nat :=
  match data with
  | none => [110, 117, 108, 108]
  | some b => [34] ++ base64Encode b ++ [34]

/-- `json.Marshal(m)` for a `*_message`: the fields in declaration order under
the names of their `json` tags, without whitespace; the only failure is that of
`Time.MarshalJSON`. The text is
`{"meta":{"uuid":…,"parent_id":…,"response_to":…,"msg_type":…,"timestamp":…},"payload":{"data":…}}`. -/
def jsonMarshal (m : _message) : Except GoError (List Nat) :=
  match Time.MarshalJSON m.Meta.Timestamp with
  | none => Except.error GoError.timeMarshal
  | some ts =>
    Except.ok
      ([123, 34, 109, 101, 116, 97, 34, 58, 123, 34, 117, 117, 105, 100, 34, 58] ++
        appendString m.Meta.UUID ++
        [44, 34, 112, 97, 114, 101, 110, 116, 95, 105, 100, 34, 58] ++
        appendString m.Meta.ParentID ++
        [44, 34, 114, 101, 115, 112, 111, 110, 115, 101, 95, 116, 111, 34, 58] ++
        appendString m.Meta.ResponseTo ++
        [44, 34, 109, 115, 103, 95, 116, 121, 112, 101, 34, 58] ++
        appendString m.Meta.MsgType ++
        [44, 34, 116, 105, 109, 101, 115, 116, 97, 109, 112, 34, 58] ++
        ts ++
        [125, 44, 34, 112, 97, 121, 108, 111, 97, 100, 34, 58, 123, 34, 100, 97, 116, 97, 34, 58] ++
        encodeByteSlice m.Payload.Data ++
        [125, 125])

/-- `(m *_message) Marshal()`. -/
def _message.Marshal (m : _message) : Except GoError (List Nat) :=
  match jsonMarshal m with
  | Except.error err => Except.error err
  | Except.ok bytes => Except.ok bytes

/-- The JSON names of the fields of `_meta`: `uuid`, `parent_id`, `response_to`,
`msg_type`, `timestamp`. -/
def metaFields : List (List Nat) :=
  [[117, 117, 105, 100], [112, 97, 114, 101, 110, 116, 95, 105, 100],
    [114, 101, 115, 112, 111, 110, 115, 101, 95, 116, 111],
    [109, 115, 103, 95, 116, 121, 112, 101], [116, 105, 109, 101, 115, 116, 97, 109, 112]]

/-- One member of a JSON object into a `_meta`; a key that selects no field is
skipped. -/
def decodeMetaMember (st : DecodeState _meta) (key : List Nat) (v : JValue) :
    DecodeState _meta :=
  match matchField metaFields key with
  | none => st
  | some name =>
    if name = [117, 117, 105, 100] then
      (decodeString (st.focus (fun x => x.UUID)) v).lift (fun s => { st.val with UUID := s })
    else if name = [112, 97, 114, 101, 110, 116, 95, 105, 100] then
      (decodeString (st.focus (fun x => x.ParentID)) v).lift
        (fun s => { st.val with ParentID := s })
    else if name = [114, 101, 115, 112, 111, 110, 115, 101, 95, 116, 111] then
      (decodeString (st.focus (fun x => x.ResponseTo)) v).lift
        (fun s => { st.val with ResponseTo := s })
    else if name = [109, 115, 103, 95, 116, 121, 112, 101] then
      (decodeString (st.focus (fun x => x.MsgType)) v).lift
        (fun s => { st.val with MsgType := s })
    else
      (decodeTime (st.focus (fun x => x.Timestamp)) v).lift
        (fun t => { st.val with Timestamp := t })

/-- One member of a JSON object into a `_payload` (its one field is `data`). -/
def decodePayloadMember (st : DecodeState _payload) (key : List Nat) (v : JValue) :
    DecodeState _payload :=
  match matchField [[100, 97, 116, 97]] key with
  | none => st
  | some _ => decodeBytes st v

/-- One member of a JSON object into a `_message` (fields `meta`, `payload`). -/
def decodeMessageMember (st : DecodeState _message) (key : List Nat) (v : JValue) :
    DecodeState _message :=
  match matchField [[109, 101, 116, 97], [112, 97, 121, 108, 111, 97, 100]] key with
  | none => st
  | some name =>
    if name = [109, 101, 116, 97] then
      (decodeStruct decodeMetaMember (st.focus (fun x => x.Meta)) v).lift
        (fun x => { st.val with Meta := x })
    else
      (decodeStruct decodePayloadMember (st.focus (fun x => x.Payload)) v).lift
        (fun x => { st.val with Payload := x })

/-- `json.Unmarshal(bytes, m)` for a `*_message`: the new value of `*m` and the
error. A text that is not JSON leaves `*m` untouched; otherwise the value is
decoded into the fields `*m` already has, and the error is the one that stopped
the decoding or else the first saved one. -/
def jsonUnmarshal (bytes : List Nat) (m : _message) : _message × Option GoError :=
  match parseJSON bytes with
  | none => (m, some GoError.syntaxError)
  | some v =>
    let st := decodeStruct decodeMessageMember { val := m, savedError := none, err := none } v
    match st.err with
    | some e => (st.val, some e)
    | none => (st.val, st.savedError)

/-- `(m *_message) Unmarshal(bytes)`: the new value of `*m` and the error. -/
def _message.Unmarshal (m : _message) (bytes : List Nat) : _message × Option GoError :=
  jsonUnmarshal bytes m

/-- The composite literal `&_message{}`: every field at its zero value. -/
def zeroMessage : _message :=
  { Meta := { UUID := [], ParentID := [], ResponseTo := [], MsgType := [], Timestamp := zeroTime }
    Payload := { Data := none, spare := [] } }

/-- `MsgFromBytes(bytes)`: the message (`none` is the nil interface value) and
the error. -/
def MsgFromBytes (bytes : List Nat) : Option _message × Option GoError :=
  let (m, err) := _message.Unmarshal zeroMessage bytes
  match err with
  | some e => (none, some e)
  | none => (some m, none)

/-- `MsgFromRequest(r)`, where `body` is the result of `ioutil.ReadAll(r.Body)`. -/
def MsgFromRequest (body : Except GoError (List Nat)) : Option _message × Option GoError :=
  match body with
  | Except.error err => (none, some err)
  | Except.ok bytes => MsgFromBytes bytes

instance : Message _message where
  UUID := _message.UUID
  ParentID := _message.ParentID
  ResponseTo := _message.ResponseTo
  Type_ := _message.Type_
  Timestamp := _message.Timestamp
  Data := _message.Data
  Marshal := _message.Marshal
  Unmarshal := _message.Unmarshal

/-- A `[]byte` value holds bytes: every element is below 256. -/
def isBytes (data : Option (List Nat)) : Bool :=
  match data with
  | none => true
  | some d => d.all (fun b => decide (b < 256))

/-- The round trip of a message `m` through the codec: `Marshal` succeeds, and
on its output `MsgFromBytes` succeeds, and so does `Unmarshal` into any
receiver, with the same message `m'`, whose fields are those of `m`: equal
identifiers and type, byte-equal data, and the timestamp of `m` as `Marshal`
serialises it, that is without the monotonic clock reading. -/
def RoundTrips (m : _message) : Prop :=
  ∃ bytes m', m.Marshal = Except.ok bytes ∧ MsgFromBytes bytes = (some m', none) ∧
    (∀ m0 : _message, m0.Unmarshal bytes = (m', none)) ∧
    m'.UUID = m.UUID ∧ m'.ParentID = m.ParentID ∧ m'.ResponseTo = m.ResponseTo ∧
    m'.Type_ = m.Type_ ∧ m'.Timestamp = m.Timestamp.stripMono ∧ m'.Data = m.Data

/-- A sample result of `uuid.New()`. -/
def sampleUUID : List Nat := [0, 1, 2, 3, 4, 5, 6, 71, 136, 9, 10, 11, 12, 13, 14, 255]

/-- A sample result of `time.Now()`: 2020-07-04 09:05:59.12 at UTC+01:00, with
a monotonic reading. -/
def sampleNow : Time :=
  { year := 2020, month := 7, day := 4, hour := 9, minute := 5, second := 59,
    nsec := 120000000, offset := 3600, mono := some 1 }

/-! ## filter.go -/

/-- The struct `messageFilter` (its `RWMutex` carries no data). -/
structure messageFilter where
  UUIDMap : GoMap
  UUIDInclusive : Bool
  TypeMap : GoMap
  TypeInclusive : Bool

/-- `newMessageFilter()`. -/
def newMessageFilter : messageFilter :=
  { UUIDMap := GoMap.empty
    UUIDInclusive := true
    TypeMap := GoMap.empty
    TypeInclusive := true }

/-- `(mf *messageFilter) allow(msg Message) bool`. -/
def messageFilter.allow {μ : Type} [Message μ] (mf : messageFilter) (msg : μ) : Bool :=
  let (allowType, exists_) := mf.TypeMap.lookup (Message.Type_ msg)
  if exists_ && !allowType then
    false
  else if !exists_ && !mf.TypeInclusive then
    false
  else
    let (allowUUID, exists_) := mf.UUIDMap.lookup (Message.UUID msg)
    if exists_ && !allowUUID then
      false
    else if !exists_ && !mf.UUIDInclusive then
      false
    else
      true

/-- `(mf *messageFilter) FilterUUID(uuid string, allow bool)`. -/
def messageFilter.FilterUUID (mf : messageFilter) (uuid : GoString) (allow : Bool) :
    messageFilter :=
  { mf with UUIDMap := mf.UUIDMap.set uuid allow }

/-- `(mf *messageFilter) FilterType(msgType string, allow bool)`. -/
def messageFilter.FilterType (mf : messageFilter) (msgType : GoString) (allow : Bool) :
    messageFilter :=
  { mf with TypeMap := mf.TypeMap.set msgType allow }

/-- A mutating call on a filter. -/
inductive FilterCall where
  | filterUUID (uuid : GoString) (allow : Bool)
  | filterType (msgType : GoString) (allow : Bool)

/-- Run one mutating call. -/
def FilterCall.run (mf : messageFilter) : FilterCall → messageFilter
  | .filterUUID u a => mf.FilterUUID u a
  | .filterType t a => mf.FilterType t a

/-- Run a finite sequence of mutating calls, first call first. -/
def runCalls (mf : messageFilter) (cs : List FilterCall) : messageFilter :=
  cs.foldl FilterCall.run mf

/-- Run a finite sequence of `FilterUUID` calls, first call first. -/
def runFilterUUIDs (mf : messageFilter) (cs : List (GoString × Bool)) : messageFilter :=
  cs.foldl (fun f c => f.FilterUUID c.1 c.2) mf

/-- The type axis of the decision as the specification words it: the stored
boolean when the type has an entry, the default otherwise. -/
def typeAllowed (mf : messageFilter) (t : GoString) : Bool :=
  match mf.TypeMap t with
  | some b => b
  | none => mf.TypeInclusive

/-- The identity axis of the decision as the specification words it. -/
def idAllowed (mf : messageFilter) (u : GoString) : Bool :=
  match mf.UUIDMap u with
  | some b => b
  | none => mf.UUIDInclusive

/-- A `_message` with the given `UUID()` and `Type()`, every other field at its
zero value. -/
def msgOf (uuid msgType : GoString) : _message :=
  { zeroMessage with Meta := { zeroMessage.Meta with UUID := uuid, MsgType := msgType } }

/-- The filter with an inclusive type axis and an exclusive identity axis, both
maps empty. -/
def exclusiveUUIDFilter : messageFilter :=
  { UUIDMap := GoMap.empty
    UUIDInclusive := false
    TypeMap := GoMap.empty
    TypeInclusive := true }

/-- A call on a filter: one of the two mutators, or the read `allow(msg)`. -/
inductive FilterOp (μ : Type) where
  | filterUUID (uuid : GoString) (allow : Bool)
  | filterType (msgType : GoString) (allow : Bool)
  | allow (msg : μ)

/-- The filter state after one call; `allow` computes its answer and leaves the
state as it is. -/
def FilterOp.run {μ : Type} [Message μ] (mf : messageFilter) : FilterOp μ → messageFilter
  | FilterOp.filterUUID u a => mf.FilterUUID u a
  | FilterOp.filterType t a => mf.FilterType t a
  | FilterOp.allow msg => if mf.allow msg then mf else mf

/-- The filter state after a finite sequence of calls, first call first. -/
def runOps {μ : Type} [Message μ] (mf : messageFilter) (ops : List (FilterOp μ)) :
    messageFilter :=
  ops.foldl FilterOp.run mf

/-- The key `k` has an entry in the map `m`. -/
def GoMap.has (m : GoMap) (k : GoString) : Bool := (m k).isSome

/-! ## The JSON grammar -/

/-- RFC 8259 `ws`: a run of spaces, tabs, line feeds and carriage returns. -/
def JSONSpace (w : List Nat) : Prop := ∀ c ∈ w, c = 32 ∨ c = 9 ∨ c = 10 ∨ c = 13

/-- RFC 8259 `HEXDIG`, in either case. -/
def JSONHex (c : Nat) : Prop := (48 ≤ c ∧ c ≤ 57) ∨ (65 ≤ c ∧ c ≤ 70) ∨ (97 ≤ c ∧ c ≤ 102)

/-- RFC 8259 `*char`, the text of a string between its quotes, read over bytes:
a byte from 0x20 on other than the quote and the backslash (whether or not
the bytes from 0x80 on are valid UTF-8), a backslash and one of
`" \ / b f n r t`, or `\u` and four hexadecimal digits. -/
inductive JSONChars : List Nat → Prop where
  | nil : JSONChars []
  | unescaped (c : Nat) (t : List Nat) : 32 ≤ c → c ≠ 34 → c ≠ 92 → JSONChars t →
      JSONChars (c :: t)
  | escaped (e : Nat) (t : List Nat) :
      (e = 34 ∨ e = 92 ∨ e = 47 ∨ e = 98 ∨ e = 102 ∨ e = 110 ∨ e = 114 ∨ e = 116) →
      JSONChars t → JSONChars (92 :: e :: t)
  | unicode (h1 h2 h3 h4 : Nat) (t : List Nat) : JSONHex h1 → JSONHex h2 → JSONHex h3 →
      JSONHex h4 → JSONChars t → JSONChars (92 :: 117 :: h1 :: h2 :: h3 :: h4 :: t)

/-- RFC 8259 `1*DIGIT`. -/
def JSONDigits (ds : List Nat) : Prop := ds ≠ [] ∧ ∀ c ∈ ds, 48 ≤ c ∧ c ≤ 57

/-- RFC 8259 `number = [ minus ] int [ frac ] [ exp ]`, where `int` is `0` or
digits that do not begin with `0`. -/
def JSONNumber (t : List Nat) : Prop :=
  ∃ minus int frac exp : List Nat, t = minus ++ int ++ frac ++ exp ∧
    (minus = [] ∨ minus = [45]) ∧
    (int = [48] ∨ (JSONDigits int ∧ int.head? ≠ some 48)) ∧
    (frac = [] ∨ ∃ ds, JSONDigits ds ∧ frac = 46 :: ds) ∧
    (exp = [] ∨ ∃ e sign ds, (e = 101 ∨ e = 69) ∧ (sign = [] ∨ sign = [43] ∨ sign = [45]) ∧
      JSONDigits ds ∧ exp = e :: (sign ++ ds))

mutual
/-- RFC 8259 `value`: the text `t` is a JSON value, and `v` is that value as a
tree (a string with the text between its quotes, a number with its text). -/
inductive JSONValue : List Nat → JValue → Prop where
  | null : JSONValue [110, 117, 108, 108] JValue.null
  | true : JSONValue [116, 114, 117, 101] (JValue.bool Bool.true)
  | false : JSONValue [102, 97, 108, 115, 101] (JValue.bool Bool.false)
  | number (t : List Nat) : JSONNumber t → JSONValue t (JValue.number t)
  | string (raw : List Nat) : JSONChars raw → JSONValue (34 :: (raw ++ [34])) (JValue.string raw)
  | emptyArray (w : List Nat) : JSONSpace w → JSONValue (91 :: (w ++ [93])) (JValue.array [])
  | array (body : List Nat) (es : List JValue) : JSONElements body es →
      JSONValue (91 :: (body ++ [93])) (JValue.array es)
  | emptyObject (w : List Nat) : JSONSpace w → JSONValue (123 :: (w ++ [125])) (JValue.object [])
  | object (body : List Nat) (ms : List (List Nat × JValue)) : JSONMembers body ms →
      JSONValue (123 :: (body ++ [125])) (JValue.object ms)
/-- RFC 8259 `value *( value-separator value )` between the brackets of an
array, each value between optional whitespace. -/
inductive JSONElements : List Nat → List JValue → Prop where
  | one (w1 t w2 : List Nat) (v : JValue) : JSONSpace w1 → JSONValue t v → JSONSpace w2 →
      JSONElements (w1 ++ t ++ w2) [v]
  | more (w1 t w2 body : List Nat) (v : JValue) (es : List JValue) : JSONSpace w1 →
      JSONValue t v → JSONSpace w2 → JSONElements body es →
      JSONElements (w1 ++ t ++ w2 ++ 44 :: body) (v :: es)
/-- RFC 8259 `member *( value-separator member )` between the braces of an
object, a member being a string, a colon and a value, each between optional
whitespace. -/
inductive JSONMembers : List Nat → List (List Nat × JValue) → Prop where
  | one (w1 key w2 w3 t w4 : List Nat) (v : JValue) : JSONSpace w1 → JSONChars key →
      JSONSpace w2 → JSONSpace w3 → JSONValue t v → JSONSpace w4 →
      JSONMembers (w1 ++ 34 :: (key ++ 34 :: (w2 ++ 58 :: (w3 ++ t ++ w4)))) [(key, v)]
  | more (w1 key w2 w3 t w4 body : List Nat) (v : JValue) (ms : List (List Nat × JValue)) :
      JSONSpace w1 → JSONChars key → JSONSpace w2 → JSONSpace w3 → JSONValue t v →
      JSONSpace w4 → JSONMembers body ms →
      JSONMembers (w1 ++ 34 :: (key ++ 34 :: (w2 ++ 58 :: (w3 ++ t ++ w4 ++ 44 :: body))))
        ((key, v) :: ms)
end

/-- RFC 8259 `JSON-text = ws value ws`: the bytes are a JSON text whose value
is `v`. -/
def JSONText (bytes : List Nat) (v : JValue) : Prop :=
  ∃ w1 t w2 : List Nat, JSONSpace w1 ∧ JSONValue t v ∧ JSONSpace w2 ∧ bytes = w1 ++ t ++ w2

mutual
/-- The nesting depth of a JSON value: the number of arrays and objects, one
inside the other, down to its innermost value. -/
def JValue.depth : JValue → Nat
  | JValue.array es => depthElements es + 1
  | JValue.object ms => depthMembers ms + 1
  | _ => 0
/-- The greatest nesting depth among the elements of an array. -/
def depthElements : List JValue → Nat
  | [] => 0
  | v :: vs => max v.depth (depthElements vs)
/-- The greatest nesting depth among the values of the members of an object. -/
def depthMembers : List (List Nat × JValue) → Nat
  | [] => 0
  | (_, v) :: ms => max v.depth (depthMembers ms)
end

/-- The bytes `a`, `b` are decimal digits and the number they write is between
`lo` and `hi`. -/
def digitPair (a b lo hi : Nat) : Bool :=
  isDigit a && isDigit b &&
    decide (lo ≤ (a - 48) * 10 + (b - 48) ∧ (a - 48) * 10 + (b - 48) ≤ hi)

/-- A zone as `time.Parse` reads the layout element `Z07:00`: `Z`, or a sign,
two digits of hours up to 24, a colon and two digits of minutes up to 60. -/
def zoneText : List Nat → Bool
  | [z] => decide (z = 90)
  | [sign, h1, h2, colon, m1, m2] =>
    decide (sign = 43 ∨ sign = 45) && decide (colon = 58) && digitPair h1 h2 0 24 &&
      digitPair m1 m2 0 60
  | _ => false

/-- An optional fraction of a second, a period or a comma and one or more
digits, and then a zone. -/
def fractionZoneText : List Nat → Bool
  | sep :: d :: rest =>
    if (sep = 46 ∨ sep = 44) ∧ isDigit d = true then zoneText (rest.dropWhile isDigit)
    else zoneText (sep :: d :: rest)
  | s => zoneText s

/-- Two digits of minutes below 60, a colon, two digits of seconds below 60,
and then the optional fraction and the zone. -/
def clockText : List Nat → Bool
  | mi1 :: mi2 :: colon :: s1 :: s2 :: rest =>
    digitPair mi1 mi2 0 59 && decide (colon = 58) && digitPair s1 s2 0 59 &&
      fractionZoneText rest
  | _ => false

/-- An hour of one digit, or of two digits below 24, a colon, and then the rest
of the time of day. -/
def hourText : List Nat → Bool
  | h1 :: c :: rest =>
    if c = 58 then isDigit h1 && clockText rest
    else
      match rest with
      | colon :: rest1 => digitPair h1 c 0 23 && decide (colon = 58) && clockText rest1
      | [] => false
  | _ => false

/-- The timestamps `time.Parse` reads with the layout `RFC3339`, a superset of
RFC 3339: four digits of year, `-`, a month from 01 to 12, `-`, a day of that
month in two digits, `T`, an hour of one or two digits, minutes and seconds of
two digits, an optional fraction after a period or a comma, and `Z` or a
numeric zone with hours up to 24 and minutes up to 60. -/
def timestampText : List Nat → Bool
  | y1 :: y2 :: y3 :: y4 :: dash1 :: m1 :: m2 :: dash2 :: d1 :: d2 :: tee :: rest =>
    isDigit y1 && isDigit y2 && isDigit y3 && isDigit y4 && decide (dash1 = 45) &&
      digitPair m1 m2 1 12 && decide (dash2 = 45) &&
      digitPair d1 d2 1
        (daysIn ((m1 - 48) * 10 + (m2 - 48)) ((digitsValue [y1, y2, y3, y4] : Nat) : Int)) &&
      decide (tee = 84) && hourText rest
  | _ => false

/-- The string with every byte that is not part of a valid UTF-8 sequence
replaced by the three bytes of U+FFFD (`n` bounds the number of runes). -/
def toValidUTF8Aux : Nat → List Nat → List Nat
  | 0, _ => []
  | _ + 1, [] => []
  | n + 1, b :: rest =>
    if (decodeRune (b :: rest)).1 = RuneError ∧ (decodeRune (b :: rest)).2 = 1 then
      [0xEF, 0xBF, 0xBD] ++ toValidUTF8Aux n rest
    else
      (b :: rest).take (decodeRune (b :: rest)).2 ++
        toValidUTF8Aux n ((b :: rest).drop (decodeRune (b :: rest)).2)

/-- The string as valid UTF-8: every byte that is not part of a valid UTF-8
sequence replaced by U+FFFD; a string that is valid UTF-8 is left as it is. -/
def toValidUTF8 (s : GoString) : GoString := toValidUTF8Aux s.length s

/-- The base64 alphabet of RFC 4648, table 1: `A` to `Z`, `a` to `z`, `0` to
`9`, `+`, `/`. -/
def base64Alphabet : List Nat :=
  [65, 66, 67, 68, 69, 70, 71, 72, 73, 74, 75, 76, 77, 78, 79, 80, 81, 82, 83, 84, 85, 86, 87, 88,
    89, 90, 97, 98, 99, 100, 101, 102, 103, 104, 105, 106, 107, 108, 109, 110, 111, 112, 113, 114,
    115, 116, 117, 118, 119, 120, 121, 122, 48, 49, 50, 51, 52, 53, 54, 55, 56, 57, 43, 47]

/-- The base64 encoding of RFC 4648, section 4: three bytes form a group of 24
bits that is written as four characters of six bits each; a last group of one
byte (two bytes) is filled with zero bits to 12 (18) bits, written as two
(three) characters and padded with `=` to four. -/
def base64Spec : List Nat → List Nat
  | [] => []
  | [a] =>
    [base64Alphabet.getD (a * 16 / 64) 0, base64Alphabet.getD (a * 16 % 64) 0, 61, 61]
  | [a, b] =>
    [base64Alphabet.getD ((a * 256 + b) * 4 / 4096) 0,
      base64Alphabet.getD ((a * 256 + b) * 4 / 64 % 64) 0,
      base64Alphabet.getD ((a * 256 + b) * 4 % 64) 0, 61]
  | a :: b :: c :: rest =>
    [base64Alphabet.getD ((a * 65536 + b * 256 + c) / 262144) 0,
      base64Alphabet.getD ((a * 65536 + b * 256 + c) / 4096 % 64) 0,
      base64Alphabet.getD ((a * 65536 + b * 256 + c) / 64 % 64) 0,
      base64Alphabet.getD ((a * 65536 + b * 256 + c) % 64) 0] ++ base64Spec rest

/-- The date and the time of day of RFC 3339 for the civil reading of `t`:
`YYYY-MM-DDTHH:MM:SS` in decimal digits. -/
def dateTimeText (t : Time) : List Nat :=
  [48 + t.year.toNat / 1000, 48 + t.year.toNat / 100 % 10, 48 + t.year.toNat / 10 % 10,
    48 + t.year.toNat % 10, 45, 48 + t.month / 10, 48 + t.month % 10, 45, 48 + t.day / 10,
    48 + t.day % 10, 84, 48 + t.hour / 10, 48 + t.hour % 10, 58, 48 + t.minute / 10,
    48 + t.minute % 10, 58, 48 + t.second / 10, 48 + t.second % 10]

/-- RFC 3339 `time-secfrac` for `nsec` nanoseconds: nothing for 0, else a
period and from one to nine digits that write `nsec` as a fraction of a
second. -/
def IsFractionText (nsec : Nat) (frac : List Nat) : Prop :=
  (nsec = 0 ∧ frac = []) ∨
    ∃ ds : List Nat, frac = 46 :: ds ∧ ds ≠ [] ∧ (∀ c ∈ ds, 48 ≤ c ∧ c ≤ 57) ∧ ds.length ≤ 9 ∧
      digitsValue ds * 10 ^ (9 - ds.length) = nsec

/-- RFC 3339 `time-offset` for a zone `offset` seconds east of UTC: `Z` for 0,
else the sign and the hours and minutes of the offset in two digits each. -/
def IsZoneText (offset : Int) (zone : List Nat) : Prop :=
  (offset = 0 ∧ zone = [90]) ∨
    ∃ sign hh mm : Nat, (sign = 43 ∨ sign = 45) ∧ hh < 24 ∧ mm < 60 ∧
      zone = [sign, 48 + hh / 10, 48 + hh % 10, 58, 48 + mm / 10, 48 + mm % 10] ∧
      offset = (if sign = 43 then (((hh * 60 + mm) * 60 : Nat) : Int)
        else -(((hh * 60 + mm) * 60 : Nat) : Int))

/-- The text `ts` is an RFC 3339 `date-time` that denotes the time `t`: a year
of four digits, a month from 1 to 12, a day of that month, an hour below 24, a
minute and a second below 60, written as the civil reading of `t`, then the
nanoseconds of `t` as the fraction and its zone offset. -/
def IsRFC3339Text (t : Time) (ts : List Nat) : Prop :=
  0 ≤ t.year ∧ t.year ≤ 9999 ∧ 1 ≤ t.month ∧ t.month ≤ 12 ∧ 1 ≤ t.day ∧
    t.day ≤ daysIn t.month t.year ∧ t.hour < 24 ∧ t.minute < 60 ∧ t.second < 60 ∧
    ∃ frac zone : List Nat, ts = dateTimeText t ++ frac ++ zone ∧ IsFractionText t.nsec frac ∧
      IsZoneText t.offset zone

/-- The JSON value of the wire layout: an object with the members `meta` and
`payload`, in this order; `meta` an object with the string members `uuid`,
`parent_id`, `response_to`, `msg_type` and `timestamp`, whose texts between the
quotes are `u`, `p`, `r`, `t` and `ts`; `payload` an object with the one member
`data`, whose value is `dv`. -/
def wireValue (u p r t ts : List Nat) (dv : JValue) : JValue :=
  JValue.object
    [([109, 101, 116, 97],
        JValue.object
          [([117, 117, 105, 100], JValue.string u),
            ([112, 97, 114, 101, 110, 116, 95, 105, 100], JValue.string p),
            ([114, 101, 115, 112, 111, 110, 115, 101, 95, 116, 111], JValue.string r),
            ([109, 115, 103, 95, 116, 121, 112, 101], JValue.string t),
            ([116, 105, 109, 101, 115, 116, 97, 109, 112], JValue.string ts)]),
      ([112, 97, 121, 108, 111, 97, 100], JValue.object [([100, 97, 116, 97], dv)])]

/-- The JSON value of the member `data` of the wire layout: `null` for the nil
slice, else the string of the base64 encoding of the bytes. -/
def dataValue (data : Option (List Nat)) : JValue :=
  match data with
  | none => JValue.null
  | some d => JValue.string (base64Spec d)

/-! ## `Unmarshal` into an existing message -/

theorem GoMap.lookup_eq (m : GoMap) (k : GoString) :
    m.lookup k = ((m k).getD false, (m k).isSome) := by
  unfold GoMap.lookup
  cases m k <;> rfl

theorem GoMap.set_same (m : GoMap) (k : GoString) (v : Bool) : m.set k v k = some v := by
  simp [GoMap.set]

theorem GoMap.set_other (m : GoMap) (k k' : GoString) (v : Bool) (h : k' ≠ k) :
    m.set k v k' = m k' := by
  simp [GoMap.set, h]

theorem allow_eq_axes {μ : Type} [Message μ] (mf : messageFilter) (msg : μ) :
    mf.allow msg = (typeAllowed mf (Message.Type_ msg) && idAllowed mf (Message.UUID msg)) := by
  unfold messageFilter.allow typeAllowed idAllowed
  simp only [GoMap.lookup_eq]
  cases mf.TypeMap (Message.Type_ msg) <;> cases mf.UUIDMap (Message.UUID msg) <;>
    cases mf.TypeInclusive <;> cases mf.UUIDInclusive <;> simp

theorem runFilterUUIDs_TypeMap (cs : List (GoString × Bool)) (mf : messageFilter) :
    (runFilterUUIDs mf cs).TypeMap = mf.TypeMap ∧
      (runFilterUUIDs mf cs).TypeInclusive = mf.TypeInclusive := by
  induction cs generalizing mf with
  | nil => exact ⟨rfl, rfl⟩
  | cons c cs ih =>
    have h := ih (mf.FilterUUID c.1 c.2)
    simpa [runFilterUUIDs, messageFilter.FilterUUID] using h

theorem runCalls_defaults (cs : List FilterCall) (mf : messageFilter) :
    (runCalls mf cs).UUIDInclusive = mf.UUIDInclusive ∧
      (runCalls mf cs).TypeInclusive = mf.TypeInclusive := by
  induction cs generalizing mf with
  | nil => exact ⟨rfl, rfl⟩
  | cons c cs ih =>
    have h := ih (c.run mf)
    cases c <;>
      simpa [runCalls, FilterCall.run, messageFilter.FilterUUID, messageFilter.FilterType]
        using h

/-- C1: `allow` returns true exactly when both axes allow the message, the type
axis being the entry of `TypeMap` for `msg.Type()` or `TypeInclusive` without an
entry, the identity axis the entry of `UUIDMap` for `msg.UUID()` or
`UUIDInclusive` without an entry. -/
theorem C1_allow_iff_both_axes {μ : Type} [Message μ] (mf : messageFilter) (msg : μ) :
    mf.allow msg = true ↔
      typeAllowed mf (Message.Type_ msg) = true ∧ idAllowed mf (Message.UUID msg) = true := by
  rw [allow_eq_axes, Bool.and_eq_true]

/-- C2: after `FilterType(t, false)` and then any finite sequence of `FilterUUID`
calls, `allow` denies every message whose `Type()` is `t`. -/
theorem C2_type_veto_dominates {μ : Type} [Message μ] (mf : messageFilter) (t : GoString)
    (cs : List (GoString × Bool)) (msg : μ) (ht : Message.Type_ msg = t) :
    (runFilterUUIDs (mf.FilterType t false) cs).allow msg = false := by
  have h := (runFilterUUIDs_TypeMap cs (mf.FilterType t false)).1
  have hv : typeAllowed (runFilterUUIDs (mf.FilterType t false) cs) (Message.Type_ msg) = false := by
    unfold typeAllowed
    rw [h, ht]
    simp [messageFilter.FilterType, GoMap.set]
  rw [allow_eq_axes, hv, Bool.false_and]

/-- C3: the filter returned by `newMessageFilter` allows every message. -/
theorem C3_new_filter_allows_all {μ : Type} [Message μ] (msg : μ) :
    newMessageFilter.allow msg = true := by
  rw [allow_eq_axes]
  simp [typeAllowed, idAllowed, newMessageFilter, GoMap.empty]

/-- C5: with `TypeInclusive = false`, a message whose `Type()` has no entry in
`TypeMap` is denied, whatever `UUIDMap` and `UUIDInclusive` are. -/
theorem C5_exclusive_type_default_vetoes {μ : Type} [Message μ] (mf : messageFilter) (msg : μ)
    (hd : mf.TypeInclusive = false) (hm : mf.TypeMap (Message.Type_ msg) = none) :
    mf.allow msg = false := by
  rw [allow_eq_axes]
  simp [typeAllowed, hm, hd]

/-- A witness of C2: `FilterType("foo", false)`, then `FilterUUID("abc", true)`;
the message `abc` of type `foo` is denied. -/
theorem C2_type_veto_dominates_witness :
    Message.Type_ (msgOf [97, 98, 99] [102, 111, 111]) = [102, 111, 111] ∧
      (runFilterUUIDs (newMessageFilter.FilterType [102, 111, 111] false)
        [([97, 98, 99], true)]).allow (msgOf [97, 98, 99] [102, 111, 111]) = false :=
  ⟨rfl, C2_type_veto_dominates newMessageFilter [102, 111, 111] [([97, 98, 99], true)]
    (msgOf [97, 98, 99] [102, 111, 111]) rfl⟩

/-- A witness of C5: a filter with `TypeInclusive = false` and no type entry,
and an identity entry that allows the message `any`; the message is denied. -/
theorem C5_exclusive_type_default_vetoes_witness :
    ({ newMessageFilter with TypeInclusive := false }.FilterUUID [97, 110, 121] true).TypeInclusive
        = false ∧
      ({ newMessageFilter with TypeInclusive := false }.FilterUUID [97, 110, 121] true).TypeMap
        (Message.Type_ (msgOf [97, 110, 121] [117, 110, 114, 101, 103])) = none ∧
      ({ newMessageFilter with TypeInclusive := false }.FilterUUID [97, 110, 121] true).allow
        (msgOf [97, 110, 121] [117, 110, 114, 101, 103]) = false :=
  ⟨rfl, rfl, C5_exclusive_type_default_vetoes _ (msgOf [97, 110, 121] [117, 110, 114, 101, 103])
    rfl rfl⟩

/-- C6: on the filter with `TypeInclusive = true`, `UUIDInclusive = false` and
both maps empty, after `FilterUUID(i, true)` a message is allowed exactly when
its `UUID()` is `i`; so the message `abc` of type `X` is allowed after
`FilterUUID("abc", true)` and the message `zzz` of type `X` is denied. -/
theorem C6_identity_allow_list {μ : Type} [Message μ] (i : GoString) (msg : μ) :
    ((exclusiveUUIDFilter.FilterUUID i true).allow msg = true ↔ Message.UUID msg = i) ∧
      (exclusiveUUIDFilter.FilterUUID [97, 98, 99] true).allow (msgOf [97, 98, 99] [88]) = true ∧
      (exclusiveUUIDFilter.FilterUUID [97, 98, 99] true).allow (msgOf [122, 122, 122] [88])
        = false := by
  refine ⟨?_, by decide, by decide⟩
  rw [allow_eq_axes]
  by_cases h : Message.UUID msg = i <;>
    simp [typeAllowed, idAllowed, exclusiveUUIDFilter, messageFilter.FilterUUID, GoMap.set,
      GoMap.empty, h]

/-- C7: starting from `newMessageFilter()`, after `FilterUUID(i, false)` a
message is allowed exactly when its `UUID()` differs from `i`, whatever its
type; so after `FilterUUID("abc", false)` the message `abc` is denied and the
message `def` is allowed. -/
theorem C7_identity_deny_entry {μ : Type} [Message μ] (i : GoString) (msg : μ) :
    ((newMessageFilter.FilterUUID i false).allow msg = true ↔ Message.UUID msg ≠ i) ∧
      (newMessageFilter.FilterUUID [97, 98, 99] false).allow (msgOf [97, 98, 99] [88]) = false ∧
      (newMessageFilter.FilterUUID [97, 98, 99] false).allow (msgOf [100, 101, 102] [88])
        = true := by
  refine ⟨?_, by decide, by decide⟩
  rw [allow_eq_axes]
  by_cases h : Message.UUID msg = i <;>
    simp [typeAllowed, idAllowed, newMessageFilter, messageFilter.FilterUUID, GoMap.set,
      GoMap.empty, h]

/-- C8: after `FilterType(t, a)` the `TypeMap` maps `t` to `a` and every other
key is as before; after `FilterUUID(i, a)` the `UUIDMap` maps `i` to `a` and
every other key is as before. Both mutators are total functions. -/
theorem C8_upsert_postcondition (mf : messageFilter) (k : GoString) (a : Bool) :
    (∀ k', (mf.FilterType k a).TypeMap k' = if k' = k then some a else mf.TypeMap k') ∧
      (∀ k', (mf.FilterUUID k a).UUIDMap k' = if k' = k then some a else mf.UUIDMap k') :=
  ⟨fun _ => rfl, fun _ => rfl⟩

/-- C9: `FilterType` leaves `UUIDMap`, `UUIDInclusive` and `TypeInclusive`
unchanged, `FilterUUID` leaves `TypeMap`, `TypeInclusive` and `UUIDInclusive`
unchanged, and in every state reached from `newMessageFilter()` by calls of the
two mutators both defaults are true. -/
theorem C9_axis_independence (mf : messageFilter) (k : GoString) (a : Bool)
    (cs : List FilterCall) :
    ((mf.FilterType k a).UUIDMap = mf.UUIDMap ∧
        (mf.FilterType k a).UUIDInclusive = mf.UUIDInclusive ∧
        (mf.FilterType k a).TypeInclusive = mf.TypeInclusive) ∧
      ((mf.FilterUUID k a).TypeMap = mf.TypeMap ∧
        (mf.FilterUUID k a).TypeInclusive = mf.TypeInclusive ∧
        (mf.FilterUUID k a).UUIDInclusive = mf.UUIDInclusive) ∧
      ((runCalls newMessageFilter cs).UUIDInclusive = true ∧
        (runCalls newMessageFilter cs).TypeInclusive = true) :=
  ⟨⟨rfl, rfl, rfl⟩, ⟨rfl, rfl, rfl⟩, runCalls_defaults cs newMessageFilter⟩

/-- C10: applying `FilterType(t, a)` twice yields the same filter state as
applying it once, and so does `FilterUUID(i, a)`. -/
theorem C10_mutators_idempotent (mf : messageFilter) (k : GoString) (a : Bool) :
    (mf.FilterType k a).FilterType k a = mf.FilterType k a ∧
      (mf.FilterUUID k a).FilterUUID k a = mf.FilterUUID k a := by
  constructor
  · have h : (mf.TypeMap.set k a).set k a = mf.TypeMap.set k a := by
      funext k'
      simp only [GoMap.set]
      split <;> rfl
    simp [messageFilter.FilterType, h]
  · have h : (mf.UUIDMap.set k a).set k a = mf.UUIDMap.set k a := by
      funext k'
      simp only [GoMap.set]
      split <;> rfl
    simp [messageFilter.FilterUUID, h]

/-! ## Theorems: UTF-8 and JSON string literals -/

theorem decodeRune_bad_first (b : Nat) (rest : List Nat) (h : 0x80 ≤ b)
    (h' : b < 0xC2 ∨ 0xF5 ≤ b) : decodeRune (b :: rest) = (RuneError, 1) := by
  have h1 : ¬ b < 0x80 := by omega
  simp only [decodeRune, h1, h', if_true, if_false]

theorem decodeRune_one (b : Nat) (h : 0x80 ≤ b) : decodeRune [b] = (RuneError, 1) := by
  have h1 : ¬ b < 0x80 := by omega
  simp only [decodeRune, h1, if_false, List.length_cons, List.length_nil]
  split_ifs <;> rfl

theorem decodeRune_two (b b1 : Nat) (rest : List Nat) (h : 0xC2 ≤ b ∧ b < 0xE0) :
    decodeRune (b :: b1 :: rest) =
      if 0x80 ≤ b1 ∧ b1 ≤ 0xBF then (b % 32 * 64 + b1 % 64, 2) else (RuneError, 1) := by
  have h1 : ¬ b < 0x80 := by omega
  have h2 : ¬ (b < 0xC2 ∨ 0xF5 ≤ b) := by omega
  have h3 : b < 0xE0 := h.2
  have h4 : b ≠ 0xE0 := by omega
  have h5 : b ≠ 0xF0 := by omega
  have h6 : b ≠ 0xED := by omega
  have h7 : b ≠ 0xF4 := by omega
  simp only [decodeRune, h1, h2, h3, h4, h5, h6, h7, if_true, if_false, List.length_cons, Nat.reduceLeDiff]
  split_ifs <;> first | omega | rfl

theorem decodeRune_three_short (b b1 : Nat) (h : 0xE0 ≤ b) :
    decodeRune [b, b1] = (RuneError, 1) := by
  have h1 : ¬ b < 0x80 := by omega
  have h3 : ¬ b < 0xE0 := by omega
  simp only [decodeRune, h1, h3, if_false, List.length_cons, List.length_nil]
  split_ifs <;> first | omega | rfl

theorem decodeRune_three (b b1 b2 : Nat) (rest : List Nat) (h : 0xE0 ≤ b ∧ b < 0xF0) :
    decodeRune (b :: b1 :: b2 :: rest) =
      if ((if b = 0xE0 then 0xA0 else 0x80) ≤ b1 ∧ b1 ≤ (if b = 0xED then 0x9F else 0xBF)) ∧
          (0x80 ≤ b2 ∧ b2 ≤ 0xBF)
      then (b % 16 * 4096 + b1 % 64 * 64 + b2 % 64, 3) else (RuneError, 1) := by
  have h1 : ¬ b < 0x80 := by omega
  have h2 : ¬ (b < 0xC2 ∨ 0xF5 ≤ b) := by omega
  have h3 : ¬ b < 0xE0 := by omega
  have h4 : b < 0xF0 := h.2
  have h5 : b ≠ 0xF0 := by omega
  have h7 : b ≠ 0xF4 := by omega
  simp only [decodeRune, h1, h2, h3, h4, h5, h7, if_true, if_false, List.length_cons, Nat.reduceLeDiff]
  split_ifs <;> first | omega | rfl

theorem decodeRune_four_short (b b1 b2 : Nat) (h : 0xF0 ≤ b) :
    decodeRune [b, b1, b2] = (RuneError, 1) := by
  have h1 : ¬ b < 0x80 := by omega
  have h3 : ¬ b < 0xE0 := by omega
  have h4 : ¬ b < 0xF0 := by omega
  simp only [decodeRune, h1, h3, h4, if_false, List.length_cons, List.length_nil]
  split_ifs <;> first | omega | rfl

theorem decodeRune_four (b b1 b2 b3 : Nat) (rest : List Nat) (h : 0xF0 ≤ b ∧ b < 0xF5) :
    decodeRune (b :: b1 :: b2 :: b3 :: rest) =
      if ((if b = 0xF0 then 0x90 else 0x80) ≤ b1 ∧ b1 ≤ (if b = 0xF4 then 0x8F else 0xBF)) ∧
          (0x80 ≤ b2 ∧ b2 ≤ 0xBF) ∧ (0x80 ≤ b3 ∧ b3 ≤ 0xBF)
      then (b % 8 * 262144 + b1 % 64 * 4096 + b2 % 64 * 64 + b3 % 64, 4)
      else (RuneError, 1) := by
  have h1 : ¬ b < 0x80 := by omega
  have h2 : ¬ (b < 0xC2 ∨ 0xF5 ≤ b) := by omega
  have h3 : ¬ b < 0xE0 := by omega
  have h4 : ¬ b < 0xF0 := by omega
  have h5 : b ≠ 0xE0 := by omega
  have h7 : b ≠ 0xED := by omega
  simp only [decodeRune, h1, h2, h3, h4, h5, h7, if_true, if_false, List.length_cons, Nat.reduceLeDiff]
  split_ifs <;> first | omega | rfl

theorem decodeRune_valid (b : Nat) (rest : List Nat) (hb : 0x80 ≤ b)
    (hv : ¬((decodeRune (b :: rest)).1 = RuneError ∧ (decodeRune (b :: rest)).2 = 1)) :
    RuneOK (b :: rest) (decodeRune (b :: rest)).1 (decodeRune (b :: rest)).2 := by
  by_cases h1 : b < 0xC2 ∨ 0xF5 ≤ b
  · rw [decodeRune_bad_first b rest hb h1] at hv; exact absurd ⟨rfl, rfl⟩ hv
  rcases rest with _ | ⟨b1, rest1⟩
  · rw [decodeRune_one b hb] at hv; exact absurd ⟨rfl, rfl⟩ hv
  by_cases h2 : b < 0xE0
  · have hr := decodeRune_two b b1 rest1 ⟨by omega, h2⟩
    by_cases hc : 0x80 ≤ b1 ∧ b1 ≤ 0xBF
    · rw [if_pos hc] at hr
      rw [hr]
      refine ⟨by simp, by simp, by simp, ?_, ?_, ?_, ?_⟩
      · have e1 : ¬ (b % 32 * 64 + b1 % 64 ≤ 0x7F) := by omega
        have e2 : b % 32 * 64 + b1 % 64 ≤ 0x7FF := by omega
        simp only [encodeRune, e1, e2, if_true, if_false, List.take_succ_cons, List.take_zero]
        congr 1
        · omega
        · congr 1; omega
      · intro x hx
        simp only [List.take_succ_cons, List.take_zero, List.mem_cons, List.mem_singleton,
          List.not_mem_nil, or_false] at hx
        rcases hx with rfl | rfl <;> omega
      · show 0x80 ≤ b % 32 * 64 + b1 % 64
        omega
      · intro rest
        simp only [List.take_succ_cons, List.take_zero, List.cons_append, List.nil_append]
        rw [decodeRune_two b b1 rest ⟨by omega, h2⟩, if_pos hc]
    · rw [if_neg hc] at hr
      rw [hr] at hv; exact absurd ⟨rfl, rfl⟩ hv
  by_cases h3 : b < 0xF0
  · rcases rest1 with _ | ⟨b2, rest2⟩
    · rw [decodeRune_three_short b b1 (by omega)] at hv; exact absurd ⟨rfl, rfl⟩ hv
    have hr := decodeRune_three b b1 b2 rest2 ⟨by omega, h3⟩
    by_cases hc : ((if b = 0xE0 then 0xA0 else 0x80) ≤ b1 ∧
        b1 ≤ (if b = 0xED then 0x9F else 0xBF)) ∧ (0x80 ≤ b2 ∧ b2 ≤ 0xBF)
    · rw [if_pos hc] at hr
      rw [hr]
      have hc1 : (b = 0xE0 → 0xA0 ≤ b1) ∧ 0x80 ≤ b1 ∧ (b = 0xED → b1 ≤ 0x9F) ∧ b1 ≤ 0xBF := by
        obtain ⟨⟨ha, hb⟩, _⟩ := hc
        split_ifs at ha hb <;> omega
      have hc2 := hc.2
      refine ⟨by simp, by simp, by simp, ?_, ?_, ?_, ?_⟩
      · have e1 : ¬ (b % 16 * 4096 + b1 % 64 * 64 + b2 % 64 ≤ 0x7F) := by omega
        have e2 : ¬ (b % 16 * 4096 + b1 % 64 * 64 + b2 % 64 ≤ 0x7FF) := by omega
        have e3 : ¬ (0x10FFFF < b % 16 * 4096 + b1 % 64 * 64 + b2 % 64 ∨
            (0xD800 ≤ b % 16 * 4096 + b1 % 64 * 64 + b2 % 64 ∧
              b % 16 * 4096 + b1 % 64 * 64 + b2 % 64 ≤ 0xDFFF)) := by omega
        have e4 : b % 16 * 4096 + b1 % 64 * 64 + b2 % 64 ≤ 0xFFFF := by omega
        simp only [encodeRune, e1, e2, e3, e4, if_true, if_false, List.take_succ_cons,
          List.take_zero]
        congr 1
        · omega
        · congr 1
          · omega
          · congr 1; omega
      · intro x hx
        simp only [List.take_succ_cons, List.take_zero, List.mem_cons, List.mem_singleton,
          List.not_mem_nil, or_false] at hx
        rcases hx with rfl | rfl | rfl <;> omega
      · show 0x80 ≤ b % 16 * 4096 + b1 % 64 * 64 + b2 % 64
        omega
      · intro rest
        simp only [List.take_succ_cons, List.take_zero, List.cons_append, List.nil_append]
        rw [decodeRune_three b b1 b2 rest ⟨by omega, h3⟩, if_pos ⟨hc.1, hc2⟩]
    · rw [if_neg hc] at hr
      rw [hr] at hv; exact absurd ⟨rfl, rfl⟩ hv
  rcases rest1 with _ | ⟨b2, rest2⟩
  · rw [decodeRune_three_short b b1 (by omega)] at hv; exact absurd ⟨rfl, rfl⟩ hv
  rcases rest2 with _ | ⟨b3, rest3⟩
  · rw [decodeRune_four_short b b1 b2 (by omega)] at hv; exact absurd ⟨rfl, rfl⟩ hv
  have hr := decodeRune_four b b1 b2 b3 rest3 ⟨by omega, by omega⟩
  by_cases hc : ((if b = 0xF0 then 0x90 else 0x80) ≤ b1 ∧
      b1 ≤ (if b = 0xF4 then 0x8F else 0xBF)) ∧ (0x80 ≤ b2 ∧ b2 ≤ 0xBF) ∧ (0x80 ≤ b3 ∧ b3 ≤ 0xBF)
  · rw [if_pos hc] at hr
    rw [hr]
    have hc1 : (b = 0xF0 → 0x90 ≤ b1) ∧ 0x80 ≤ b1 ∧ (b = 0xF4 → b1 ≤ 0x8F) ∧ b1 ≤ 0xBF := by
      obtain ⟨⟨ha, hb⟩, _⟩ := hc
      split_ifs at ha hb <;> omega
    obtain ⟨hc0, hc2, hc3⟩ := hc
    refine ⟨by simp, by simp, by simp, ?_, ?_, ?_, ?_⟩
    · have e1 : ¬ (b % 8 * 262144 + b1 % 64 * 4096 + b2 % 64 * 64 + b3 % 64 ≤ 0x7F) := by omega
      have e2 : ¬ (b % 8 * 262144 + b1 % 64 * 4096 + b2 % 64 * 64 + b3 % 64 ≤ 0x7FF) := by
        omega
      have e3 : ¬ (0x10FFFF < b % 8 * 262144 + b1 % 64 * 4096 + b2 % 64 * 64 + b3 % 64 ∨
          (0xD800 ≤ b % 8 * 262144 + b1 % 64 * 4096 + b2 % 64 * 64 + b3 % 64 ∧
            b % 8 * 262144 + b1 % 64 * 4096 + b2 % 64 * 64 + b3 % 64 ≤ 0xDFFF)) := by omega
      have e4 : ¬ (b % 8 * 262144 + b1 % 64 * 4096 + b2 % 64 * 64 + b3 % 64 ≤ 0xFFFF) := by
        omega
      simp only [encodeRune, e1, e2, e3, e4, if_true, if_false, List.take_succ_cons,
        List.take_zero]
      congr 1
      · omega
      · congr 1
        · omega
        · congr 1
          · omega
          · congr 1; omega
    · intro x hx
      simp only [List.take_succ_cons, List.take_zero, List.mem_cons, List.mem_singleton,
        List.not_mem_nil, or_false] at hx
      rcases hx with rfl | rfl | rfl | rfl <;> omega
    · show 0x80 ≤ b % 8 * 262144 + b1 % 64 * 4096 + b2 % 64 * 64 + b3 % 64
      omega
    · intro rest
      simp only [List.take_succ_cons, List.take_zero, List.cons_append, List.nil_append]
      rw [decodeRune_four b b1 b2 b3 rest ⟨by omega, by omega⟩, if_pos ⟨hc0, hc2, hc3⟩]
  · rw [if_neg hc] at hr
    rw [hr] at hv; exact absurd ⟨rfl, rfl⟩ hv


theorem scanString_quote (rest : List Nat) : scanString (34 :: rest) = some ([], rest) := by
  rw [scanString.eq_def]; simp

theorem scanString_plain_cons (c : Nat) (t : List Nat) (h : 32 ≤ c ∧ c ≠ 34 ∧ c ≠ 92) :
    scanString (c :: t) = (scanString t).map (fun x => (c :: x.1, x.2)) := by
  have h1 : ¬ c < 32 := by omega
  rw [scanString.eq_def]
  simp only [h.2.1, h.2.2, h1, if_false]

theorem scanString_plain_append (l t : List Nat) (h : ∀ c ∈ l, 32 ≤ c ∧ c ≠ 34 ∧ c ≠ 92) :
    scanString (l ++ t) = (scanString t).map (fun x => (l ++ x.1, x.2)) := by
  induction l with
  | nil => simp
  | cons c l ih =>
    rw [List.cons_append, scanString_plain_cons c _ (h c (List.mem_cons_self c l)),
      ih (fun x hx => h x (List.mem_cons_of_mem c hx))]
    cases scanString t <;> simp

theorem scanString_escape (e : Nat) (t : List Nat)
    (h : e = 34 ∨ e = 92 ∨ e = 47 ∨ e = 98 ∨ e = 102 ∨ e = 110 ∨ e = 114 ∨ e = 116) :
    scanString (92 :: e :: t) = (scanString t).map (fun x => (92 :: e :: x.1, x.2)) := by
  rw [scanString.eq_def]
  simp only [h, if_true]
  simp

theorem scanString_u4 (h1 h2 h3 h4 : Nat) (t : List Nat)
    (h : (hexVal h1).isSome ∧ (hexVal h2).isSome ∧ (hexVal h3).isSome ∧ (hexVal h4).isSome) :
    scanString (92 :: 117 :: h1 :: h2 :: h3 :: h4 :: t) =
      (scanString t).map (fun x => (92 :: 117 :: h1 :: h2 :: h3 :: h4 :: x.1, x.2)) := by
  rw [scanString.eq_def]
  simp only [h]
  simp

theorem hexVal_hexDigit (x : Nat) (h : x < 16) : hexVal (hexDigit x) = some x := by
  unfold hexVal hexDigit
  split_ifs <;> first | omega | (congr 1; omega)

theorem appendStringBody_cons (n b : Nat) (s : List Nat) :
    appendStringBody (n + 1) (b :: s) =
      if b < 0x80 then
        if htmlSafe b then b :: appendStringBody n s
        else if b = 92 ∨ b = 34 then [92, b] ++ appendStringBody n s
        else if b = 8 then [92, 98] ++ appendStringBody n s
        else if b = 12 then [92, 102] ++ appendStringBody n s
        else if b = 10 then [92, 110] ++ appendStringBody n s
        else if b = 13 then [92, 114] ++ appendStringBody n s
        else if b = 9 then [92, 116] ++ appendStringBody n s
        else [92, 117, 48, 48, hexDigit (b / 16), hexDigit (b % 16)] ++ appendStringBody n s
      else
        if (decodeRune (b :: s)).1 = RuneError ∧ (decodeRune (b :: s)).2 = 1 then
          [92, 117, 102, 102, 102, 100] ++ appendStringBody n s
        else if (decodeRune (b :: s)).1 = 0x2028 ∨ (decodeRune (b :: s)).1 = 0x2029 then
          [92, 117, 50, 48, 50, hexDigit ((decodeRune (b :: s)).1 % 16)] ++
            appendStringBody n ((b :: s).drop (decodeRune (b :: s)).2)
        else
          (b :: s).take (decodeRune (b :: s)).2 ++
            appendStringBody n ((b :: s).drop (decodeRune (b :: s)).2) := by
  rw [appendStringBody]

/-- The text `appendString` writes between the quotes is accepted by the
scanner up to the closing quote, whatever the string. -/
theorem scanString_appendStringBody (n : Nat) :
    ∀ (s rest : List Nat),
      scanString (appendStringBody n s ++ 34 :: rest) = some (appendStringBody n s, rest) := by
  induction n with
  | zero => intro s rest; simp [appendStringBody, scanString_quote]
  | succ n ih =>
    intro s rest
    rcases s with _ | ⟨b, s'⟩
    · simp [appendStringBody, scanString_quote]
    · rw [appendStringBody_cons]
      by_cases hb : b < 0x80
      · rw [if_pos hb]
        by_cases hs : htmlSafe b = true
        · rw [if_pos hs]
          have hp : 32 ≤ b ∧ b ≠ 34 ∧ b ≠ 92 := by
            simp only [htmlSafe, decide_eq_true_eq] at hs; omega
          rw [List.cons_append, scanString_plain_cons b _ hp, ih]
          rfl
        · rw [if_neg hs]
          split_ifs with h1 h2 h3 h4 h5 h6
          · rw [List.append_assoc, List.cons_append, List.cons_append, List.nil_append,
              scanString_escape b _ (by omega), ih]; rfl
          · rw [List.append_assoc, List.cons_append, List.cons_append, List.nil_append,
              scanString_escape _ _ (by decide), ih]; rfl
          · rw [List.append_assoc, List.cons_append, List.cons_append, List.nil_append,
              scanString_escape _ _ (by decide), ih]; rfl
          · rw [List.append_assoc, List.cons_append, List.cons_append, List.nil_append,
              scanString_escape _ _ (by decide), ih]; rfl
          · rw [List.append_assoc, List.cons_append, List.cons_append, List.nil_append,
              scanString_escape _ _ (by decide), ih]; rfl
          · rw [List.append_assoc, List.cons_append, List.cons_append, List.nil_append,
              scanString_escape _ _ (by decide), ih]; rfl
          · have hx1 := hexVal_hexDigit (b / 16) (by omega)
            have hx2 := hexVal_hexDigit (b % 16) (by omega)
            rw [List.append_assoc]
            simp only [List.cons_append, List.nil_append]
            rw [scanString_u4 _ _ _ _ _ ⟨by decide, by decide, by simp [hx1], by simp [hx2]⟩, ih]
            rfl
      · rw [if_neg hb]
        split_ifs with h1 h2
        · rw [List.append_assoc]
          simp only [List.cons_append, List.nil_append]
          rw [scanString_u4 _ _ _ _ _ ⟨by decide, by decide, by decide, by decide⟩, ih]
          rfl
        · have hx := hexVal_hexDigit ((decodeRune (b :: s')).1 % 16) (by omega)
          rw [List.append_assoc]
          simp only [List.cons_append, List.nil_append]
          rw [scanString_u4 _ _ _ _ _ ⟨by decide, by decide, by decide, by simp [hx]⟩, ih]
          rfl
        · have hok := decodeRune_valid b s' (by omega) h1
          rw [List.append_assoc, scanString_plain_append _ _
            (fun c hc => by have := hok.hi c hc; omega), ih]
          rfl


theorem decodeRune_ascii (b : Nat) (s : List Nat) (h : b < 0x80) : decodeRune (b :: s) = (b, 1) := by
  simp only [decodeRune, h, if_true]

theorem unquoteBody_cons (k c : Nat) (rest : List Nat) :
    unquoteBody (k + 1) (c :: rest) =
    if c = 92 then
      match rest with
      | [] => none
      | e :: rest1 =>
        if e = 34 ∨ e = 92 ∨ e = 47 ∨ e = 39 then (unquoteBody k rest1).map (fun t => e :: t)
        else if e = 98 then (unquoteBody k rest1).map (fun t => 8 :: t)
        else if e = 102 then (unquoteBody k rest1).map (fun t => 12 :: t)
        else if e = 110 then (unquoteBody k rest1).map (fun t => 10 :: t)
        else if e = 114 then (unquoteBody k rest1).map (fun t => 13 :: t)
        else if e = 116 then (unquoteBody k rest1).map (fun t => 9 :: t)
        else if e = 117 then
          match getu4 (c :: rest) with
          | none => none
          | some rr =>
            if 0xD800 ≤ rr ∧ rr < 0xE000 then
              match getu4 (rest1.drop 4) with
              | some rr1 =>
                if rr < 0xDC00 ∧ 0xDC00 ≤ rr1 ∧ rr1 < 0xE000 then
                  (unquoteBody k ((rest1.drop 4).drop 6)).map
                    (fun t => encodeRune ((rr - 0xD800) * 1024 + (rr1 - 0xDC00) + 0x10000) ++ t)
                else (unquoteBody k (rest1.drop 4)).map (fun t => encodeRune RuneError ++ t)
              | none => (unquoteBody k (rest1.drop 4)).map (fun t => encodeRune RuneError ++ t)
            else (unquoteBody k (rest1.drop 4)).map (fun t => encodeRune rr ++ t)
        else none
    else if c = 34 ∨ c < 32 then none
    else if c < 0x80 then (unquoteBody k rest).map (fun t => c :: t)
    else
      (unquoteBody k ((c :: rest).drop (decodeRune (c :: rest)).2)).map
        (fun t => encodeRune (decodeRune (c :: rest)).1 ++ t) := by
  rw [unquoteBody.eq_def]

theorem unquoteBody_plain (k c : Nat) (t : List Nat)
    (h : 32 ≤ c ∧ c ≠ 34 ∧ c ≠ 92 ∧ c < 0x80) :
    unquoteBody (k + 1) (c :: t) = (unquoteBody k t).map (fun x => c :: x) := by
  have h1 : ¬ (c = 34 ∨ c < 32) := by omega
  rw [unquoteBody_cons]
  simp only [h.2.2.1, h1, h.2.2.2, if_true, if_false]

theorem unquoteBody_escape (k e : Nat) (t : List Nat) (h : e = 34 ∨ e = 92) :
    unquoteBody (k + 1) (92 :: e :: t) = (unquoteBody k t).map (fun x => e :: x) := by
  have h1 : e = 34 ∨ e = 92 ∨ e = 47 ∨ e = 39 := by omega
  rw [unquoteBody_cons]
  simp only [h1, if_true]

theorem unquoteBody_u4 (k h1 h2 h3 h4 a b c d : Nat) (t : List Nat)
    (e1 : hexVal h1 = some a) (e2 : hexVal h2 = some b) (e3 : hexVal h3 = some c)
    (e4 : hexVal h4 = some d)
    (hs : ¬ (0xD800 ≤ a * 4096 + b * 256 + c * 16 + d ∧ a * 4096 + b * 256 + c * 16 + d < 0xE000)) :
    unquoteBody (k + 1) (92 :: 117 :: h1 :: h2 :: h3 :: h4 :: t) =
      (unquoteBody k t).map (fun x => encodeRune (a * 4096 + b * 256 + c * 16 + d) ++ x) := by
  rw [unquoteBody_cons]
  simp only [getu4, e1, e2, e3, e4, hs, if_true, if_false, List.drop_succ_cons, List.drop_zero]
  simp

theorem unquoteBody_rune (k b : Nat) (s t : List Nat) (hb : 0x80 ≤ b)
    (hok : RuneOK (b :: s) (decodeRune (b :: s)).1 (decodeRune (b :: s)).2) :
    unquoteBody (k + 1) ((b :: s).take (decodeRune (b :: s)).2 ++ t) =
      (unquoteBody k t).map (fun x => (b :: s).take (decodeRune (b :: s)).2 ++ x) := by
  obtain ⟨sz, hsz⟩ : ∃ sz, (decodeRune (b :: s)).2 = sz + 1 := ⟨(decodeRune (b :: s)).2 - 1, by
    have := hok.two_le; omega⟩
  have hst := hok.stable t
  have hlen : ((b :: s).take (decodeRune (b :: s)).2).length = (decodeRune (b :: s)).2 := by
    rw [List.length_take]; have := hok.le_len; omega
  have henc := hok.enc
  rw [hsz] at hst hlen henc ⊢
  rw [List.take_succ_cons] at hst hlen henc ⊢
  rw [List.cons_append] at hst ⊢
  have h1 : ¬ b = 92 := by omega
  have h2 : ¬ (b = 34 ∨ b < 32) := by omega
  have h3 : ¬ b < 0x80 := by omega
  rw [unquoteBody_cons]
  simp only [h1, h2, h3, if_false, hst, henc]
  congr 2
  rw [← List.cons_append, List.drop_left' hlen]

theorem validUTF8Aux_cons (v b : Nat) (s : List Nat) :
    validUTF8Aux (v + 1) (b :: s) =
      if (decodeRune (b :: s)).1 = RuneError ∧ (decodeRune (b :: s)).2 = 1 then false
      else validUTF8Aux v ((b :: s).drop (decodeRune (b :: s)).2) := by
  rw [validUTF8Aux]

theorem unquoteBody_escape_ctl (k e x : Nat) (t : List Nat)
    (h : (e = 98 ∧ x = 8) ∨ (e = 102 ∧ x = 12) ∨ (e = 110 ∧ x = 10) ∨ (e = 114 ∧ x = 13) ∨
      (e = 116 ∧ x = 9)) :
    unquoteBody (k + 1) (92 :: e :: t) = (unquoteBody k t).map (fun y => x :: y) := by
  rw [unquoteBody_cons]
  rcases h with ⟨rfl, rfl⟩ | ⟨rfl, rfl⟩ | ⟨rfl, rfl⟩ | ⟨rfl, rfl⟩ | ⟨rfl, rfl⟩ <;> simp

theorem appendStringBody_length_pos (n b : Nat) (s : List Nat) :
    1 ≤ (appendStringBody (n + 1) (b :: s)).length := by
  rw [appendStringBody_cons]
  split_ifs with h1 h2 h3 h4 h5 h6 h7 h8 h9 h10 <;> simp
  have hok := decodeRune_valid b s (by omega) h9
  have := hok.two_le
  omega

/-- Unquoting what `appendString` wrote gives the string back when the string
is valid UTF-8. -/
theorem unquoteBody_appendStringBody (n : Nat) :
    ∀ (s : List Nat) (v k : Nat), s.length ≤ n → validUTF8Aux v s = true →
      (appendStringBody n s).length ≤ k → unquoteBody k (appendStringBody n s) = some s := by
  induction n with
  | zero =>
    intro s v k hn _ _
    have hs : s = [] := List.length_eq_zero.mp (Nat.le_zero.mp hn)
    subst hs
    cases k <;> simp [appendStringBody, unquoteBody]
  | succ n ih =>
    intro s v k hn hv hk
    rcases s with _ | ⟨b, s'⟩
    · cases k <;> simp [appendStringBody, unquoteBody]
    rcases v with _ | v
    · simp [validUTF8Aux] at hv
    rcases k with _ | k
    · have := appendStringBody_length_pos n b s'; omega
    rw [validUTF8Aux_cons] at hv
    have hlen : s'.length ≤ n := by simpa using hn
    rw [appendStringBody_cons] at hk ⊢
    by_cases hb : b < 0x80
    · rw [decodeRune_ascii b s' hb] at hv
      have hv' : validUTF8Aux v s' = true := by
        have hne : ¬ ((b, 1).1 = RuneError ∧ (b, 1).2 = 1) := by
          simp only [RuneError]; omega
        rw [if_neg hne] at hv
        simpa using hv
      rw [if_pos hb] at hk ⊢
      by_cases hs : htmlSafe b = true
      · rw [if_pos hs] at hk ⊢
        have hp : 32 ≤ b ∧ b ≠ 34 ∧ b ≠ 92 ∧ b < 0x80 := by
          simp only [htmlSafe, decide_eq_true_eq] at hs; omega
        rw [unquoteBody_plain k b _ hp, ih s' v k hlen hv' (by simpa using hk)]
        rfl
      · rw [if_neg hs] at hk ⊢
        split_ifs at hk ⊢ with h1 h2 h3 h4 h5 h6
        · rw [List.cons_append, List.cons_append, List.nil_append,
            unquoteBody_escape k b _ (by omega), ih s' v k hlen hv' (by simp at hk; omega)]
          rfl
        · rw [List.cons_append, List.cons_append, List.nil_append,
            unquoteBody_escape_ctl k 98 b _ (by omega), ih s' v k hlen hv' (by simp at hk; omega)]
          rfl
        · rw [List.cons_append, List.cons_append, List.nil_append,
            unquoteBody_escape_ctl k 102 b _ (by omega), ih s' v k hlen hv' (by simp at hk; omega)]
          rfl
        · rw [List.cons_append, List.cons_append, List.nil_append,
            unquoteBody_escape_ctl k 110 b _ (by omega), ih s' v k hlen hv' (by simp at hk; omega)]
          rfl
        · rw [List.cons_append, List.cons_append, List.nil_append,
            unquoteBody_escape_ctl k 114 b _ (by omega), ih s' v k hlen hv' (by simp at hk; omega)]
          rfl
        · rw [List.cons_append, List.cons_append, List.nil_append,
            unquoteBody_escape_ctl k 116 b _ (by omega), ih s' v k hlen hv' (by simp at hk; omega)]
          rfl
        · have hx1 := hexVal_hexDigit (b / 16) (by omega)
          have hx2 := hexVal_hexDigit (b % 16) (by omega)
          simp only [List.cons_append, List.nil_append] at hk ⊢
          rw [unquoteBody_u4 k 48 48 _ _ 0 0 (b / 16) (b % 16) _ (by decide) (by decide) hx1 hx2
            (by omega), ih s' v k hlen hv' (by simp at hk; omega)]
          have e : 0 * 4096 + 0 * 256 + b / 16 * 16 + b % 16 = b := by omega
          have e1 : b ≤ 0x7F := by omega
          simp only [e, encodeRune, e1, if_true]
          rfl
    · have hb' : 0x80 ≤ b := by omega
      rw [if_neg hb] at hk ⊢
      by_cases herr : (decodeRune (b :: s')).1 = RuneError ∧ (decodeRune (b :: s')).2 = 1
      · rw [if_pos herr] at hv; exact absurd hv (by simp)
      rw [if_neg herr] at hv hk ⊢
      have hok := decodeRune_valid b s' hb' herr
      have hlen' : ((b :: s').drop (decodeRune (b :: s')).2).length ≤ n := by
        rw [List.length_drop]
        have := hok.two_le
        simp only [List.length_cons]; omega
      have hsplit : (b :: s').take (decodeRune (b :: s')).2 ++
          (b :: s').drop (decodeRune (b :: s')).2 = b :: s' := List.take_append_drop _ _
      split_ifs at hk ⊢ with h2
      · have hx := hexVal_hexDigit ((decodeRune (b :: s')).1 % 16) (by omega)
        simp only [List.cons_append, List.nil_append] at hk ⊢
        rw [unquoteBody_u4 k 50 48 50 _ 2 0 2 _ _ (by decide) (by decide) (by decide) hx
          (by omega), ih _ v k hlen' hv (by simp at hk; omega)]
        have e : 2 * 4096 + 0 * 256 + 2 * 16 + (decodeRune (b :: s')).1 % 16 =
            (decodeRune (b :: s')).1 := by omega
        rw [e, hok.enc]
        simp only [Option.map_some', hsplit]
      · rw [unquoteBody_rune k b s' _ hb' hok, ih _ v k hlen' hv (by
          have := hok.two_le
          have := hok.le_len
          simp only [List.length_append, List.length_take] at hk
          omega)]
        simp only [Option.map_some', hsplit]


theorem b64Val_b64Char (n : Nat) (h : n < 64) : b64Val (b64Char n) = some n := by
  unfold b64Val b64Char
  split_ifs <;> first | omega | (congr 1; omega)

theorem b64Char_plain (n : Nat) (h : n < 64) :
    32 ≤ b64Char n ∧ b64Char n ≠ 34 ∧ b64Char n ≠ 92 ∧ b64Char n < 0x80 ∧ b64Char n ≠ 61 ∧
      b64Char n ≠ 10 ∧ b64Char n ≠ 13 := by
  unfold b64Char
  split_ifs <;> omega

/-- The characters `base64Encode` writes: the alphabet and `=`. -/
theorem base64Encode_chars (n : Nat) :
    ∀ d : List Nat, d.length ≤ n → (∀ b ∈ d, b < 256) →
      ∀ c ∈ base64Encode d, 32 ≤ c ∧ c ≠ 34 ∧ c ≠ 92 ∧ c < 0x80 ∧ c ≠ 10 ∧ c ≠ 13 := by
  induction n using Nat.strong_induction_on with
  | _ n ih =>
    intro d hn hd c hc
    rcases d with _ | ⟨a, _ | ⟨b, _ | ⟨e, rest⟩⟩⟩
    · simp [base64Encode] at hc
    · have ha := hd a (by simp)
      have p1 := b64Char_plain (a / 4) (by omega)
      have p2 := b64Char_plain (a % 4 * 16) (by omega)
      simp only [base64Encode, List.mem_cons, List.mem_singleton, List.not_mem_nil, or_false] at hc
      rcases hc with rfl | rfl | rfl | rfl <;> omega
    · have ha := hd a (by simp)
      have hb := hd b (by simp)
      have p1 := b64Char_plain (a / 4) (by omega)
      have p2 := b64Char_plain (a % 4 * 16 + b / 16) (by omega)
      have p3 := b64Char_plain (b % 16 * 4) (by omega)
      simp only [base64Encode, List.mem_cons, List.mem_singleton, List.not_mem_nil, or_false] at hc
      rcases hc with rfl | rfl | rfl | rfl <;> omega
    · have ha := hd a (by simp)
      have hb := hd b (by simp)
      have he := hd e (by simp)
      have p1 := b64Char_plain (a / 4) (by omega)
      have p2 := b64Char_plain (a % 4 * 16 + b / 16) (by omega)
      have p3 := b64Char_plain (b % 16 * 4 + e / 64) (by omega)
      have p4 := b64Char_plain (e % 64) (by omega)
      simp only [base64Encode, List.cons_append, List.nil_append, List.mem_cons] at hc
      rcases hc with rfl | rfl | rfl | rfl | hc
      · omega
      · omega
      · omega
      · omega
      · exact ih rest.length (by simp at hn; omega) rest le_rfl
          (fun x hx => hd x (by simp [hx])) c hc

theorem decodeQuanta_four (c0 c1 c2 c3 v0 v1 v2 v3 : Nat) (rest : List Nat)
    (h0 : b64Val c0 = some v0) (h1 : b64Val c1 = some v1) (h2 : b64Val c2 = some v2)
    (h3 : b64Val c3 = some v3) (n2 : c2 ≠ 61) (n3 : c3 ≠ 61) :
    decodeQuanta (c0 :: c1 :: c2 :: c3 :: rest) =
      (decodeQuanta rest).map
        (fun out => [v0 * 4 + v1 / 16, v1 % 16 * 16 + v2 / 4, v2 % 4 * 64 + v3] ++ out) := by
  rw [decodeQuanta.eq_def]
  simp only [h0, h1, h2, h3, n2, n3, if_false]

theorem decodeQuanta_three (c0 c1 c2 v0 v1 v2 : Nat)
    (h0 : b64Val c0 = some v0) (h1 : b64Val c1 = some v1) (h2 : b64Val c2 = some v2)
    (n2 : c2 ≠ 61) :
    decodeQuanta [c0, c1, c2, 61] = some [v0 * 4 + v1 / 16, v1 % 16 * 16 + v2 / 4] := by
  rw [decodeQuanta.eq_def]
  simp only [h0, h1, h2, n2, if_false, if_true]

theorem decodeQuanta_two (c0 c1 v0 v1 : Nat)
    (h0 : b64Val c0 = some v0) (h1 : b64Val c1 = some v1) :
    decodeQuanta [c0, c1, 61, 61] = some [v0 * 4 + v1 / 16] := by
  rw [decodeQuanta.eq_def]
  simp only [h0, h1, if_true, and_self]

/-- Decoding the quanta `base64Encode` wrote gives the bytes back. -/
theorem decodeQuanta_base64Encode (n : Nat) :
    ∀ d : List Nat, d.length ≤ n → (∀ b ∈ d, b < 256) →
      decodeQuanta (base64Encode d) = some d := by
  induction n using Nat.strong_induction_on with
  | _ n ih =>
    intro d hn hd
    rcases d with _ | ⟨a, _ | ⟨b, _ | ⟨e, rest⟩⟩⟩
    · simp [base64Encode, decodeQuanta]
    · have ha := hd a (by simp)
      simp only [base64Encode]
      rw [decodeQuanta_two _ _ _ _ (b64Val_b64Char (a / 4) (by omega))
        (b64Val_b64Char (a % 4 * 16) (by omega))]
      congr 2; omega
    · have ha := hd a (by simp)
      have hb := hd b (by simp)
      simp only [base64Encode]
      rw [decodeQuanta_three _ _ _ _ _ _ (b64Val_b64Char (a / 4) (by omega))
        (b64Val_b64Char (a % 4 * 16 + b / 16) (by omega))
        (b64Val_b64Char (b % 16 * 4) (by omega))
        (b64Char_plain (b % 16 * 4) (by omega)).2.2.2.2.1]
      congr 2
      · omega
      · congr 1; omega
    · have ha := hd a (by simp)
      have hb := hd b (by simp)
      have he := hd e (by simp)
      simp only [base64Encode, List.cons_append, List.nil_append]
      rw [decodeQuanta_four _ _ _ _ _ _ _ _ _ (b64Val_b64Char (a / 4) (by omega))
        (b64Val_b64Char (a % 4 * 16 + b / 16) (by omega))
        (b64Val_b64Char (b % 16 * 4 + e / 64) (by omega))
        (b64Val_b64Char (e % 64) (by omega))
        (b64Char_plain (b % 16 * 4 + e / 64) (by omega)).2.2.2.2.1
        (b64Char_plain (e % 64) (by omega)).2.2.2.2.1,
        ih rest.length (by simp at hn; omega) rest le_rfl (fun x hx => hd x (by simp [hx]))]
      simp only [Option.map_some', List.cons_append, List.nil_append]
      congr 2
      · omega
      · congr 1
        · omega
        · congr 1; omega

/-- `base64Decode` inverts `base64Encode` on bytes. -/
theorem base64Decode_base64Encode (d : List Nat) (hd : ∀ b ∈ d, b < 256) :
    base64Decode (base64Encode d) = some d := by
  unfold base64Decode
  rw [List.filter_eq_self.mpr, decodeQuanta_base64Encode d.length d le_rfl hd]
  intro c hc
  have := base64Encode_chars d.length d le_rfl hd c hc
  simp only [decide_eq_true_eq]
  omega

theorem unquoteBody_plain_list (l : List Nat) :
    ∀ k, l.length ≤ k → (∀ c ∈ l, 32 ≤ c ∧ c ≠ 34 ∧ c ≠ 92 ∧ c < 0x80) →
      unquoteBody k l = some l := by
  induction l with
  | nil => intro k _ _; cases k <;> simp [unquoteBody]
  | cons c l ih =>
    intro k hk h
    rcases k with _ | k
    · simp at hk
    rw [unquoteBody_plain k c l (h c (by simp)),
      ih k (by simpa using hk) (fun x hx => h x (by simp [hx]))]
    rfl

theorem validUTF8Aux_ascii (l : List Nat) :
    ∀ v, l.length ≤ v → (∀ c ∈ l, c < 0x80) → validUTF8Aux v l = true := by
  induction l with
  | nil => intro v _ _; cases v <;> simp [validUTF8Aux]
  | cons c l ih =>
    intro v hv h
    rcases v with _ | v
    · simp at hv
    have hc := h c (by simp)
    rw [validUTF8Aux_cons, decodeRune_ascii c l hc]
    have hne : ¬ ((c, 1).1 = RuneError ∧ (c, 1).2 = 1) := by
      simp only [RuneError]; omega
    rw [if_neg hne]
    exact ih v (by simpa using hv) (fun x hx => h x (by simp [hx]))

/-! ## Theorems: base64 and RFC 3339 -/

theorem digitsLen_le (w : Nat) : ∀ n u : Nat, u < 10 ^ (w + 1) → digitsLen n u ≤ w + 1 := by
  induction w with
  | zero =>
    intro n u h
    cases n with
    | zero => simp [digitsLen]
    | succ n => simp only [digitsLen]; split_ifs <;> omega
  | succ w ih =>
    intro n u h
    cases n with
    | zero => simp [digitsLen]
    | succ n =>
      simp only [digitsLen]
      split_ifs
      · omega
      · have := ih n (u / 10) (by rw [pow_succ] at h; omega)
        omega

theorem appendInt_nat (n w : Nat) (h : n < 10 ^ (w + 1)) :
    appendInt (n : Int) (w + 1) = padDigits (w + 1) n := by
  have h1 : ¬ ((n : Int) < 0) := by omega
  have h2 := digitsLen_le w n n h
  simp only [appendInt, h1, if_false, Int.natAbs_ofNat, List.nil_append]
  rw [max_eq_left h2]

theorem padDigits_two (x : Nat) : padDigits 2 x = [48 + x / 10 % 10, 48 + x % 10] := by
  simp [padDigits]

theorem padDigits_four (x : Nat) :
    padDigits 4 x = [48 + x / 1000 % 10, 48 + x / 100 % 10, 48 + x / 10 % 10, 48 + x % 10] := by
  simp [padDigits, Nat.div_div_eq_div_mul]

theorem appendInt_two (x : Nat) (h : x < 100) :
    appendInt (x : Int) 2 = [48 + x / 10, 48 + x % 10] := by
  rw [appendInt_nat x 1 (by norm_num; omega), padDigits_two]
  congr 2; omega

theorem appendInt_four (x : Nat) (h : x < 10000) :
    appendInt (x : Int) 4 = [48 + x / 1000, 48 + x / 100 % 10, 48 + x / 10 % 10, 48 + x % 10] := by
  rw [appendInt_nat x 3 (by norm_num; omega), padDigits_four]
  congr 2; omega

theorem digitsValue_append_one (l : List Nat) (d : Nat) :
    digitsValue (l ++ [d]) = digitsValue l * 10 + (d - 48) := by
  simp [digitsValue, List.foldl_append]

theorem digitsValue_padDigits (w : Nat) : ∀ n, digitsValue (padDigits w n) = n % 10 ^ w := by
  induction w with
  | zero => intro n; simp [padDigits, digitsValue, Nat.mod_one]
  | succ w ih =>
    intro n
    rw [padDigits, digitsValue_append_one, ih, pow_succ, Nat.mul_comm (10 ^ w) 10, Nat.mod_mul]
    omega

theorem padDigits_length (w : Nat) : ∀ n, (padDigits w n).length = w := by
  induction w with
  | zero => intro n; rfl
  | succ w ih => intro n; simp [padDigits, ih]

theorem padDigits_digits (w : Nat) : ∀ n, ∀ c ∈ padDigits w n, 48 ≤ c ∧ c ≤ 57 := by
  induction w with
  | zero => intro n c hc; simp [padDigits] at hc
  | succ w ih =>
    intro n c hc
    simp only [padDigits, List.mem_append, List.mem_singleton] at hc
    rcases hc with hc | rfl
    · exact ih _ c hc
    · omega

theorem digitsValue_append_zeros (l z : List Nat) (hz : ∀ c ∈ z, c = 48) :
    digitsValue (l ++ z) = digitsValue l * 10 ^ z.length := by
  induction z using List.reverseRecOn with
  | nil => simp
  | append_singleton z c ih =>
    have hc : c = 48 := hz c (by simp)
    rw [← List.append_assoc, digitsValue_append_one, ih (fun x hx => hz x (by simp [hx])), hc]
    simp [pow_succ, Nat.mul_assoc]

theorem trimZeros_spec (l : List Nat) :
    ∃ z : List Nat, (∀ c ∈ z, c = 48) ∧ l = trimZeros l ++ z := by
  refine ⟨(l.reverse.takeWhile (fun c => c = 48)).reverse, ?_, ?_⟩
  · intro c hc
    have := List.mem_takeWhile_imp (List.mem_reverse.mp hc)
    simpa using this
  · unfold trimZeros
    rw [← List.reverse_append, List.takeWhile_append_dropWhile, List.reverse_reverse]

theorem trimZeros_cons (c : Nat) (l : List Nat) (h : trimZeros l ≠ []) :
    trimZeros (c :: l) = c :: trimZeros l := by
  unfold trimZeros at h ⊢
  have h' : l.reverse.dropWhile (fun c => decide (c = 48)) ≠ [] := by
    intro e; rw [e] at h; simp at h
  rw [List.reverse_cons, List.dropWhile_append]
  simp [h']


theorem takeWhile_digits_append (l : List Nat) (z : Nat) (rest : List Nat)
    (hl : ∀ c ∈ l, isDigit c = true) (hz : isDigit z = false) :
    (l ++ z :: rest).takeWhile isDigit = l ∧ (l ++ z :: rest).dropWhile isDigit = z :: rest := by
  induction l with
  | nil => simp [List.takeWhile, List.dropWhile, hz]
  | cons c l ih =>
    have hc := hl c (by simp)
    have := ih (fun x hx => hl x (by simp [hx]))
    simp [List.takeWhile, List.dropWhile, hc, this]

theorem appendNano_zero : appendNano 0 = [] := by simp [appendNano]

theorem appendNano_pos (nsec : Nat) (h0 : nsec ≠ 0) (h : nsec < 1000000000) :
    ∃ d T, appendNano nsec = 46 :: d :: T ∧ (∀ c ∈ d :: T, isDigit c = true) ∧
      (d :: T).length ≤ 9 ∧ digitsValue (d :: T) * 10 ^ (9 - (d :: T).length) = nsec := by
  have hP : appendInt (nsec : Int) 9 = padDigits 9 nsec := appendInt_nat nsec 8 (by norm_num; omega)
  obtain ⟨Z, hZ, hsplit⟩ := trimZeros_spec (padDigits 9 nsec)
  have hval := digitsValue_padDigits 9 nsec
  have hlen := padDigits_length 9 nsec
  have hne : trimZeros (padDigits 9 nsec) ≠ [] := by
    intro e
    rw [e, List.nil_append] at hsplit
    rw [hsplit] at hval
    have hz0 := digitsValue_append_zeros [] Z hZ
    simp only [List.nil_append, digitsValue, List.foldl_nil, Nat.zero_mul] at hz0
    simp only [digitsValue] at hval
    rw [hz0] at hval
    have : nsec % 10 ^ 9 = nsec := Nat.mod_eq_of_lt (by norm_num; omega)
    omega
  obtain ⟨d, T, hT⟩ := List.exists_cons_of_ne_nil hne
  have hdig : ∀ c ∈ d :: T, 48 ≤ c ∧ c ≤ 57 := by
    intro c hc
    apply padDigits_digits 9 nsec c
    rw [hsplit, hT]
    exact List.mem_append_left _ hc
  have hlenT : (d :: T).length + Z.length = 9 := by
    have := congrArg List.length hsplit
    rw [List.length_append, hlen, hT] at this
    omega
  refine ⟨d, T, ?_, ?_, by omega, ?_⟩
  · have hlast : (46 :: d :: T).getLast? ≠ some 46 := by
      rw [List.getLast?_cons_cons]
      intro e
      have hm := List.mem_of_getLast?_eq_some e
      have := hdig 46 hm
      omega
    simp only [appendNano, h0, if_false, hP]
    rw [show [46] ++ padDigits 9 nsec = 46 :: padDigits 9 nsec from rfl,
      trimZeros_cons 46 _ hne, hT, if_neg hlast]
  · intro c hc
    have := hdig c hc
    simp only [isDigit, decide_eq_true_eq]
    omega
  · have hv2 := digitsValue_append_zeros (d :: T) Z hZ
    rw [← hT, ← hsplit, hval, hT] at hv2
    have e9 : 9 - (d :: T).length = Z.length := by omega
    rw [e9, ← hv2]
    exact Nat.mod_eq_of_lt (by norm_num; omega)

/-- The fraction `appendNano` wrote is read back by `parseFraction`. -/
theorem parseFraction_appendNano (nsec z : Nat) (rest : List Nat) (h : nsec < 1000000000)
    (hz : z = 90 ∨ z = 43 ∨ z = 45) :
    parseFraction (appendNano nsec ++ z :: rest) = (nsec, z :: rest) := by
  have hzd : isDigit z = false := by
    simp only [isDigit, decide_eq_false_iff_not]; omega
  by_cases h0 : nsec = 0
  · subst h0
    rw [appendNano_zero, List.nil_append]
    rcases rest with _ | ⟨d, rest⟩
    · simp [parseFraction]
    · have hz' : ¬ (z = 46 ∨ z = 44) := by omega
      simp [parseFraction, hz']
  · obtain ⟨d, T, hA, hdig, hlen, hval⟩ := appendNano_pos nsec h0 h
    have htw := takeWhile_digits_append (d :: T) z rest hdig hzd
    have hd := hdig d (by simp)
    rw [hA]
    simp only [List.cons_append] at htw ⊢
    simp only [parseFraction, hd, true_or, and_self, if_true, htw.1, htw.2]
    rw [List.take_of_length_le hlen, hval]

theorem getnum_two (a b : Nat) (rest : List Nat) (fixed : Bool) (ha : a < 10) (hb : b < 10) :
    getnum ((48 + a) :: (48 + b) :: rest) fixed = some (a * 10 + b, rest) := by
  have h1 : isDigit (48 + a) = true := by simp [isDigit]; omega
  have h2 : isDigit (48 + b) = true := by simp [isDigit]; omega
  simp [getnum, h1, h2]

theorem formatZone_cases (off : Int) (h : off % 60 = 0 ∧ -86400 < off ∧ off < 86400) :
    (off = 0 ∧ formatZone off = [90]) ∨
      ∃ sign hh mm : Nat, (sign = 43 ∨ sign = 45) ∧ hh < 24 ∧ mm < 60 ∧
        formatZone off = [sign, 48 + hh / 10, 48 + hh % 10, 58, 48 + mm / 10, 48 + mm % 10] ∧
        off = (if sign = 43 then (((hh * 60 + mm) * 60 : Nat) : Int)
          else -(((hh * 60 + mm) * 60 : Nat) : Int)) := by
  by_cases h0 : off = 0
  · left; exact ⟨h0, by simp [formatZone, h0]⟩
  right
  have hq : (Int.tdiv off 60).natAbs = off.natAbs / 60 := by
    rw [Int.natAbs_tdiv]; rfl
  have hneg : (Int.tdiv off 60 < 0) ↔ off < 0 := by
    rcases Int.lt_or_le off 0 with hlt | hge
    · have : Int.tdiv off 60 = -(Int.tdiv (-off) 60) := by
        rw [Int.neg_tdiv, neg_neg]
      rw [this, Int.tdiv_eq_ediv (by omega) (by omega)]
      constructor
      · intro _; exact hlt
      · intro _; omega
    · rw [Int.tdiv_eq_ediv hge (by omega)]
      constructor
      · intro h'; omega
      · intro h'; omega
  refine ⟨if off < 0 then 45 else 43, off.natAbs / 60 / 60, off.natAbs / 60 % 60, ?_, ?_, ?_, ?_, ?_⟩
  · split_ifs <;> simp
  · omega
  · omega
  · simp only [formatZone, h0, if_false, hq, hneg]
    rw [appendInt_two _ (by omega), appendInt_two _ (by omega)]
    split_ifs <;> simp
  · split_ifs <;> omega


theorem isDigit_add (a : Nat) (ha : a < 10) : isDigit (48 + a) = true := by
  simp [isDigit]; omega

theorem expectByte_cons (c : Nat) (rest : List Nat) : expectByte c (c :: rest) = some rest := by
  simp [expectByte]

theorem parseZone_formatZone (off : Int) (h : off % 60 = 0 ∧ -86400 < off ∧ off < 86400) :
    parseZone (formatZone off) = some (off, []) := by
  rcases formatZone_cases off h with ⟨h0, hz⟩ | ⟨sign, hh, mm, hs, hhh, hmm, hz, hoff⟩
  · rw [hz, h0]; rfl
  · rw [hz]
    have g1 := getnum_two (hh / 10) (hh % 10) [] true (by omega) (by omega)
    have g2 := getnum_two (mm / 10) (mm % 10) [] true (by omega) (by omega)
    have e1 : hh / 10 * 10 + hh % 10 = hh := by omega
    have e2 : mm / 10 * 10 + mm % 10 = mm := by omega
    rw [e1] at g1
    rw [e2] at g2
    have hr : ¬ (24 < hh ∨ 60 < mm) := by omega
    rcases hs with rfl | rfl
    · simp only [parseZone, g1, g2, hr, if_false, if_true] at hoff ⊢
      simp [hoff]
    · simp only [parseZone, g1, g2, hr, if_false, if_true] at hoff ⊢
      simp [hoff]

theorem parseRFC3339_digits (y1 y2 y3 y4 mo1 mo2 d1 d2 h1 h2 mi1 mi2 s1 s2 nsec : Nat) (off : Int)
    (hy1 : y1 < 10) (hy2 : y2 < 10) (hy3 : y3 < 10) (hy4 : y4 < 10)
    (hmo1 : mo1 < 10) (hmo2 : mo2 < 10) (hd1 : d1 < 10) (hd2 : d2 < 10)
    (hh1 : h1 < 10) (hh2 : h2 < 10) (hmi1 : mi1 < 10) (hmi2 : mi2 < 10)
    (hs1 : s1 < 10) (hs2 : s2 < 10)
    (hmo : 1 ≤ mo1 * 10 + mo2 ∧ mo1 * 10 + mo2 ≤ 12)
    (hd : 1 ≤ d1 * 10 + d2 ∧
      d1 * 10 + d2 ≤ daysIn (mo1 * 10 + mo2) ((((y1 * 10 + y2) * 10 + y3) * 10 + y4 : Nat) : Int))
    (hh : h1 * 10 + h2 < 24) (hmi : mi1 * 10 + mi2 < 60) (hs : s1 * 10 + s2 < 60)
    (hn : nsec < 1000000000) (hoff : off % 60 = 0 ∧ -86400 < off ∧ off < 86400) :
    parseRFC3339
      ((48 + y1) :: (48 + y2) :: (48 + y3) :: (48 + y4) :: 45 :: (48 + mo1) :: (48 + mo2) :: 45 ::
        (48 + d1) :: (48 + d2) :: 84 :: (48 + h1) :: (48 + h2) :: 58 :: (48 + mi1) ::
        (48 + mi2) :: 58 :: (48 + s1) :: (48 + s2) :: (appendNano nsec ++ formatZone off)) =
      some
        { year := ((((y1 * 10 + y2) * 10 + y3) * 10 + y4 : Nat) : Int), month := mo1 * 10 + mo2,
          day := d1 * 10 + d2, hour := h1 * 10 + h2, minute := mi1 * 10 + mi2,
          second := s1 * 10 + s2, nsec := nsec, offset := off, mono := none } := by
  have hfrac : parseFraction (appendNano nsec ++ formatZone off) = (nsec, formatZone off) := by
    rcases formatZone_cases off hoff with ⟨_, hz⟩ | ⟨sign, hh, mm, hs, _, _, hz, _⟩
    · rw [hz]; exact parseFraction_appendNano nsec 90 [] hn (by omega)
    · rw [hz]; exact parseFraction_appendNano nsec sign _ hn (by omega)
  have hzone := parseZone_formatZone off hoff
  have hdv : digitsValue [48 + y1, 48 + y2, 48 + y3, 48 + y4] =
      ((y1 * 10 + y2) * 10 + y3) * 10 + y4 := by
    simp [digitsValue]
  have c1 : ¬ (mo1 * 10 + mo2 = 0 ∨ 12 < mo1 * 10 + mo2) := by omega
  have c2 : ¬ (24 ≤ h1 * 10 + h2) := by omega
  have c3 : ¬ (60 ≤ mi1 * 10 + mi2) := by omega
  have c4 : ¬ (60 ≤ s1 * 10 + s2) := by omega
  have c5 : ¬ (d1 * 10 + d2 < 1 ∨
      daysIn (mo1 * 10 + mo2) ((((y1 * 10 + y2) * 10 + y3) * 10 + y4 : Nat) : Int)
        < d1 * 10 + d2) := by omega
  simp only [parseRFC3339, isDigit_add, hy1, hy2, hy3, hy4, Bool.and_self, Bool.not_true,
    if_false, Bool.false_eq_true, hdv, expectByte_cons, Option.bind_some,
    getnum_two _ _ _ _ hmo1 hmo2, getnum_two _ _ _ _ hd1 hd2, getnum_two _ _ _ _ hh1 hh2,
    getnum_two _ _ _ _ hmi1 hmi2, getnum_two _ _ _ _ hs1 hs2, c1, c2, c3, c4, c5, hfrac, hzone,
    Option.some_bind, ne_eq, not_true_eq_false]



theorem appendFormatRFC3339_eq (t : Time) (hw : t.wellFormed = true) (hr : t.rfc3339 = true) :
    appendFormatRFC3339 t =
      (48 + t.year.toNat / 1000) :: (48 + t.year.toNat / 100 % 10) ::
        (48 + t.year.toNat / 10 % 10) :: (48 + t.year.toNat % 10) :: 45 ::
        (48 + t.month / 10) :: (48 + t.month % 10) :: 45 ::
        (48 + t.day / 10) :: (48 + t.day % 10) :: 84 ::
        (48 + t.hour / 10) :: (48 + t.hour % 10) :: 58 ::
        (48 + t.minute / 10) :: (48 + t.minute % 10) :: 58 ::
        (48 + t.second / 10) :: (48 + t.second % 10) ::
        (appendNano t.nsec ++ formatZone t.offset) := by
  simp only [Time.wellFormed, decide_eq_true_eq] at hw
  simp only [Time.rfc3339, decide_eq_true_eq] at hr
  obtain ⟨hm1, hm2, hd1, hd2, hh, hmi, hs, hn⟩ := hw
  have hday : t.day ≤ 31 := by
    refine le_trans hd2 ?_
    unfold daysIn
    split_ifs <;> omega
  obtain ⟨y, hy⟩ := Int.eq_ofNat_of_zero_le hr.1
  have hylt : y < 10000 := by omega
  unfold appendFormatRFC3339
  rw [hy, appendInt_four _ hylt, appendInt_two _ (by omega), appendInt_two _ (by omega),
    appendInt_two _ (by omega), appendInt_two _ (by omega), appendInt_two _ (by omega)]
  simp

/-- Parsing the RFC 3339 text of a time gives the time back, without its
monotonic reading. -/
theorem parseRFC3339_appendFormatRFC3339 (t : Time) (hw : t.wellFormed = true)
    (hr : t.rfc3339 = true) :
    parseRFC3339 (appendFormatRFC3339 t) = some t.stripMono := by
  rw [appendFormatRFC3339_eq t hw hr]
  simp only [Time.wellFormed, decide_eq_true_eq] at hw
  simp only [Time.rfc3339, decide_eq_true_eq] at hr
  obtain ⟨hm1, hm2, hd1, hd2, hh, hmi, hs, hn⟩ := hw
  have hday : t.day ≤ 31 := by
    refine le_trans hd2 ?_
    unfold daysIn
    split_ifs <;> omega
  have hylt : t.year.toNat < 10000 := by omega
  have ey : ((t.year.toNat / 1000 * 10 + t.year.toNat / 100 % 10) * 10 + t.year.toNat / 10 % 10) * 10
      + t.year.toNat % 10 = t.year.toNat := by omega
  have ey' : (((((t.year.toNat / 1000 * 10 + t.year.toNat / 100 % 10) * 10
      + t.year.toNat / 10 % 10) * 10 + t.year.toNat % 10 : Nat)) : Int) = t.year := by
    rw [ey]; omega
  have em : t.month / 10 * 10 + t.month % 10 = t.month := by omega
  have ed : t.day / 10 * 10 + t.day % 10 = t.day := by omega
  have eh : t.hour / 10 * 10 + t.hour % 10 = t.hour := by omega
  have emi : t.minute / 10 * 10 + t.minute % 10 = t.minute := by omega
  have es : t.second / 10 * 10 + t.second % 10 = t.second := by omega
  rw [parseRFC3339_digits _ _ _ _ _ _ _ _ _ _ _ _ _ _ t.nsec t.offset (by omega) (by omega)
    (by omega) (by omega) (by omega) (by omega) (by omega) (by omega) (by omega) (by omega)
    (by omega) (by omega) (by omega) (by omega) (by omega)
    (by rw [em, ed, ey']; exact ⟨hd1, hd2⟩) (by omega) (by omega) (by omega) hn
    ⟨hr.2.2.1, hr.2.2.2.1, hr.2.2.2.2⟩]
  rw [ey', em, ed, eh, emi, es]
  rfl

theorem appendNano_chars (nsec : Nat) (h : nsec < 1000000000) :
    ∀ c ∈ appendNano nsec, c = 46 ∨ (48 ≤ c ∧ c ≤ 57) := by
  intro c hc
  by_cases h0 : nsec = 0
  · subst h0; simp [appendNano_zero] at hc
  · obtain ⟨d, T, hA, hdig, _, _⟩ := appendNano_pos nsec h0 h
    rw [hA] at hc
    rcases List.mem_cons.mp hc with rfl | hc
    · left; rfl
    · right
      have := hdig c hc
      simpa [isDigit] using this

/-- The RFC 3339 text of a time has no quote, backslash or control character. -/
theorem appendFormatRFC3339_chars (t : Time) (hw : t.wellFormed = true) (hr : t.rfc3339 = true) :
    ∀ c ∈ appendFormatRFC3339 t, 32 ≤ c ∧ c ≠ 34 ∧ c ≠ 92 := by
  intro c hc
  rw [appendFormatRFC3339_eq t hw hr] at hc
  simp only [Time.wellFormed, decide_eq_true_eq] at hw
  simp only [Time.rfc3339, decide_eq_true_eq] at hr
  have hday : t.day ≤ 31 := by
    refine le_trans hw.2.2.2.1 ?_
    unfold daysIn
    split_ifs <;> omega
  simp only [List.mem_cons, List.mem_append] at hc
  rcases hc with rfl | rfl | rfl | rfl | rfl | rfl | rfl | rfl | rfl | rfl | rfl | rfl | rfl | rfl |
    rfl | rfl | rfl | rfl | rfl | hc | hc
  all_goals first
    | omega
    | (have hnc := appendNano_chars t.nsec hw.2.2.2.2.2.2.2 c hc
       omega)
    | skip
  rcases formatZone_cases t.offset ⟨hr.2.2.1, hr.2.2.2.1, hr.2.2.2.2⟩ with
    ⟨_, hz⟩ | ⟨sign, hh, mm, hs, _, _, hz, _⟩
  · rw [hz] at hc; simp at hc; omega
  · rw [hz] at hc
    simp only [List.mem_cons, List.mem_singleton, List.not_mem_nil, or_false] at hc
    rcases hc with rfl | rfl | rfl | rfl | rfl | rfl <;> omega

/-- `Time.MarshalJSON` succeeds on a representable time, with the RFC 3339 text
in quotes. -/
theorem appendStrictRFC3339_ok (t : Time) (hw : t.wellFormed = true) (hr : t.rfc3339 = true) :
    appendStrictRFC3339 t = some (appendFormatRFC3339 t) := by
  have heq := appendFormatRFC3339_eq t hw hr
  have h4 : (appendFormatRFC3339 t).getD 4 0 = 45 := by rw [heq]; rfl
  simp only [Time.rfc3339, decide_eq_true_eq] at hr
  unfold appendStrictRFC3339
  simp only [h4, ne_eq, not_true_eq_false, if_false]
  rcases formatZone_cases t.offset ⟨hr.2.2.1, hr.2.2.2.1, hr.2.2.2.2⟩ with
    ⟨_, hz⟩ | ⟨sign, hh, mm, hs, hhh, hmm, hz, _⟩
  · have hl : (appendFormatRFC3339 t).getLast? = some 90 := by
      unfold appendFormatRFC3339
      rw [hz, List.getLast?_append]
      simp
    simp [hl]
  · obtain ⟨pre, hpre⟩ : ∃ pre, appendFormatRFC3339 t =
        pre ++ [sign, 48 + hh / 10, 48 + hh % 10, 58, 48 + mm / 10, 48 + mm % 10] :=
      ⟨_, by unfold appendFormatRFC3339; rw [hz]⟩
    have hl : (appendFormatRFC3339 t).getLast? = some (48 + mm % 10) := by
      rw [hpre, List.getLast?_append]; simp
    have hlen : (appendFormatRFC3339 t).length = pre.length + 6 := by rw [hpre]; simp
    have g6 : (appendFormatRFC3339 t).getD ((appendFormatRFC3339 t).length - 6) 0 = sign := by
      rw [hlen, hpre, List.getD_append_right _ _ _ _ (by omega)]
      simp
    have g5 : (appendFormatRFC3339 t).getD ((appendFormatRFC3339 t).length - 5) 0 = 48 + hh / 10 := by
      rw [hlen, hpre, List.getD_append_right _ _ _ _ (by omega)]
      have : pre.length + 6 - 5 - pre.length = 1 := by omega
      rw [this]; rfl
    have g4 : (appendFormatRFC3339 t).getD ((appendFormatRFC3339 t).length - 4) 0 = 48 + hh % 10 := by
      rw [hlen, hpre, List.getD_append_right _ _ _ _ (by omega)]
      have : pre.length + 6 - 4 - pre.length = 2 := by omega
      rw [this]; rfl
    have hne : ¬ (48 + mm % 10 = 90) := by omega
    have hnd : ¬ (isDigit sign = true ∨ 24 ≤ 10 * (48 + hh / 10 - 48) + (48 + hh % 10 - 48)) := by
      simp only [isDigit, decide_eq_true_eq]; omega
    simp only [hl, g6, g5, g4, Option.some.injEq, hne, not_false_eq_true, if_true, hnd, if_false]

/-! ## Theorems: the scanner and the decoder on the text of `Marshal` -/

theorem skipWS_cons (c : Nat) (rest : List Nat) (h : isSpace c = false) :
    skipWS (c :: rest) = c :: rest := by
  simp [skipWS, h]

theorem parseValue_string (f d : Nat) (x : List Nat) (raw rest : List Nat)
    (h : scanString x = some (raw, rest)) :
    parseValue (f + 1) d (34 :: x) = some (JValue.string raw, rest) := by
  rw [parseValue, skipWS_cons 34 _ (by decide)]
  simp [h]

theorem parseValue_null (f d : Nat) (rest : List Nat) :
    parseValue (f + 1) d (110 :: 117 :: 108 :: 108 :: rest) = some (JValue.null, rest) := by
  rw [parseValue, skipWS_cons 110 _ (by decide)]
  simp

theorem parseValue_object (f d : Nat) (x : List Nat) (ms : List (List Nat × JValue))
    (rest : List Nat) (hd : d < maxNestingDepth)
    (h : parseMembers f (d + 1) (34 :: x) = some (ms, rest)) :
    parseValue (f + 1) d (123 :: 34 :: x) = some (JValue.object ms, rest) := by
  have hd' : ¬ (maxNestingDepth ≤ d) := by omega
  rw [parseValue, skipWS_cons 123 _ (by decide)]
  simp only [hd', if_false, if_true, skipWS_cons 34 _ (by decide : isSpace 34 = false), h]
  simp

theorem parseMembers_more (f d : Nat) (x y more : List Nat) (key : List Nat) (v : JValue)
    (hk : scanString x = some (key, 58 :: y))
    (hv : parseValue f d y = some (v, 44 :: more)) :
    parseMembers (f + 1) d (34 :: x) =
      (parseMembers f d more).map (fun r => ((key, v) :: r.1, r.2)) := by
  rw [parseMembers, skipWS_cons 34 _ (by decide)]
  simp only [hk, Option.bind_some, Option.some_bind, skipWS_cons 58 _ (by decide : isSpace 58 = false),
    hv, skipWS_cons 44 _ (by decide : isSpace 44 = false)]

theorem parseMembers_last (f d : Nat) (x y more : List Nat) (key : List Nat) (v : JValue)
    (hk : scanString x = some (key, 58 :: y))
    (hv : parseValue f d y = some (v, 125 :: more)) :
    parseMembers (f + 1) d (34 :: x) = some ([(key, v)], more) := by
  rw [parseMembers, skipWS_cons 34 _ (by decide)]
  simp only [hk, Option.bind_some, Option.some_bind, skipWS_cons 58 _ (by decide : isSpace 58 = false),
    hv, skipWS_cons 125 _ (by decide : isSpace 125 = false)]



theorem scanString_key (key rest : List Nat) (h : ∀ c ∈ key, 32 ≤ c ∧ c ≠ 34 ∧ c ≠ 92) :
    scanString (key ++ 34 :: rest) = some (key, rest) := by
  rw [scanString_plain_append key _ h, scanString_quote]
  simp

/-- The scanner on the text `jsonMarshal` writes: one object with the members
`meta` and `payload`. -/
theorem parseValue_wire (f : Nat) (u p r t ts dt : List Nat) (dv : JValue)
    (hu : ∀ rest, scanString (u ++ 34 :: rest) = some (u, rest))
    (hp : ∀ rest, scanString (p ++ 34 :: rest) = some (p, rest))
    (hr : ∀ rest, scanString (r ++ 34 :: rest) = some (r, rest))
    (ht : ∀ rest, scanString (t ++ 34 :: rest) = some (t, rest))
    (hts : ∀ rest, scanString (ts ++ 34 :: rest) = some (ts, rest))
    (hd : ∀ g rest, parseValue (g + 1) 2 (dt ++ 125 :: rest) = some (dv, 125 :: rest)) :
    parseValue (f + 9) 0
      ([123, 34, 109, 101, 116, 97, 34, 58, 123, 34, 117, 117, 105, 100, 34, 58] ++
        ([34] ++ u ++ [34]) ++
        [44, 34, 112, 97, 114, 101, 110, 116, 95, 105, 100, 34, 58] ++
        ([34] ++ p ++ [34]) ++
        [44, 34, 114, 101, 115, 112, 111, 110, 115, 101, 95, 116, 111, 34, 58] ++
        ([34] ++ r ++ [34]) ++
        [44, 34, 109, 115, 103, 95, 116, 121, 112, 101, 34, 58] ++
        ([34] ++ t ++ [34]) ++
        [44, 34, 116, 105, 109, 101, 115, 116, 97, 109, 112, 34, 58] ++
        ([34] ++ ts ++ [34]) ++
        [125, 44, 34, 112, 97, 121, 108, 111, 97, 100, 34, 58, 123, 34, 100, 97, 116, 97, 34, 58] ++
        dt ++ [125, 125]) =
      some
        (JValue.object
          [([109, 101, 116, 97],
              JValue.object
                [([117, 117, 105, 100], JValue.string u),
                  ([112, 97, 114, 101, 110, 116, 95, 105, 100], JValue.string p),
                  ([114, 101, 115, 112, 111, 110, 115, 101, 95, 116, 111], JValue.string r),
                  ([109, 115, 103, 95, 116, 121, 112, 101], JValue.string t),
                  ([116, 105, 109, 101, 115, 116, 97, 109, 112], JValue.string ts)]),
            ([112, 97, 121, 108, 111, 97, 100], JValue.object [([100, 97, 116, 97], dv)])],
          []) := by
  simp only [List.cons_append, List.nil_append, List.append_assoc]
  -- the member `data` and the object `payload`
  have kd : ∀ rest, scanString (100 :: 97 :: 116 :: 97 :: 34 :: rest) = some ([100, 97, 116, 97], rest) :=
    fun rest => scanString_key [100, 97, 116, 97] rest (by decide)
  have m_data : ∀ g rest, parseMembers (g + 2) 2 (34 :: 100 :: 97 :: 116 :: 97 :: 34 :: 58 :: (dt ++ 125 :: rest))
      = some ([([100, 97, 116, 97], dv)], rest) :=
    fun g rest => parseMembers_last (g + 1) 2 _ _ rest _ dv (kd _) (hd g rest)
  have v_payload : ∀ g rest, parseValue (g + 3) 1
      (123 :: 34 :: 100 :: 97 :: 116 :: 97 :: 34 :: 58 :: (dt ++ 125 :: rest))
      = some (JValue.object [([100, 97, 116, 97], dv)], rest) :=
    fun g rest => parseValue_object (g + 2) 1 _ _ rest (by decide) (m_data g rest)
  have kp : ∀ rest, scanString (112 :: 97 :: 121 :: 108 :: 111 :: 97 :: 100 :: 34 :: rest) =
      some ([112, 97, 121, 108, 111, 97, 100], rest) :=
    fun rest => scanString_key [112, 97, 121, 108, 111, 97, 100] rest (by decide)
  have m_payload : ∀ g rest, parseMembers (g + 4) 1
      (34 :: 112 :: 97 :: 121 :: 108 :: 111 :: 97 :: 100 :: 34 :: 58 :: 123 :: 34 :: 100 :: 97 ::
        116 :: 97 :: 34 :: 58 :: (dt ++ 125 :: 125 :: rest))
      = some ([([112, 97, 121, 108, 111, 97, 100], JValue.object [([100, 97, 116, 97], dv)])], rest) :=
    fun g rest => parseMembers_last (g + 3) 1 _ _ rest _ _ (kp _) (v_payload g (125 :: rest))
  -- the members of `meta`
  have k5 : ∀ rest, scanString (116 :: 105 :: 109 :: 101 :: 115 :: 116 :: 97 :: 109 :: 112 :: 34 :: rest) =
      some ([116, 105, 109, 101, 115, 116, 97, 109, 112], rest) :=
    fun rest => scanString_key [116, 105, 109, 101, 115, 116, 97, 109, 112] rest (by decide)
  have m5 : ∀ g rest, parseMembers (g + 2) 2
      (34 :: 116 :: 105 :: 109 :: 101 :: 115 :: 116 :: 97 :: 109 :: 112 :: 34 :: 58 :: 34 ::
        (ts ++ 34 :: 125 :: rest))
      = some ([([116, 105, 109, 101, 115, 116, 97, 109, 112], JValue.string ts)], rest) :=
    fun g rest => parseMembers_last (g + 1) 2 _ _ rest _ _ (k5 _)
      (parseValue_string g 2 _ ts _ (hts _))
  have k4 : ∀ rest, scanString (109 :: 115 :: 103 :: 95 :: 116 :: 121 :: 112 :: 101 :: 34 :: rest) =
      some ([109, 115, 103, 95, 116, 121, 112, 101], rest) :=
    fun rest => scanString_key [109, 115, 103, 95, 116, 121, 112, 101] rest (by decide)
  have m4 : ∀ g rest, parseMembers (g + 3) 2
      (34 :: 109 :: 115 :: 103 :: 95 :: 116 :: 121 :: 112 :: 101 :: 34 :: 58 :: 34 ::
        (t ++ 34 :: 44 :: 34 :: 116 :: 105 :: 109 :: 101 :: 115 :: 116 :: 97 :: 109 :: 112 :: 34 ::
          58 :: 34 :: (ts ++ 34 :: 125 :: rest)))
      = some ([([109, 115, 103, 95, 116, 121, 112, 101], JValue.string t),
          ([116, 105, 109, 101, 115, 116, 97, 109, 112], JValue.string ts)], rest) := by
    intro g rest
    rw [parseMembers_more (g + 2) 2 _ _ _ _ _ (k4 _) (parseValue_string (g + 1) 2 _ t _ (ht _)),
      m5 g rest]
    rfl
  have k3 : ∀ rest, scanString (114 :: 101 :: 115 :: 112 :: 111 :: 110 :: 115 :: 101 :: 95 :: 116 ::
      111 :: 34 :: rest) = some ([114, 101, 115, 112, 111, 110, 115, 101, 95, 116, 111], rest) :=
    fun rest => scanString_key [114, 101, 115, 112, 111, 110, 115, 101, 95, 116, 111] rest (by decide)
  have m3 : ∀ g rest, parseMembers (g + 4) 2
      (34 :: 114 :: 101 :: 115 :: 112 :: 111 :: 110 :: 115 :: 101 :: 95 :: 116 :: 111 :: 34 :: 58 ::
        34 :: (r ++ 34 :: 44 :: 34 :: 109 :: 115 :: 103 :: 95 :: 116 :: 121 :: 112 :: 101 :: 34 ::
          58 :: 34 :: (t ++ 34 :: 44 :: 34 :: 116 :: 105 :: 109 :: 101 :: 115 :: 116 :: 97 :: 109 ::
            112 :: 34 :: 58 :: 34 :: (ts ++ 34 :: 125 :: rest))))
      = some ([([114, 101, 115, 112, 111, 110, 115, 101, 95, 116, 111], JValue.string r),
          ([109, 115, 103, 95, 116, 121, 112, 101], JValue.string t),
          ([116, 105, 109, 101, 115, 116, 97, 109, 112], JValue.string ts)], rest) := by
    intro g rest
    rw [parseMembers_more (g + 3) 2 _ _ _ _ _ (k3 _) (parseValue_string (g + 2) 2 _ r _ (hr _)),
      m4 g rest]
    rfl
  have k2 : ∀ rest, scanString (112 :: 97 :: 114 :: 101 :: 110 :: 116 :: 95 :: 105 :: 100 :: 34 :: rest)
      = some ([112, 97, 114, 101, 110, 116, 95, 105, 100], rest) :=
    fun rest => scanString_key [112, 97, 114, 101, 110, 116, 95, 105, 100] rest (by decide)
  have m2 : ∀ g rest, parseMembers (g + 5) 2
      (34 :: 112 :: 97 :: 114 :: 101 :: 110 :: 116 :: 95 :: 105 :: 100 :: 34 :: 58 :: 34 ::
        (p ++ 34 :: 44 :: 34 :: 114 :: 101 :: 115 :: 112 :: 111 :: 110 :: 115 :: 101 :: 95 :: 116 ::
          111 :: 34 :: 58 :: 34 :: (r ++ 34 :: 44 :: 34 :: 109 :: 115 :: 103 :: 95 :: 116 :: 121 ::
            112 :: 101 :: 34 :: 58 :: 34 :: (t ++ 34 :: 44 :: 34 :: 116 :: 105 :: 109 :: 101 :: 115 ::
              116 :: 97 :: 109 :: 112 :: 34 :: 58 :: 34 :: (ts ++ 34 :: 125 :: rest)))))
      = some ([([112, 97, 114, 101, 110, 116, 95, 105, 100], JValue.string p),
          ([114, 101, 115, 112, 111, 110, 115, 101, 95, 116, 111], JValue.string r),
          ([109, 115, 103, 95, 116, 121, 112, 101], JValue.string t),
          ([116, 105, 109, 101, 115, 116, 97, 109, 112], JValue.string ts)], rest) := by
    intro g rest
    rw [parseMembers_more (g + 4) 2 _ _ _ _ _ (k2 _) (parseValue_string (g + 3) 2 _ p _ (hp _)),
      m3 g rest]
    rfl
  have k1 : ∀ rest, scanString (117 :: 117 :: 105 :: 100 :: 34 :: rest)
      = some ([117, 117, 105, 100], rest) :=
    fun rest => scanString_key [117, 117, 105, 100] rest (by decide)
  have m1 : ∀ g rest, parseMembers (g + 6) 2
      (34 :: 117 :: 117 :: 105 :: 100 :: 34 :: 58 :: 34 ::
        (u ++ 34 :: 44 :: 34 :: 112 :: 97 :: 114 :: 101 :: 110 :: 116 :: 95 :: 105 :: 100 :: 34 ::
          58 :: 34 :: (p ++ 34 :: 44 :: 34 :: 114 :: 101 :: 115 :: 112 :: 111 :: 110 :: 115 :: 101 ::
            95 :: 116 :: 111 :: 34 :: 58 :: 34 :: (r ++ 34 :: 44 :: 34 :: 109 :: 115 :: 103 :: 95 ::
              116 :: 121 :: 112 :: 101 :: 34 :: 58 :: 34 :: (t ++ 34 :: 44 :: 34 :: 116 :: 105 ::
                109 :: 101 :: 115 :: 116 :: 97 :: 109 :: 112 :: 34 :: 58 :: 34 ::
                  (ts ++ 34 :: 125 :: rest))))))
      = some ([([117, 117, 105, 100], JValue.string u),
          ([112, 97, 114, 101, 110, 116, 95, 105, 100], JValue.string p),
          ([114, 101, 115, 112, 111, 110, 115, 101, 95, 116, 111], JValue.string r),
          ([109, 115, 103, 95, 116, 121, 112, 101], JValue.string t),
          ([116, 105, 109, 101, 115, 116, 97, 109, 112], JValue.string ts)], rest) := by
    intro g rest
    rw [parseMembers_more (g + 5) 2 _ _ _ _ _ (k1 _) (parseValue_string (g + 4) 2 _ u _ (hu _)),
      m2 g rest]
    rfl
  have km : ∀ rest, scanString (109 :: 101 :: 116 :: 97 :: 34 :: rest) = some ([109, 101, 116, 97], rest) :=
    fun rest => scanString_key [109, 101, 116, 97] rest (by decide)
  refine parseValue_object (f + 8) 0 _ _ [] (by decide) ?_
  rw [parseMembers_more (f + 7) 1 _ _ _ _ _ (km _)
    (parseValue_object (f + 6) 1 _ _ _ (by decide) (m1 f _)), m_payload (f + 3) []]
  rfl

theorem unquote_key (key : List Nat) (h : ∀ c ∈ key, 32 ≤ c ∧ c ≠ 34 ∧ c ≠ 92 ∧ c < 0x80) :
    unquote key = some key :=
  unquoteBody_plain_list key key.length le_rfl h

/-- The decoder on the value the scanner finds in the text of `jsonMarshal`:
every field is overwritten and no error is raised. -/
theorem decodeStruct_wire (m0 : _message) (u p r t ts : List Nat) (dv : JValue)
    (su sp sr st : GoString) (tm : Time) (dd : Option (List Nat))
    (hu : unquote u = some su) (hp : unquote p = some sp) (hr : unquote r = some sr)
    (ht : unquote t = some st) (hts : parseRFC3339 ts = some tm)
    (hd : ∀ s0 : DecodeState _payload,
      decodeBytes s0 dv = { s0 with val := { Data := dd, spare := [] } }) :
    decodeStruct decodeMessageMember { val := m0, savedError := none, err := none }
        (JValue.object
          [([109, 101, 116, 97],
              JValue.object
                [([117, 117, 105, 100], JValue.string u),
                  ([112, 97, 114, 101, 110, 116, 95, 105, 100], JValue.string p),
                  ([114, 101, 115, 112, 111, 110, 115, 101, 95, 116, 111], JValue.string r),
                  ([109, 115, 103, 95, 116, 121, 112, 101], JValue.string t),
                  ([116, 105, 109, 101, 115, 116, 97, 109, 112], JValue.string ts)]),
            ([112, 97, 121, 108, 111, 97, 100], JValue.object [([100, 97, 116, 97], dv)])]) =
      { val :=
          { Meta := { UUID := su, ParentID := sp, ResponseTo := sr, MsgType := st, Timestamp := tm }
            Payload := { Data := dd, spare := [] } }
        savedError := none
        err := none } := by
  have q1 : unquote [109, 101, 116, 97] = some [109, 101, 116, 97] := unquote_key _ (by decide)
  have q2 : unquote [112, 97, 121, 108, 111, 97, 100] = some [112, 97, 121, 108, 111, 97, 100] :=
    unquote_key _ (by decide)
  have q3 : unquote [117, 117, 105, 100] = some [117, 117, 105, 100] := unquote_key _ (by decide)
  have q4 : unquote [112, 97, 114, 101, 110, 116, 95, 105, 100] =
      some [112, 97, 114, 101, 110, 116, 95, 105, 100] := unquote_key _ (by decide)
  have q5 : unquote [114, 101, 115, 112, 111, 110, 115, 101, 95, 116, 111] =
      some [114, 101, 115, 112, 111, 110, 115, 101, 95, 116, 111] := unquote_key _ (by decide)
  have q6 : unquote [109, 115, 103, 95, 116, 121, 112, 101] =
      some [109, 115, 103, 95, 116, 121, 112, 101] := unquote_key _ (by decide)
  have q7 : unquote [116, 105, 109, 101, 115, 116, 97, 109, 112] =
      some [116, 105, 109, 101, 115, 116, 97, 109, 112] := unquote_key _ (by decide)
  have q8 : unquote [100, 97, 116, 97] = some [100, 97, 116, 97] := unquote_key _ (by decide)
  have f1 : matchField [[109, 101, 116, 97], [112, 97, 121, 108, 111, 97, 100]] [109, 101, 116, 97]
      = some [109, 101, 116, 97] := by decide
  have f2 : matchField [[109, 101, 116, 97], [112, 97, 121, 108, 111, 97, 100]]
      [112, 97, 121, 108, 111, 97, 100] = some [112, 97, 121, 108, 111, 97, 100] := by decide
  have f3 : matchField metaFields [117, 117, 105, 100] = some [117, 117, 105, 100] := by decide
  have f4 : matchField metaFields [112, 97, 114, 101, 110, 116, 95, 105, 100] =
      some [112, 97, 114, 101, 110, 116, 95, 105, 100] := by decide
  have f5 : matchField metaFields [114, 101, 115, 112, 111, 110, 115, 101, 95, 116, 111] =
      some [114, 101, 115, 112, 111, 110, 115, 101, 95, 116, 111] := by decide
  have f6 : matchField metaFields [109, 115, 103, 95, 116, 121, 112, 101] =
      some [109, 115, 103, 95, 116, 121, 112, 101] := by decide
  have f7 : matchField metaFields [116, 105, 109, 101, 115, 116, 97, 109, 112] =
      some [116, 105, 109, 101, 115, 116, 97, 109, 112] := by decide
  have f8 : matchField [[100, 97, 116, 97]] [100, 97, 116, 97] = some [100, 97, 116, 97] := by
    decide
  simp [decodeStruct, decodeMessageMember, decodeMetaMember, decodePayloadMember, q1, q2, q3, q4,
    q5, q6, q7, q8, f1, f2, f3, f4, f5, f6, f7, f8, DecodeState.focus, DecodeState.lift,
    decodeString, decodeTime, hu, hp, hr, ht, hts, hd]



theorem unquote_appendStringBody (s : GoString) (h : validUTF8 s = true) :
    unquote (appendStringBody s.length s) = some s :=
  unquoteBody_appendStringBody s.length s s.length _ le_rfl h le_rfl

theorem encodeByteSlice_parse (data : Option (List Nat)) (hd : ∀ d, data = some d → ∀ b ∈ d, b < 256) :
    ∃ dv : JValue,
      (∀ g rest, parseValue (g + 1) 2 (encodeByteSlice data ++ 125 :: rest) = some (dv, 125 :: rest)) ∧
      (∀ s0 : DecodeState _payload,
        decodeBytes s0 dv = { s0 with val := { Data := data, spare := [] } }) := by
  cases data with
  | none =>
    refine ⟨JValue.null, fun g rest => ?_, fun s0 => rfl⟩
    exact parseValue_null g 2 _
  | some d =>
    have hb := hd d rfl
    have hch := base64Encode_chars d.length d le_rfl hb
    refine ⟨JValue.string (base64Encode d), fun g rest => ?_, fun s0 => ?_⟩
    · simp only [encodeByteSlice, List.cons_append, List.nil_append, List.append_assoc]
      exact parseValue_string g 2 _ _ _
        (scanString_key _ _ (fun c hc => by have := hch c hc; omega))
    · have hq : unquote (base64Encode d) = some (base64Encode d) :=
        unquote_key _ (fun c hc => by have := hch c hc; omega)
      simp only [decodeBytes, hq, base64Decode_base64Encode d hb]

/-- Unmarshalling the text `Marshal` wrote for a message gives the message
back, whatever the receiver held, when the strings of the message are valid
UTF-8, its timestamp has an RFC 3339 text and its data are bytes. The timestamp
comes back without its monotonic reading. -/
theorem jsonUnmarshal_jsonMarshal (m m0 : _message)
    (h1 : validUTF8 m.Meta.UUID = true) (h2 : validUTF8 m.Meta.ParentID = true)
    (h3 : validUTF8 m.Meta.ResponseTo = true) (h4 : validUTF8 m.Meta.MsgType = true)
    (hw : m.Meta.Timestamp.wellFormed = true) (hr : m.Meta.Timestamp.rfc3339 = true)
    (hd : ∀ d, m.Payload.Data = some d → ∀ b ∈ d, b < 256) :
    ∃ bytes, jsonMarshal m = Except.ok bytes ∧
      jsonUnmarshal bytes m0 =
        ({ Meta := { m.Meta with Timestamp := m.Meta.Timestamp.stripMono }
           Payload := { Data := m.Payload.Data, spare := [] } }, none) := by
  obtain ⟨dv, hdv1, hdv2⟩ := encodeByteSlice_parse m.Payload.Data hd
  have hts : Time.MarshalJSON m.Meta.Timestamp =
      some ([34] ++ appendFormatRFC3339 m.Meta.Timestamp ++ [34]) := by
    simp only [Time.MarshalJSON, appendStrictRFC3339_ok _ hw hr, Option.map_some']
  refine ⟨_, by simp only [jsonMarshal, hts, appendString]; rfl, ?_⟩
  have hparse := fun f => parseValue_wire f
    (appendStringBody m.Meta.UUID.length m.Meta.UUID)
    (appendStringBody m.Meta.ParentID.length m.Meta.ParentID)
    (appendStringBody m.Meta.ResponseTo.length m.Meta.ResponseTo)
    (appendStringBody m.Meta.MsgType.length m.Meta.MsgType)
    (appendFormatRFC3339 m.Meta.Timestamp) (encodeByteSlice m.Payload.Data) dv
    (scanString_appendStringBody _ _) (scanString_appendStringBody _ _)
    (scanString_appendStringBody _ _) (scanString_appendStringBody _ _)
    (fun rest => scanString_key _ rest (appendFormatRFC3339_chars _ hw hr)) hdv1
  have hdec := decodeStruct_wire m0 _ _ _ _ _ dv _ _ _ _ _ m.Payload.Data
    (unquote_appendStringBody _ h1) (unquote_appendStringBody _ h2)
    (unquote_appendStringBody _ h3) (unquote_appendStringBody _ h4)
    (parseRFC3339_appendFormatRFC3339 _ hw hr) hdv2
  generalize htxt : ([123, 34, 109, 101, 116, 97, 34, 58, 123, 34, 117, 117, 105, 100, 34, 58] ++
        ([34] ++ appendStringBody m.Meta.UUID.length m.Meta.UUID ++ [34]) ++
        [44, 34, 112, 97, 114, 101, 110, 116, 95, 105, 100, 34, 58] ++
        ([34] ++ appendStringBody m.Meta.ParentID.length m.Meta.ParentID ++ [34]) ++
        [44, 34, 114, 101, 115, 112, 111, 110, 115, 101, 95, 116, 111, 34, 58] ++
        ([34] ++ appendStringBody m.Meta.ResponseTo.length m.Meta.ResponseTo ++ [34]) ++
        [44, 34, 109, 115, 103, 95, 116, 121, 112, 101, 34, 58] ++
        ([34] ++ appendStringBody m.Meta.MsgType.length m.Meta.MsgType ++ [34]) ++
        [44, 34, 116, 105, 109, 101, 115, 116, 97, 109, 112, 34, 58] ++
        ([34] ++ appendFormatRFC3339 m.Meta.Timestamp ++ [34]) ++
        [125, 44, 34, 112, 97, 121, 108, 111, 97, 100, 34, 58, 123, 34, 100, 97, 116, 97, 34, 58] ++
        encodeByteSlice m.Payload.Data ++ [125, 125]) = txt at hparse ⊢
  have hlen : 8 ≤ txt.length := by
    rw [← htxt]; simp only [List.length_append, List.length_cons, List.length_nil]; omega
  obtain ⟨f, hf⟩ : ∃ f, txt.length + 1 = f + 9 := ⟨txt.length - 8, by omega⟩
  simp only [jsonUnmarshal, parseJSON, hf, hparse f, skipWS, if_true, hdec]

/-! ## Theorems: message.go -/

theorem hexEncode_ascii (bs : List Nat) : ∀ c ∈ hexEncode bs, c < 0x80 := by
  intro c hc
  simp only [hexEncode, List.mem_flatMap, List.mem_cons, List.mem_singleton, List.not_mem_nil,
    or_false] at hc
  obtain ⟨b, _, rfl | rfl⟩ := hc <;> (unfold hexDigit; split_ifs <;> omega)

theorem validUTF8_UUID_String (u : List Nat) : validUTF8 (UUID.String u) = true := by
  apply validUTF8Aux_ascii _ _ le_rfl
  intro c hc
  simp only [UUID.String, List.mem_append, List.mem_singleton] at hc
  rcases hc with ((((((((hc | rfl) | hc) | rfl) | hc) | rfl) | hc) | rfl) | hc)
  all_goals first
    | omega
    | exact hexEncode_ascii _ c hc

theorem validUTF8_nil : validUTF8 [] = true := rfl

theorem MsgFromBytes_of_fst (bytes : List Nat) (m' : _message)
    (h : (MsgFromBytes bytes).1 = some m') : MsgFromBytes bytes = (some m', none) := by
  unfold MsgFromBytes at h ⊢
  cases he : (_message.Unmarshal zeroMessage bytes).2 with
  | some e => simp [he] at h
  | none =>
    simp only [he] at h ⊢
    simp only [Option.some.injEq] at h
    rw [h]

theorem roundTrips_new (uuid : List Nat) (now : Time) (msgType parentID responseTo : GoString)
    (data : Option (List Nat)) (spare : List Nat) (hnow : now.wellFormed = true)
    (hrep : now.rfc3339 = true) (ht : validUTF8 msgType = true)
    (hp : validUTF8 parentID = true) (hr : validUTF8 responseTo = true)
    (hd : isBytes data = true) :
    RoundTrips (new uuid now msgType parentID responseTo data spare) := by
  have hd' : ∀ d, (new uuid now msgType parentID responseTo data spare).Payload.Data = some d →
      ∀ b ∈ d, b < 256 := by
    intro d hdd b hb
    have hdd' : data = some d := hdd
    subst hdd'
    simp only [isBytes, List.all_eq_true, decide_eq_true_eq] at hd
    exact hd b hb
  have key := fun m0 =>
    jsonUnmarshal_jsonMarshal (new uuid now msgType parentID responseTo data spare)
      m0 (validUTF8_UUID_String uuid) hp hr ht hnow hrep hd'
  obtain ⟨bytes, hM, hU⟩ := key zeroMessage
  have hUall : ∀ m0 : _message, jsonUnmarshal bytes m0 =
      ({ Meta := { (new uuid now msgType parentID responseTo data spare).Meta with
            Timestamp :=
              (new uuid now msgType parentID responseTo data spare).Meta.Timestamp.stripMono }
         Payload := { Data := data, spare := [] } },
        none) := by
    intro m0
    obtain ⟨bytes', hM', hU'⟩ := key m0
    rw [hM] at hM'
    cases hM'
    exact hU'
  refine ⟨bytes,
    { Meta := { (new uuid now msgType parentID responseTo data spare).Meta with
        Timestamp :=
          (new uuid now msgType parentID responseTo data spare).Meta.Timestamp.stripMono }
      Payload := { Data := data, spare := [] } },
    ?_, ?_, ?_, rfl, rfl, rfl, rfl, rfl, rfl⟩
  · simp only [_message.Marshal, hM]
  · simp only [MsgFromBytes, _message.Unmarshal, hUall zeroMessage]
  · intro m0
    exact hUall m0

/-- C4 as amended: a message built by `NewMsg`, `NewMsgWithParentID` or
`NewMsgResponseTo` round-trips through `Marshal` and `MsgFromBytes` (or
`Unmarshal` into any receiver) when its type, parent id and response-to strings
are valid UTF-8 and the clock reading has an RFC 3339 text (a year in
`[0, 9999]`, a zone offset of whole minutes below 24 hours): identifiers and
type come back equal, the data byte for byte, and the timestamp as the same
civil reading and zone offset without the monotonic reading. -/
theorem C4_round_trip_valid_utf8 (uuid : List Nat) (now : Time)
    (msgType parentID responseTo : GoString) (data : Option (List Nat)) (spare : List Nat)
    (hnow : now.wellFormed = true) (hrep : now.rfc3339 = true)
    (ht : validUTF8 msgType = true) (hp : validUTF8 parentID = true)
    (hr : validUTF8 responseTo = true) (hd : isBytes data = true) :
    RoundTrips (NewMsg uuid now msgType data spare) ∧
      RoundTrips (NewMsgWithParentID uuid now msgType parentID data spare) ∧
      RoundTrips (NewMsgResponseTo uuid now msgType responseTo data spare) :=
  ⟨roundTrips_new uuid now msgType [] [] data spare hnow hrep ht validUTF8_nil validUTF8_nil hd,
    roundTrips_new uuid now msgType parentID [] data spare hnow hrep ht hp validUTF8_nil hd,
    roundTrips_new uuid now msgType [] responseTo data spare hnow hrep ht validUTF8_nil hr hd⟩

/-- A witness of the amended C4: messages of type `grav.default` with the
payload `hi` in a slice with one more byte of capacity, the parent id `req-1`
and the response-to `a-Ω`. -/
theorem C4_round_trip_valid_utf8_witness :
    sampleNow.wellFormed = true ∧ sampleNow.rfc3339 = true ∧
      validUTF8 DefaultMsgType = true ∧ validUTF8 [114, 101, 113, 45, 49] = true ∧
      validUTF8 [97, 45, 206, 169] = true ∧ isBytes (some [104, 105]) = true ∧
      (RoundTrips (NewMsg sampleUUID sampleNow DefaultMsgType (some [104, 105]) [7]) ∧
        RoundTrips
          (NewMsgWithParentID sampleUUID sampleNow DefaultMsgType [114, 101, 113, 45, 49]
            (some [104, 105]) [7]) ∧
        RoundTrips
          (NewMsgResponseTo sampleUUID sampleNow DefaultMsgType [97, 45, 206, 169]
            (some [104, 105]) [7])) :=
  ⟨by decide, by decide, by decide, by decide, by decide, by decide,
    C4_round_trip_valid_utf8 sampleUUID sampleNow DefaultMsgType [114, 101, 113, 45, 49]
      [97, 45, 206, 169] (some [104, 105]) [7] (by decide) (by decide) (by decide) (by decide)
      (by decide) (by decide)⟩

set_option maxRecDepth 100000 in
theorem sample_invalid_type_decoded :
    ((NewMsg sampleUUID sampleNow [255] none []).Marshal.toOption.bind
        (fun b => (MsgFromBytes b).1)).map _message.Type_ = some [239, 191, 189] := by
  decide

set_option maxRecDepth 100000 in
theorem sample_zone_seconds_decoded :
    ((NewMsg sampleUUID { sampleNow with offset := 30 } DefaultMsgType none []).Marshal.toOption.bind
        (fun b => (MsgFromBytes b).1)).map (fun m => m.Timestamp.offset) = some 0 := by
  decide

theorem exists_of_decoded {α : Type} (m : _message) (f : _message → α) (a : α)
    (h : (m.Marshal.toOption.bind (fun b => (MsgFromBytes b).1)).map f = some a) :
    ∃ bytes m', m.Marshal = Except.ok bytes ∧ MsgFromBytes bytes = (some m', none) ∧ f m' = a := by
  cases hM : m.Marshal with
  | error e => rw [hM] at h; simp [Except.toOption] at h
  | ok bytes =>
    rw [hM] at h
    simp only [Except.toOption, Option.some_bind] at h
    cases hU : (MsgFromBytes bytes).1 with
    | none => rw [hU] at h; simp at h
    | some m' =>
      rw [hU] at h
      simp only [Option.map_some', Option.some.injEq] at h
      exact ⟨bytes, m', rfl, MsgFromBytes_of_fst bytes m' hU, h⟩

/-- C4 fails as stated. For the type string of the one byte `0xFF` (not valid
UTF-8) `Marshal` succeeds and `MsgFromBytes` succeeds on its output, but the
decoded `Type()` is the three bytes of U+FFFD, not the byte `0xFF`. For a clock
reading in the year 10000 `Marshal` fails. For a clock reading in a zone 30
seconds east of UTC the timestamp comes back with the zone offset 0, half a
minute away. -/
theorem C4_counterexample_invalid_utf8_type :
    ((∃ bytes m', (NewMsg sampleUUID sampleNow [255] none []).Marshal = Except.ok bytes ∧
          MsgFromBytes bytes = (some m', none) ∧ m'.Type_ = [239, 191, 189]) ∧
        (NewMsg sampleUUID sampleNow [255] none []).Type_ = [255] ∧
        ¬ RoundTrips (NewMsg sampleUUID sampleNow [255] none [])) ∧
      (NewMsg sampleUUID { sampleNow with year := 10000 } DefaultMsgType none []).Marshal =
        Except.error GoError.timeMarshal ∧
      ((∃ bytes m',
          (NewMsg sampleUUID { sampleNow with offset := 30 } DefaultMsgType none []).Marshal =
            Except.ok bytes ∧
          MsgFromBytes bytes = (some m', none) ∧ m'.Timestamp.offset = 0) ∧
        (NewMsg sampleUUID { sampleNow with offset := 30 } DefaultMsgType none []).Timestamp.offset
          = 30) := by
  have hex := exists_of_decoded _ _ _ sample_invalid_type_decoded
  refine ⟨⟨hex, rfl, ?_⟩, by rfl, exists_of_decoded _ _ _ sample_zone_seconds_decoded, rfl⟩
  rintro ⟨bytes, m', hM, hU, _, _, _, _, hT, _⟩
  obtain ⟨bytes2, m2, hM2, hU2, hT2⟩ := hex
  rw [hM] at hM2
  cases hM2
  rw [hU] at hU2
  cases hU2
  rw [hT2] at hT
  exact absurd hT (by decide)

/-! ## Theorems: filter.go, continued -/

theorem GoMap.has_set (m : GoMap) (k k' : GoString) (v : Bool) (h : m.has k' = true) :
    (m.set k v).has k' = true := by
  unfold GoMap.has GoMap.set at *
  split_ifs <;> simp [h]

theorem FilterOp.run_has {μ : Type} [Message μ] (mf : messageFilter) (op : FilterOp μ)
    (k : GoString) :
    (mf.TypeMap.has k = true → (op.run mf).TypeMap.has k = true) ∧
      (mf.UUIDMap.has k = true → (op.run mf).UUIDMap.has k = true) := by
  cases op with
  | filterUUID u a => exact ⟨fun h => h, fun h => GoMap.has_set _ _ _ _ h⟩
  | filterType t a => exact ⟨fun h => GoMap.has_set _ _ _ _ h, fun h => h⟩
  | allow msg =>
    simp only [FilterOp.run, ite_self]
    exact ⟨fun h => h, fun h => h⟩

/-- C11: whatever finite sequence of `FilterType`, `FilterUUID` and `allow`
calls runs on a filter, a key that has an entry in `TypeMap` (in `UUIDMap`)
before the sequence has one after it. -/
theorem C11_entries_never_removed {μ : Type} [Message μ] (ops : List (FilterOp μ))
    (mf : messageFilter) (k : GoString) :
    (mf.TypeMap.has k = true → (runOps mf ops).TypeMap.has k = true) ∧
      (mf.UUIDMap.has k = true → (runOps mf ops).UUIDMap.has k = true) := by
  induction ops generalizing mf with
  | nil => exact ⟨fun h => h, fun h => h⟩
  | cons op ops ih =>
    have h1 := FilterOp.run_has mf op k
    have h2 := ih (op.run mf)
    exact ⟨fun h => h2.1 (h1.1 h), fun h => h2.2 (h1.2 h)⟩

/-- A witness of C11: after `FilterType("foo", false)`, the calls
`FilterType("X", true)`, `allow`, `FilterUUID("abc", true)` and
`FilterType("foo", true)` leave `foo` with an entry. -/
theorem C11_entries_never_removed_witness :
    (runOps (newMessageFilter.FilterType [102, 111, 111] false)
        [FilterOp.filterType [88] true, FilterOp.allow (msgOf [97, 98, 99] [88]),
          FilterOp.filterUUID [97, 98, 99] true,
          FilterOp.filterType [102, 111, 111] true]).TypeMap.has [102, 111, 111] = true :=
  (C11_entries_never_removed
    [FilterOp.filterType [88] true, FilterOp.allow (msgOf [97, 98, 99] [88]),
      FilterOp.filterUUID [97, 98, 99] true, FilterOp.filterType [102, 111, 111] true]
    (newMessageFilter.FilterType [102, 111, 111] false) [102, 111, 111]).1 (by decide)

/-- C12: two messages, of any two implementations of `Message`, with equal
`Type()` and equal `UUID()` get the same answer from `allow`. -/
theorem C12_allow_depends_on_type_and_uuid {μ ν : Type} [Message μ] [Message ν]
    (mf : messageFilter) (m1 : μ) (m2 : ν) (hT : Message.Type_ m1 = Message.Type_ m2)
    (hU : Message.UUID m1 = Message.UUID m2) : mf.allow m1 = mf.allow m2 := by
  rw [allow_eq_axes, allow_eq_axes, hT, hU]

/-- A witness of C12: a message with a parent id, a timestamp and data, and the
message of the same id and type with every other field zero. -/
theorem C12_allow_depends_on_type_and_uuid_witness :
    Message.Type_ (NewMsgWithParentID sampleUUID sampleNow [88] [112] (some [1, 2]) []) =
        Message.Type_ (msgOf (UUID.String sampleUUID) [88]) ∧
      Message.UUID (NewMsgWithParentID sampleUUID sampleNow [88] [112] (some [1, 2]) []) =
        Message.UUID (msgOf (UUID.String sampleUUID) [88]) ∧
      (newMessageFilter.FilterType [88] false).allow
          (NewMsgWithParentID sampleUUID sampleNow [88] [112] (some [1, 2]) []) =
        (newMessageFilter.FilterType [88] false).allow (msgOf (UUID.String sampleUUID) [88]) :=
  ⟨rfl, rfl, C12_allow_depends_on_type_and_uuid (newMessageFilter.FilterType [88] false)
    (NewMsgWithParentID sampleUUID sampleNow [88] [112] (some [1, 2]) [])
    (msgOf (UUID.String sampleUUID) [88]) rfl rfl⟩

/-- C19: `FilterType(t, a)` does not change the answer of `allow` for a message
whose `Type()` differs from `t`, and `FilterUUID(i, a)` does not change it for a
message whose `UUID()` differs from `i`. -/
theorem C19_mutation_is_local {μ : Type} [Message μ] (mf : messageFilter) (k : GoString)
    (a : Bool) (msg : μ) :
    (Message.Type_ msg ≠ k → (mf.FilterType k a).allow msg = mf.allow msg) ∧
      (Message.UUID msg ≠ k → (mf.FilterUUID k a).allow msg = mf.allow msg) := by
  constructor
  · intro h
    rw [allow_eq_axes, allow_eq_axes]
    simp [typeAllowed, idAllowed, messageFilter.FilterType, GoMap.set, h]
  · intro h
    rw [allow_eq_axes, allow_eq_axes]
    simp [typeAllowed, idAllowed, messageFilter.FilterUUID, GoMap.set, h]

/-- A witness of C19: denying the type `foo` and the id `zzz` leaves the answer
for the message `abc` of type `X` as it was. -/
theorem C19_mutation_is_local_witness :
    (newMessageFilter.FilterType [102, 111, 111] false).allow (msgOf [97, 98, 99] [88]) =
        newMessageFilter.allow (msgOf [97, 98, 99] [88]) ∧
      (newMessageFilter.FilterUUID [122, 122, 122] false).allow (msgOf [97, 98, 99] [88]) =
        newMessageFilter.allow (msgOf [97, 98, 99] [88]) :=
  ⟨(C19_mutation_is_local newMessageFilter [102, 111, 111] false (msgOf [97, 98, 99] [88])).1
      (by decide),
    (C19_mutation_is_local newMessageFilter [122, 122, 122] false (msgOf [97, 98, 99] [88])).2
      (by decide)⟩

theorem GoMap.set_comm (m : GoMap) (k k' : GoString) (a b : Bool) (h : k ≠ k') :
    (m.set k a).set k' b = (m.set k' b).set k a := by
  funext x
  simp only [GoMap.set]
  have h' : ¬ k' = k := fun e => h e.symm
  by_cases h1 : x = k'
  · subst h1
    simp [h']
  · by_cases h2 : x = k
    · subst h2
      simp [h]
    · simp [h1, h2]

theorem GoMap.set_set (m : GoMap) (k : GoString) (a b : Bool) :
    (m.set k a).set k b = m.set k b := by
  funext x
  simp only [GoMap.set]
  split_ifs <;> rfl

/-- C20: a `FilterType` and a `FilterUUID` commute; two `FilterType` calls on
distinct types commute and two `FilterUUID` calls on distinct ids commute; of
two writes to the same key the later one wins. -/
theorem C20_order_independence (mf : messageFilter) (t t' i i' : GoString) (a b : Bool)
    (ht : t ≠ t') (hi : i ≠ i') :
    (mf.FilterType t a).FilterUUID i b = (mf.FilterUUID i b).FilterType t a ∧
      (mf.FilterType t a).FilterType t' b = (mf.FilterType t' b).FilterType t a ∧
      (mf.FilterUUID i a).FilterUUID i' b = (mf.FilterUUID i' b).FilterUUID i a ∧
      (mf.FilterType t a).FilterType t b = mf.FilterType t b ∧
      (mf.FilterUUID i a).FilterUUID i b = mf.FilterUUID i b := by
  refine ⟨rfl, ?_, ?_, ?_, ?_⟩
  · simp only [messageFilter.FilterType, GoMap.set_comm _ _ _ _ _ ht]
  · simp only [messageFilter.FilterUUID, GoMap.set_comm _ _ _ _ _ hi]
  · simp only [messageFilter.FilterType, GoMap.set_set]
  · simp only [messageFilter.FilterUUID, GoMap.set_set]

/-- A witness of C20, on the types `foo` and `X` and the ids `abc` and `zzz`. -/
theorem C20_order_independence_witness :
    ([102, 111, 111] : GoString) ≠ [88] ∧ ([97, 98, 99] : GoString) ≠ [122, 122, 122] ∧
      ((newMessageFilter.FilterType [102, 111, 111] true).FilterUUID [97, 98, 99] false =
          (newMessageFilter.FilterUUID [97, 98, 99] false).FilterType [102, 111, 111] true ∧
        (newMessageFilter.FilterType [102, 111, 111] true).FilterType [88] false =
          (newMessageFilter.FilterType [88] false).FilterType [102, 111, 111] true ∧
        (newMessageFilter.FilterUUID [97, 98, 99] true).FilterUUID [122, 122, 122] false =
          (newMessageFilter.FilterUUID [122, 122, 122] false).FilterUUID [97, 98, 99] true ∧
        (newMessageFilter.FilterType [102, 111, 111] true).FilterType [102, 111, 111] false =
          newMessageFilter.FilterType [102, 111, 111] false ∧
        (newMessageFilter.FilterUUID [97, 98, 99] true).FilterUUID [97, 98, 99] false =
          newMessageFilter.FilterUUID [97, 98, 99] false) :=
  ⟨by decide, by decide,
    C20_order_independence newMessageFilter [102, 111, 111] [88] [97, 98, 99] [122, 122, 122]
      true false (by decide) (by decide)⟩

/-! ## Theorems: message.go, continued -/

/-- C15: when reading the request body fails, `MsgFromRequest` returns that
error and a nil message; when it gives the bytes `b`, the result is that of
`MsgFromBytes(b)`. -/
theorem C15_MsgFromRequest_reads_then_delegates (err : GoError) (b : List Nat) :
    MsgFromRequest (Except.error err) = (none, some err) ∧
      MsgFromRequest (Except.ok b) = MsgFromBytes b :=
  ⟨rfl, rfl⟩

/-- C16: `NewMsg` returns a message of the given type and data with an empty
parent id and response-to; `NewMsgWithParentID` the same with the given parent
id; `NewMsgResponseTo` the same with the given response-to. -/
theorem C16_constructor_postconditions (uuid : List Nat) (now : Time)
    (msgType x : GoString) (data : Option (List Nat)) (spare : List Nat) :
    ((NewMsg uuid now msgType data spare).Type_ = msgType ∧
        (NewMsg uuid now msgType data spare).Data = data ∧
        (NewMsg uuid now msgType data spare).ParentID = [] ∧
        (NewMsg uuid now msgType data spare).ResponseTo = []) ∧
      ((NewMsgWithParentID uuid now msgType x data spare).Type_ = msgType ∧
        (NewMsgWithParentID uuid now msgType x data spare).Data = data ∧
        (NewMsgWithParentID uuid now msgType x data spare).ParentID = x ∧
        (NewMsgWithParentID uuid now msgType x data spare).ResponseTo = []) ∧
      ((NewMsgResponseTo uuid now msgType x data spare).Type_ = msgType ∧
        (NewMsgResponseTo uuid now msgType x data spare).Data = data ∧
        (NewMsgResponseTo uuid now msgType x data spare).ParentID = [] ∧
        (NewMsgResponseTo uuid now msgType x data spare).ResponseTo = x) :=
  ⟨⟨rfl, rfl, rfl, rfl⟩, ⟨rfl, rfl, rfl, rfl⟩, ⟨rfl, rfl, rfl, rfl⟩⟩

/-! ## Theorems: the scanner accepts only JSON texts -/

theorem skipWS_spec (s : List Nat) : ∃ w, JSONSpace w ∧ s = w ++ skipWS s := by
  induction s with
  | nil => exact ⟨[], fun c hc => absurd hc (List.not_mem_nil c), rfl⟩
  | cons c rest ih =>
    by_cases hc : isSpace c = true
    · obtain ⟨w, hw, he⟩ := ih
      refine ⟨c :: w, ?_, ?_⟩
      · intro x hx
        rcases List.mem_cons.mp hx with rfl | hx
        · simp only [isSpace, decide_eq_true_eq] at hc
          omega
        · exact hw x hx
      · simp only [skipWS, hc, if_true, List.cons_append]
        rw [← he]
    · exact ⟨[], fun c hc => absurd hc (List.not_mem_nil c), by simp [skipWS, hc]⟩

theorem JSONSpace_of_skipWS_nil (s : List Nat) (h : skipWS s = []) : JSONSpace s := by
  obtain ⟨w, hw, he⟩ := skipWS_spec s
  rw [h, List.append_nil] at he
  rw [he]
  exact hw

theorem JSONHex_of_hexVal (c : Nat) (h : (hexVal c).isSome = true) : JSONHex c := by
  unfold hexVal at h
  unfold JSONHex
  split_ifs at h with h1 h2 h3
  · exact Or.inl h1
  · exact Or.inr (Or.inr h2)
  · exact Or.inr (Or.inl h3)
  · simp at h

theorem scanString_sound (n : Nat) :
    ∀ s : List Nat, s.length ≤ n → ∀ raw rest, scanString s = some (raw, rest) →
      JSONChars raw ∧ s = raw ++ 34 :: rest := by
  induction n using Nat.strong_induction_on with
  | _ n ih =>
    intro s hn raw rest h
    rcases s with _ | ⟨c, s1⟩
    · rw [scanString.eq_def] at h; simp at h
    rw [scanString.eq_def] at h
    simp only at h
    split_ifs at h with h1 h2 h3
    · simp only [Option.some.injEq, Prod.mk.injEq] at h
      obtain ⟨rfl, rfl⟩ := h
      exact ⟨JSONChars.nil, by rw [h1]; rfl⟩
    · rcases s1 with _ | ⟨e, s2⟩
      · simp at h
      simp only at h
      split_ifs at h with h4 h5
      · obtain ⟨⟨raw', r⟩, hs, he⟩ := Option.map_eq_some'.mp h
        simp only [Prod.mk.injEq] at he
        obtain ⟨rfl, rfl⟩ := he
        obtain ⟨hc, hs'⟩ := ih s2.length (by simp only [List.length_cons] at hn; omega) s2 le_rfl
          raw' r hs
        refine ⟨?_, by rw [hs']; rfl⟩
        rw [h2]
        exact JSONChars.escaped e raw' h4 hc
      · rcases s2 with _ | ⟨a, _ | ⟨b, _ | ⟨x, _ | ⟨d, s3⟩⟩⟩⟩
        · simp at h
        · simp at h
        · simp at h
        · simp at h
        simp only at h
        split_ifs at h with h6
        · obtain ⟨⟨raw', r⟩, hs, he⟩ := Option.map_eq_some'.mp h
          simp only [Prod.mk.injEq] at he
          obtain ⟨rfl, rfl⟩ := he
          obtain ⟨hc, hs'⟩ := ih s3.length (by simp only [List.length_cons] at hn; omega) s3
            le_rfl raw' r hs
          refine ⟨?_, by rw [hs']; rfl⟩
          rw [h2, h5]
          exact JSONChars.unicode a b x d raw' (JSONHex_of_hexVal _ h6.1)
            (JSONHex_of_hexVal _ h6.2.1) (JSONHex_of_hexVal _ h6.2.2.1)
            (JSONHex_of_hexVal _ h6.2.2.2) hc
    · obtain ⟨⟨raw', r⟩, hs, he⟩ := Option.map_eq_some'.mp h
      simp only [Prod.mk.injEq] at he
      obtain ⟨rfl, rfl⟩ := he
      obtain ⟨hc, hs'⟩ := ih s1.length (by simp only [List.length_cons] at hn; omega) s1 le_rfl
        raw' r hs
      exact ⟨JSONChars.unescaped c raw' (by omega) h1 h2 hc, by rw [hs']; rfl⟩

theorem scanDigits_sound (s ds r : List Nat) (h : scanDigits s = some (ds, r)) :
    JSONDigits ds ∧ s = ds ++ r := by
  unfold scanDigits at h
  simp only at h
  split_ifs at h with h1
  simp only [Option.some.injEq, Prod.mk.injEq] at h
  obtain ⟨rfl, rfl⟩ := h
  refine ⟨⟨h1, fun c hc => ?_⟩, (List.takeWhile_append_dropWhile _ s).symm⟩
  have := List.mem_takeWhile_imp hc
  simpa using this

theorem scanNumber_sound (s t rest : List Nat) (h : scanNumber s = some (t, rest)) :
    JSONNumber t ∧ s = t ++ rest := by
  unfold scanNumber at h
  split at h
  rename_i minus s1 hsign
  have hm : (minus = [] ∨ minus = [45]) ∧ s = minus ++ s1 := by
    split at hsign
    · simp only [Prod.mk.injEq] at hsign
      obtain ⟨rfl, rfl⟩ := hsign
      exact ⟨Or.inr rfl, rfl⟩
    · simp only [Prod.mk.injEq] at hsign
      obtain ⟨rfl, rfl⟩ := hsign
      exact ⟨Or.inl rfl, rfl⟩
  simp only at h
  obtain ⟨⟨ip, s2⟩, hint, h⟩ := Option.bind_eq_some.mp h
  have hip : (ip = [48] ∨ (JSONDigits ip ∧ ip.head? ≠ some 48)) ∧ s1 = ip ++ s2 := by
    split at hint
    · simp only [Option.some.injEq, Prod.mk.injEq] at hint
      obtain ⟨rfl, rfl⟩ := hint
      exact ⟨Or.inl rfl, rfl⟩
    · rename_i hne
      obtain ⟨hdig, he⟩ := scanDigits_sound _ _ _ hint
      refine ⟨Or.inr ⟨hdig, ?_⟩, he⟩
      rcases ip with _ | ⟨a, ip'⟩
      · exact absurd rfl hdig.1
      · simp only [List.head?_cons, ne_eq, Option.some.injEq]
        intro ha
        subst ha
        exact hne _ he
  simp only at h
  obtain ⟨⟨fp, s3⟩, hfrac, h⟩ := Option.bind_eq_some.mp h
  have hfp : (fp = [] ∨ ∃ ds, JSONDigits ds ∧ fp = 46 :: ds) ∧ s2 = fp ++ s3 := by
    split at hfrac
    · obtain ⟨⟨ds, r'⟩, hd, he⟩ := Option.map_eq_some'.mp hfrac
      simp only [Prod.mk.injEq] at he
      obtain ⟨rfl, rfl⟩ := he
      obtain ⟨hdig, hr⟩ := scanDigits_sound _ _ _ hd
      exact ⟨Or.inr ⟨ds, hdig, rfl⟩, by rw [hr]; rfl⟩
    · simp only [Option.some.injEq, Prod.mk.injEq] at hfrac
      obtain ⟨rfl, rfl⟩ := hfrac
      exact ⟨Or.inl rfl, rfl⟩
  simp only at h
  obtain ⟨⟨ep, s4⟩, hexp, h⟩ := Option.map_eq_some'.mp h
  simp only [Prod.mk.injEq] at h
  obtain ⟨rfl, rfl⟩ := h
  have hep : (ep = [] ∨ ∃ e sign ds, (e = 101 ∨ e = 69) ∧ (sign = [] ∨ sign = [43] ∨ sign = [45]) ∧
      JSONDigits ds ∧ ep = e :: (sign ++ ds)) ∧ s3 = ep ++ s4 := by
    rcases s3 with _ | ⟨e, r⟩
    · simp only [Option.some.injEq, Prod.mk.injEq] at hexp
      obtain ⟨rfl, rfl⟩ := hexp
      exact ⟨Or.inl rfl, rfl⟩
    · simp only at hexp
      split_ifs at hexp with he
      · rcases r with _ | ⟨sg, r'⟩
        · simp at hexp
        · simp only at hexp
          split_ifs at hexp with hsg
          · obtain ⟨⟨ds, r''⟩, hd, hh⟩ := Option.map_eq_some'.mp hexp
            simp only [Prod.mk.injEq] at hh
            obtain ⟨rfl, rfl⟩ := hh
            obtain ⟨hdig, hr⟩ := scanDigits_sound _ _ _ hd
            refine ⟨Or.inr ⟨e, [sg], ds, he, ?_, hdig, rfl⟩, by rw [hr]; rfl⟩
            rcases hsg with rfl | rfl
            · exact Or.inr (Or.inl rfl)
            · exact Or.inr (Or.inr rfl)
          · obtain ⟨⟨ds, r''⟩, hd, hh⟩ := Option.map_eq_some'.mp hexp
            simp only [Prod.mk.injEq] at hh
            obtain ⟨rfl, rfl⟩ := hh
            obtain ⟨hdig, hr⟩ := scanDigits_sound _ _ _ hd
            exact ⟨Or.inr ⟨e, [], ds, he, Or.inl rfl, hdig, rfl⟩, by rw [hr]; rfl⟩
      · simp only [Option.some.injEq, Prod.mk.injEq] at hexp
        obtain ⟨rfl, rfl⟩ := hexp
        exact ⟨Or.inl rfl, rfl⟩
  refine ⟨⟨minus, ip, fp, ep, rfl, hm.1, hip.1, hfp.1, hep.1⟩, ?_⟩
  rw [hm.2, hip.2, hfp.2, hep.2]
  simp only [List.append_assoc]

theorem parse_sound (fuel : Nat) :
    (∀ depth input v rest, parseValue fuel depth input = some (v, rest) →
        ∃ w t, JSONSpace w ∧ JSONValue t v ∧ input = w ++ t ++ rest) ∧
      (∀ depth input ms rest, parseMembers fuel depth input = some (ms, rest) →
        ∃ body, JSONMembers body ms ∧ input = body ++ 125 :: rest) ∧
      (∀ depth input es rest, parseElements fuel depth input = some (es, rest) →
        ∃ body, JSONElements body es ∧ input = body ++ 93 :: rest) := by
  induction fuel with
  | zero =>
    refine ⟨fun depth input v rest h => ?_, fun depth input ms rest h => ?_,
      fun depth input es rest h => ?_⟩
    · rw [parseValue] at h; exact absurd h (by simp)
    · rw [parseMembers] at h; exact absurd h (by simp)
    · rw [parseElements] at h; exact absurd h (by simp)
  | succ fuel ih =>
    obtain ⟨ihv, ihm, ihe⟩ := ih
    refine ⟨fun depth input v rest h => ?_, fun depth input ms rest h => ?_,
      fun depth input es rest h => ?_⟩
    · rw [parseValue] at h
      obtain ⟨w, hw, hin⟩ := skipWS_spec input
      rcases hsk : skipWS input with _ | ⟨c, rest0⟩
      · rw [hsk] at h; exact absurd h (by simp)
      rw [hsk] at h hin
      simp only at h
      split_ifs at h with h1 h2 h3 h4 h5 h6 h7 h8
      · -- an object
        subst h1
        obtain ⟨w', hw', hr0⟩ := skipWS_spec rest0
        split at h
        · rename_i rest1 heq
          simp only [Option.some.injEq, Prod.mk.injEq] at h
          obtain ⟨rfl, rfl⟩ := h
          rw [heq] at hr0
          exact ⟨w, 123 :: (w' ++ [125]), hw, JSONValue.emptyObject w' hw', by
            rw [hin, hr0]; simp⟩
        · obtain ⟨⟨ms, r⟩, hp, he⟩ := Option.map_eq_some'.mp h
          simp only [Prod.mk.injEq] at he
          obtain ⟨rfl, rfl⟩ := he
          obtain ⟨body, hb, hbe⟩ := ihm _ _ _ _ hp
          exact ⟨w, 123 :: (body ++ [125]), hw, JSONValue.object body ms hb, by
            rw [hin, hbe]; simp⟩
      · -- an array
        subst h3
        obtain ⟨w', hw', hr0⟩ := skipWS_spec rest0
        split at h
        · rename_i rest1 heq
          simp only [Option.some.injEq, Prod.mk.injEq] at h
          obtain ⟨rfl, rfl⟩ := h
          rw [heq] at hr0
          exact ⟨w, 91 :: (w' ++ [93]), hw, JSONValue.emptyArray w' hw', by
            rw [hin, hr0]; simp⟩
        · obtain ⟨⟨es, r⟩, hp, he⟩ := Option.map_eq_some'.mp h
          simp only [Prod.mk.injEq] at he
          obtain ⟨rfl, rfl⟩ := he
          obtain ⟨body, hb, hbe⟩ := ihe _ _ _ _ hp
          exact ⟨w, 91 :: (body ++ [93]), hw, JSONValue.array body es hb, by
            rw [hin, hbe]; simp⟩
      · -- a string
        subst h5
        obtain ⟨⟨raw, r⟩, hp, he⟩ := Option.map_eq_some'.mp h
        simp only [Prod.mk.injEq] at he
        obtain ⟨rfl, rfl⟩ := he
        obtain ⟨hc, hs⟩ := scanString_sound _ rest0 le_rfl raw r hp
        exact ⟨w, 34 :: (raw ++ [34]), hw, JSONValue.string raw hc, by rw [hin, hs]; simp⟩
      · -- true
        subst h6
        split at h
        · simp only [Option.some.injEq, Prod.mk.injEq] at h
          obtain ⟨rfl, rfl⟩ := h
          exact ⟨w, [116, 114, 117, 101], hw, JSONValue.true, by rw [hin]; simp⟩
        · exact absurd h (by simp)
      · -- false
        subst h7
        split at h
        · simp only [Option.some.injEq, Prod.mk.injEq] at h
          obtain ⟨rfl, rfl⟩ := h
          exact ⟨w, [102, 97, 108, 115, 101], hw, JSONValue.false, by rw [hin]; simp⟩
        · exact absurd h (by simp)
      · -- null
        subst h8
        split at h
        · simp only [Option.some.injEq, Prod.mk.injEq] at h
          obtain ⟨rfl, rfl⟩ := h
          exact ⟨w, [110, 117, 108, 108], hw, JSONValue.null, by rw [hin]; simp⟩
        · exact absurd h (by simp)
      · -- a number
        obtain ⟨⟨t, r⟩, hp, he⟩ := Option.map_eq_some'.mp h
        simp only [Prod.mk.injEq] at he
        obtain ⟨rfl, rfl⟩ := he
        obtain ⟨hn, hs⟩ := scanNumber_sound _ _ _ hp
        exact ⟨w, t, hw, JSONValue.number t hn, by rw [hin, hs]; simp⟩
    · rw [parseMembers] at h
      obtain ⟨w1, hw1, hin⟩ := skipWS_spec input
      split at h
      · rename_i rest0 heq
        rw [heq] at hin
        obtain ⟨⟨key, r1⟩, hk, h⟩ := Option.bind_eq_some.mp h
        obtain ⟨hkc, hks⟩ := scanString_sound _ rest0 le_rfl key r1 hk
        obtain ⟨w2, hw2, hr1⟩ := skipWS_spec r1
        simp only at h
        split at h
        · rename_i r2 heq2
          rw [heq2] at hr1
          obtain ⟨⟨v, r3⟩, hv, h⟩ := Option.bind_eq_some.mp h
          obtain ⟨w3, t, hw3, ht, hr2⟩ := ihv _ _ _ _ hv
          obtain ⟨w4, hw4, hr3⟩ := skipWS_spec r3
          simp only at h
          split at h
          · rename_i r4 heq4
            rw [heq4] at hr3
            obtain ⟨⟨ms', r⟩, hp, he⟩ := Option.map_eq_some'.mp h
            simp only [Prod.mk.injEq] at he
            obtain ⟨rfl, rfl⟩ := he
            obtain ⟨body, hb, hbe⟩ := ihm _ _ _ _ hp
            exact ⟨_, JSONMembers.more w1 key w2 w3 t w4 body v ms' hw1 hkc hw2 hw3 ht hw4 hb, by
              rw [hin, hks, hr1, hr2, hr3, hbe]; simp⟩
          · rename_i r4 heq4
            rw [heq4] at hr3
            simp only [Option.some.injEq, Prod.mk.injEq] at h
            obtain ⟨rfl, rfl⟩ := h
            exact ⟨_, JSONMembers.one w1 key w2 w3 t w4 v hw1 hkc hw2 hw3 ht hw4, by
              rw [hin, hks, hr1, hr2, hr3]; simp⟩
          · exact absurd h (by simp)
        · exact absurd h (by simp)
      · exact absurd h (by simp)
    · rw [parseElements] at h
      obtain ⟨⟨v, r1⟩, hv, h⟩ := Option.bind_eq_some.mp h
      obtain ⟨w1, t, hw1, ht, hin⟩ := ihv _ _ _ _ hv
      obtain ⟨w2, hw2, hr1⟩ := skipWS_spec r1
      simp only at h
      split at h
      · rename_i r2 heq2
        rw [heq2] at hr1
        obtain ⟨⟨es', r⟩, hp, he⟩ := Option.map_eq_some'.mp h
        simp only [Prod.mk.injEq] at he
        obtain ⟨rfl, rfl⟩ := he
        obtain ⟨body, hb, hbe⟩ := ihe _ _ _ _ hp
        exact ⟨_, JSONElements.more w1 t w2 body v es' hw1 ht hw2 hb, by
          rw [hin, hr1, hbe]; simp⟩
      · rename_i r2 heq2
        rw [heq2] at hr1
        simp only [Option.some.injEq, Prod.mk.injEq] at h
        obtain ⟨rfl, rfl⟩ := h
        exact ⟨_, JSONElements.one w1 t w2 v hw1 ht hw2, by rw [hin, hr1]; simp⟩
      · exact absurd h (by simp)

/-- The scanner is sound for the grammar: a text it accepts is a JSON text, and
the value it delimits is the value of the text. -/
theorem parseJSON_sound (bytes : List Nat) (v : JValue) (h : parseJSON bytes = some v) :
    JSONText bytes v := by
  unfold parseJSON at h
  split at h
  · rename_i v' rest hp
    split_ifs at h with hr
    simp only [Option.some.injEq] at h
    subst h
    obtain ⟨w, t, hw, ht, hin⟩ := (parse_sound _).1 _ _ _ _ hp
    exact ⟨w, t, rest, hw, ht, JSONSpace_of_skipWS_nil rest hr, hin⟩
  · exact absurd h (by simp)

theorem expectByte_some (c : Nat) (s r : List Nat) (h : expectByte c s = some r) : s = c :: r := by
  unfold expectByte at h
  split at h
  · exact absurd h (by simp)
  · split_ifs at h with hc
    simp only [Option.some.injEq] at h
    rw [hc, h]

theorem getnum_cons2 (a b : Nat) (r : List Nat) (fixed : Bool) :
    getnum (a :: b :: r) fixed =
      if isDigit a = true then
        if isDigit b = true then some ((a - 48) * 10 + (b - 48), r)
        else if fixed = true then none else some (a - 48, b :: r)
      else none := by
  cases ha : isDigit a <;> cases hb : isDigit b <;> simp [getnum, ha, hb]

theorem getnum_one (a : Nat) (fixed : Bool) :
    getnum [a] fixed =
      if isDigit a = true then (if fixed = true then none else some (a - 48, [])) else none := by
  cases ha : isDigit a <;> simp [getnum, ha]

theorem getnum_fixed_some (s r : List Nat) (v : Nat) (h : getnum s true = some (v, r)) :
    ∃ a b, s = a :: b :: r ∧ isDigit a = true ∧ isDigit b = true ∧
      v = (a - 48) * 10 + (b - 48) := by
  rcases s with _ | ⟨a, _ | ⟨b, t⟩⟩
  · simp [getnum] at h
  · rw [getnum_one] at h
    simp at h
  · rw [getnum_cons2] at h
    simp only [if_true] at h
    split_ifs at h with ha hb
    simp only [Option.some.injEq, Prod.mk.injEq] at h
    exact ⟨a, b, by rw [h.2], ha, hb, h.1.symm⟩

theorem getnum_free_some (s r : List Nat) (v : Nat) (h : getnum s false = some (v, r)) :
    (∃ a b, s = a :: b :: r ∧ isDigit a = true ∧ isDigit b = true ∧
        v = (a - 48) * 10 + (b - 48)) ∨
      (∃ a, s = a :: r ∧ isDigit a = true ∧ v = a - 48 ∧
        ∀ b t, r = b :: t → isDigit b = false) := by
  rcases s with _ | ⟨a, _ | ⟨b, t⟩⟩
  · simp [getnum] at h
  · rw [getnum_one] at h
    split_ifs at h with ha
    simp only [Option.some.injEq, Prod.mk.injEq] at h
    exact Or.inr ⟨a, by rw [h.2], ha, h.1.symm, fun b t hb => by rw [← h.2] at hb; simp at hb⟩
  · rw [getnum_cons2] at h
    split_ifs at h with ha hb
    · simp only [Option.some.injEq, Prod.mk.injEq] at h
      exact Or.inl ⟨a, b, by rw [h.2], ha, hb, h.1.symm⟩
    · simp only [Option.some.injEq, Prod.mk.injEq] at h
      refine Or.inr ⟨a, by rw [h.2], ha, h.1.symm, fun x t hx => ?_⟩
      rw [← h.2] at hx
      simp only [List.cons.injEq] at hx
      rw [← hx.1]
      simpa using hb

theorem digitPair_iff (a b lo hi : Nat) :
    digitPair a b lo hi = true ↔
      isDigit a = true ∧ isDigit b = true ∧ lo ≤ (a - 48) * 10 + (b - 48) ∧
        (a - 48) * 10 + (b - 48) ≤ hi := by
  simp only [digitPair, Bool.and_eq_true, decide_eq_true_eq, and_assoc]

theorem parseZone_six (sign h1 h2 colon m1 m2 : Nat) (rest : List Nat) (hs : sign ≠ 90) :
    parseZone (sign :: h1 :: h2 :: colon :: m1 :: m2 :: rest) =
      if colon ≠ 58 then none
      else if isDigit h1 = true ∧ isDigit h2 = true ∧ isDigit m1 = true ∧ isDigit m2 = true then
        if 24 < (h1 - 48) * 10 + (h2 - 48) ∨ 60 < (m1 - 48) * 10 + (m2 - 48) then none
        else if sign = 43 then
          some (((((((h1 - 48) * 10 + (h2 - 48)) * 60 + ((m1 - 48) * 10 + (m2 - 48))) * 60 : Nat)) :
            Int), rest)
        else if sign = 45 then
          some (-((((((h1 - 48) * 10 + (h2 - 48)) * 60 + ((m1 - 48) * 10 + (m2 - 48))) * 60 : Nat)) :
            Int), rest)
        else none
      else none := by
  unfold parseZone
  split
  · rename_i heq
    simp only [List.cons.injEq] at heq
    exact absurd heq.1 hs
  · rename_i heq
    simp only [List.cons.injEq] at heq
    obtain ⟨rfl, rfl, rfl, rfl, rfl, rfl, rfl⟩ := heq
    simp only [getnum_cons2]
    cases isDigit h1 <;> cases isDigit h2 <;> cases isDigit m1 <;> cases isDigit m2 <;> simp
  · rename_i hne1 hne2
    exact absurd rfl (hne2 _ _ _ _ _ _ _)

theorem parseZone_Z (rest : List Nat) : parseZone (90 :: rest) = some (0, rest) := by
  simp [parseZone]

theorem parseZone_some (z r : List Nat) (off : Int) (h : parseZone z = some (off, r)) :
    z = 90 :: r ∨
      ∃ sign h1 h2 m1 m2, z = sign :: h1 :: h2 :: 58 :: m1 :: m2 :: r ∧
        (sign = 43 ∨ sign = 45) ∧ digitPair h1 h2 0 24 = true ∧ digitPair m1 m2 0 60 = true := by
  rcases z with _ | ⟨c0, t⟩
  · simp [parseZone] at h
  by_cases h90 : c0 = 90
  · subst h90
    rw [parseZone_Z] at h
    simp only [Option.some.injEq, Prod.mk.injEq] at h
    exact Or.inl (by rw [h.2])
  · rcases t with _ | ⟨h1, _ | ⟨h2, _ | ⟨colon, _ | ⟨m1, _ | ⟨m2, t⟩⟩⟩⟩⟩
    all_goals first
      | (rw [parseZone_six _ _ _ _ _ _ _ h90] at h
         split_ifs at h with hc hd hr hp hm
         · simp only [Option.some.injEq, Prod.mk.injEq] at h
           have hc' : colon = 58 := by simpa using hc
           exact Or.inr ⟨c0, h1, h2, m1, m2, by rw [hc', h.2], Or.inl hp,
             (digitPair_iff _ _ _ _).mpr ⟨hd.1, hd.2.1, by omega, by omega⟩,
             (digitPair_iff _ _ _ _).mpr ⟨hd.2.2.1, hd.2.2.2, by omega, by omega⟩⟩
         · simp only [Option.some.injEq, Prod.mk.injEq] at h
           have hc' : colon = 58 := by simpa using hc
           exact Or.inr ⟨c0, h1, h2, m1, m2, by rw [hc', h.2], Or.inr hm,
             (digitPair_iff _ _ _ _).mpr ⟨hd.1, hd.2.1, by omega, by omega⟩,
             (digitPair_iff _ _ _ _).mpr ⟨hd.2.2.1, hd.2.2.2, by omega, by omega⟩⟩)
      | (unfold parseZone at h
         split at h
         · rename_i heq
           simp only [List.cons.injEq] at heq
           exact absurd heq.1 h90
         · rename_i heq
           simp at heq
         · exact absurd h (by simp))

/-- `parseZone` reads a whole text as a zone exactly when the text is a zone. -/
theorem zoneText_iff (z : List Nat) :
    zoneText z = true ↔ ∃ off, parseZone z = some (off, []) := by
  constructor
  · intro h
    unfold zoneText at h
    split at h
    · rename_i z0
      simp only [decide_eq_true_eq] at h
      subst h
      exact ⟨0, parseZone_Z []⟩
    · rename_i sign h1 h2 colon m1 m2
      simp only [Bool.and_eq_true, decide_eq_true_eq, digitPair_iff] at h
      obtain ⟨⟨⟨hs, hc⟩, hh⟩, hm⟩ := h
      have h90 : sign ≠ 90 := by omega
      rw [parseZone_six _ _ _ _ _ _ _ h90]
      have hd : isDigit h1 = true ∧ isDigit h2 = true ∧ isDigit m1 = true ∧ isDigit m2 = true :=
        ⟨hh.1, hh.2.1, hm.1, hm.2.1⟩
      have hr : ¬ (24 < (h1 - 48) * 10 + (h2 - 48) ∨ 60 < (m1 - 48) * 10 + (m2 - 48)) := by
        omega
      have hc' : ¬ colon ≠ 58 := by simpa using hc
      simp only [hc', hd, hr, if_false, and_self, if_true]
      rcases hs with rfl | rfl
      · exact ⟨_, rfl⟩
      · exact ⟨_, rfl⟩
    · exact absurd h (by simp)
  · rintro ⟨off, h⟩
    rcases parseZone_some z [] off h with rfl | ⟨sign, h1, h2, m1, m2, rfl, hs, hh, hm⟩
    · rfl
    · simp only [zoneText, hh, hm, Bool.and_true, decide_eq_true_eq, Bool.and_eq_true]
      exact ⟨hs, trivial⟩

theorem parseFraction_snd (s : List Nat) : fractionZoneText s = zoneText (parseFraction s).2 := by
  rcases s with _ | ⟨sep, _ | ⟨d, rest⟩⟩
  · rfl
  · rfl
  · simp only [fractionZoneText, parseFraction]
    split_ifs with h
    · have hd : isDigit d = true := h.2
      simp only [List.dropWhile_cons, hd, if_true]
    · rfl

theorem timestampText_of_parse (s : List Nat) (t : Time) (h : parseRFC3339 s = some t) :
    timestampText s = true := by
  unfold parseRFC3339 at h
  split at h
  swap
  · exact absurd h (by simp)
  rename_i y1 y2 y3 y4 s1
  by_cases hdig : (!(isDigit y1 && isDigit y2 && isDigit y3 && isDigit y4)) = true
  · rw [if_pos hdig] at h
    exact absurd h (by simp)
  rw [if_neg hdig] at h
  have hy : (isDigit y1 && isDigit y2 && isDigit y3 && isDigit y4) = true := by
    cases hb : (isDigit y1 && isDigit y2 && isDigit y3 && isDigit y4) with
    | true => rfl
    | false => exact absurd (by rw [hb]; rfl) hdig
  simp only [Bool.and_eq_true] at hy
  obtain ⟨⟨⟨hy1, hy2⟩, hy3⟩, hy4⟩ := hy
  simp only at h
  obtain ⟨s2, he1, k1⟩ := Option.bind_eq_some.mp h
  clear h
  obtain ⟨⟨month, s3⟩, hg1, k2⟩ := Option.bind_eq_some.mp k1
  clear k1
  simp only at k2
  by_cases hmonth : month = 0 ∨ 12 < month
  · rw [if_pos hmonth] at k2
    exact absurd k2 (by simp)
  rw [if_neg hmonth] at k2
  obtain ⟨s4, he2, k3⟩ := Option.bind_eq_some.mp k2
  clear k2
  obtain ⟨⟨day, s5⟩, hg2, k4⟩ := Option.bind_eq_some.mp k3
  clear k3
  simp only at k4
  obtain ⟨s6, he3, k5⟩ := Option.bind_eq_some.mp k4
  clear k4
  obtain ⟨⟨hour, s7⟩, hg3, k6⟩ := Option.bind_eq_some.mp k5
  clear k5
  simp only at k6
  by_cases hhour : 24 ≤ hour
  · rw [if_pos hhour] at k6
    exact absurd k6 (by simp)
  rw [if_neg hhour] at k6
  obtain ⟨s8, he4, k7⟩ := Option.bind_eq_some.mp k6
  clear k6
  obtain ⟨⟨minute, s9⟩, hg4, k8⟩ := Option.bind_eq_some.mp k7
  clear k7
  simp only at k8
  by_cases hminute : 60 ≤ minute
  · rw [if_pos hminute] at k8
    exact absurd k8 (by simp)
  rw [if_neg hminute] at k8
  obtain ⟨s10, he5, k9⟩ := Option.bind_eq_some.mp k8
  clear k8
  obtain ⟨⟨second, s11⟩, hg5, k10⟩ := Option.bind_eq_some.mp k9
  clear k9
  simp only at k10
  by_cases hsecond : 60 ≤ second
  · rw [if_pos hsecond] at k10
    exact absurd k10 (by simp)
  rw [if_neg hsecond] at k10
  obtain ⟨⟨offset, s13⟩, hz, k11⟩ := Option.bind_eq_some.mp k10
  clear k10
  simp only at k11
  by_cases hrest : s13 ≠ []
  · rw [if_pos hrest] at k11
    exact absurd k11 (by simp)
  rw [if_neg hrest] at k11
  by_cases hday : day < 1 ∨ daysIn month ((digitsValue [y1, y2, y3, y4] : Nat) : Int) < day
  · rw [if_pos hday] at k11
    exact absurd k11 (by simp)
  clear k11
  have hrest' : s13 = [] := by simpa using hrest
  subst hrest'
  have e1 := expectByte_some _ _ _ he1
  obtain ⟨m1, m2, e2, hm1, hm2, e3⟩ := getnum_fixed_some _ _ _ hg1
  have e4 := expectByte_some _ _ _ he2
  obtain ⟨d1, d2, e5, hd1, hd2, e6⟩ := getnum_fixed_some _ _ _ hg2
  have e7 := expectByte_some _ _ _ he3
  have e8 := expectByte_some _ _ _ he4
  obtain ⟨mi1, mi2, e9, hmi1, hmi2, e10⟩ := getnum_fixed_some _ _ _ hg4
  have e11 := expectByte_some _ _ _ he5
  obtain ⟨c1, c2, e12, hc1, hc2, e13⟩ := getnum_fixed_some _ _ _ hg5
  have hzone : fractionZoneText s11 = true := by
    rw [parseFraction_snd]
    exact (zoneText_iff _).mpr ⟨offset, hz⟩
  have hclock : clockText s8 = true := by
    rw [e9, e11, e12]
    simp only [clockText, Bool.and_eq_true, decide_eq_true_eq, digitPair_iff, hzone]
    exact ⟨⟨⟨⟨hmi1, hmi2, by omega, by omega⟩, trivial⟩, hc1, hc2, by omega, by omega⟩, trivial⟩
  have hhourText : hourText s6 = true := by
    rcases getnum_free_some _ _ _ hg3 with ⟨a, b, e, ha, hb, ev⟩ | ⟨a, e, ha, ev, _⟩
    · have hb58 : ¬ b = 58 := by
        intro hb'
        rw [hb'] at hb
        exact absurd hb (by decide)
      rw [e, e8]
      simp only [hourText, hb58, if_false, Bool.and_eq_true, decide_eq_true_eq, digitPair_iff,
        hclock]
      exact ⟨⟨⟨ha, hb, by omega, by omega⟩, trivial⟩, trivial⟩
    · rw [e, e8]
      simp only [hourText, if_true, ha, hclock, Bool.and_self]
  rw [e1, e2, e4, e5, e7]
  simp only [timestampText, Bool.and_eq_true, decide_eq_true_eq, digitPair_iff, hhourText]
  refine ⟨⟨⟨⟨⟨⟨⟨⟨⟨hy1, hy2⟩, hy3⟩, hy4⟩, trivial⟩, hm1, hm2, by omega, by omega⟩, trivial⟩,
    hd1, hd2, by omega, ?_⟩, trivial⟩, trivial⟩
  rw [← e3, ← e6]
  omega

theorem parse_of_timestampText (s : List Nat) (h : timestampText s = true) :
    ∃ t, parseRFC3339 s = some t := by
  unfold timestampText at h
  split at h
  swap
  · exact absurd h (by simp)
  rename_i y1 y2 y3 y4 dash1 m1 m2 dash2 d1 d2 tee rest
  simp only [Bool.and_eq_true, decide_eq_true_eq, digitPair_iff] at h
  obtain ⟨⟨⟨⟨⟨⟨⟨⟨⟨hy1, hy2⟩, hy3⟩, hy4⟩, rfl⟩, hm1, hm2, hmlo, hmhi⟩, rfl⟩, hd1, hd2, hdlo, hdhi⟩,
    rfl⟩, hh⟩ := h
  -- the time of day
  obtain ⟨hour, s8, hgh, hhour, hclock⟩ : ∃ hour s8, getnum rest false = some (hour, 58 :: s8) ∧
      hour < 24 ∧ clockText s8 = true := by
    unfold hourText at hh
    split at hh
    swap
    · exact absurd hh (by simp)
    rename_i h1 c rest'
    split_ifs at hh with hc
    · subst hc
      simp only [Bool.and_eq_true] at hh
      refine ⟨h1 - 48, rest', ?_, ?_, hh.2⟩
      · have h58 : isDigit 58 = false := by decide
        rw [getnum_cons2]
        simp [hh.1, h58]
      · have := hh.1
        simp only [isDigit, decide_eq_true_eq] at this
        omega
    · split at hh
      swap
      · exact absurd hh (by simp)
      rename_i colon rest1
      simp only [Bool.and_eq_true, decide_eq_true_eq, digitPair_iff] at hh
      obtain ⟨⟨⟨ha, hb, _, hhi⟩, rfl⟩, hcl⟩ := hh
      refine ⟨(h1 - 48) * 10 + (c - 48), rest1, ?_, by omega, hcl⟩
      rw [getnum_cons2]
      simp [ha, hb]
  obtain ⟨mi1, mi2, c1, c2, s11, rfl, hmi, hsec, hfz⟩ : ∃ mi1 mi2 c1 c2 s11,
      s8 = mi1 :: mi2 :: 58 :: c1 :: c2 :: s11 ∧ digitPair mi1 mi2 0 59 = true ∧
      digitPair c1 c2 0 59 = true ∧ fractionZoneText s11 = true := by
    unfold clockText at hclock
    split at hclock
    swap
    · exact absurd hclock (by simp)
    rename_i mi1 mi2 colon c1 c2 s11
    simp only [Bool.and_eq_true, decide_eq_true_eq] at hclock
    obtain ⟨⟨⟨hmi, rfl⟩, hsec⟩, hfz⟩ := hclock
    exact ⟨mi1, mi2, c1, c2, s11, rfl, hmi, hsec, hfz⟩
  rw [digitPair_iff] at hmi hsec
  rw [parseFraction_snd] at hfz
  obtain ⟨off, hz⟩ := (zoneText_iff _).mp hfz
  rcases hpf : parseFraction s11 with ⟨nsec, s12⟩
  rw [hpf] at hz
  simp only at hz
  have hdig : (!(isDigit y1 && isDigit y2 && isDigit y3 && isDigit y4)) = false := by
    simp [hy1, hy2, hy3, hy4]
  have hmonth : ¬ ((m1 - 48) * 10 + (m2 - 48) = 0 ∨ 12 < (m1 - 48) * 10 + (m2 - 48)) := by omega
  have hhour' : ¬ 24 ≤ hour := by omega
  have hminute : ¬ 60 ≤ (mi1 - 48) * 10 + (mi2 - 48) := by omega
  have hsecond : ¬ 60 ≤ (c1 - 48) * 10 + (c2 - 48) := by omega
  have hday : ¬ ((d1 - 48) * 10 + (d2 - 48) < 1 ∨
      daysIn ((m1 - 48) * 10 + (m2 - 48)) ((digitsValue [y1, y2, y3, y4] : Nat) : Int) <
        (d1 - 48) * 10 + (d2 - 48)) := by omega
  refine ⟨
    { year := (digitsValue [y1, y2, y3, y4] : Nat)
      month := (m1 - 48) * 10 + (m2 - 48)
      day := (d1 - 48) * 10 + (d2 - 48)
      hour := hour
      minute := (mi1 - 48) * 10 + (mi2 - 48)
      second := (c1 - 48) * 10 + (c2 - 48)
      nsec := nsec
      offset := off
      mono := none }, ?_⟩
  unfold parseRFC3339
  simp only [hdig, Bool.false_eq_true, if_false, expectByte, if_true, Option.some_bind,
    Option.bind_some, getnum_cons2, hm1, hm2, hd1, hd2, hmi.1, hmi.2.1, hsec.1, hsec.2.1, hmonth,
    hgh, hhour', hminute, hsecond, hpf, hz, hday, ne_eq, not_true_eq_false]

/-- `time.Parse(time.RFC3339, s)` succeeds exactly on the texts of
`timestampText`. -/
theorem parseRFC3339_isSome (s : List Nat) : (parseRFC3339 s).isSome = timestampText s := by
  cases hp : parseRFC3339 s with
  | some t => rw [timestampText_of_parse s t hp]; rfl
  | none =>
    cases ht : timestampText s with
    | false => rfl
    | true =>
      obtain ⟨t, h⟩ := parse_of_timestampText s ht
      rw [hp] at h
      exact absurd h (by simp)

set_option maxRecDepth 100000 in
/-- The recogniser on samples: it accepts the RFC 3339 text
`2020-07-04T09:05:59.12+01:00` and, beyond RFC 3339,
`2000-02-29T9:05:59,123456789012-24:60`; it refuses a day the month does not
have (`2021-02-29T00:00:00Z`), the hour 24 (`2020-07-04T24:00:00Z`), a space in
place of `T` (`2020-07-04 09:05:59Z`), a text without zone
(`2020-07-04T09:05:59`) and a zone written with an escape
(`2020-07-04T09:05:59\u005a`), on which `MsgFromBytes` returns an error. -/
theorem timestampText_samples :
    timestampText
        [50, 48, 50, 48, 45, 48, 55, 45, 48, 52, 84, 48, 57, 58, 48, 53, 58, 53, 57, 46, 49, 50,
          43, 48, 49, 58, 48, 48] = true ∧
      timestampText
        [50, 48, 48, 48, 45, 48, 50, 45, 50, 57, 84, 57, 58, 48, 53, 58, 53, 57, 44, 49, 50, 51,
          52, 53, 54, 55, 56, 57, 48, 49, 50, 45, 50, 52, 58, 54, 48] = true ∧
      timestampText
        [50, 48, 50, 49, 45, 48, 50, 45, 50, 57, 84, 48, 48, 58, 48, 48, 58, 48, 48, 90] = false ∧
      timestampText
        [50, 48, 50, 48, 45, 48, 55, 45, 48, 52, 84, 50, 52, 58, 48, 48, 58, 48, 48, 90] = false ∧
      timestampText
        [50, 48, 50, 48, 45, 48, 55, 45, 48, 52, 32, 48, 57, 58, 48, 53, 58, 53, 57, 90] = false ∧
      timestampText
        [50, 48, 50, 48, 45, 48, 55, 45, 48, 52, 84, 48, 57, 58, 48, 53, 58, 53, 57] = false ∧
      timestampText
        [50, 48, 50, 48, 45, 48, 55, 45, 48, 52, 84, 48, 57, 58, 48, 53, 58, 53, 57, 92, 117, 48,
          48, 53, 97] = false ∧
      MsgFromBytes
        [123, 34, 109, 101, 116, 97, 34, 58, 123, 34, 116, 105, 109, 101, 115, 116, 97, 109, 112,
          34, 58, 34, 50, 48, 50, 48, 45, 48, 55, 45, 48, 52, 84, 48, 57, 58, 48, 53, 58, 53, 57,
          92, 117, 48, 48, 53, 97, 34, 125, 125] = (none, some GoError.timeUnmarshal) := by
  decide

/-! ## Theorems: the wire layout -/

theorem toValidUTF8Aux_cons (n b : Nat) (s : List Nat) :
    toValidUTF8Aux (n + 1) (b :: s) =
      if (decodeRune (b :: s)).1 = RuneError ∧ (decodeRune (b :: s)).2 = 1 then
        [0xEF, 0xBF, 0xBD] ++ toValidUTF8Aux n s
      else
        (b :: s).take (decodeRune (b :: s)).2 ++
          toValidUTF8Aux n ((b :: s).drop (decodeRune (b :: s)).2) := by
  rw [toValidUTF8Aux]

theorem toValidUTF8Aux_ascii (n b : Nat) (s : List Nat) (hb : b < 0x80) :
    toValidUTF8Aux (n + 1) (b :: s) = b :: toValidUTF8Aux n s := by
  have hne : ¬ ((b, 1).1 = RuneError ∧ (b, 1).2 = 1) := by
    simp only [RuneError]; omega
  rw [toValidUTF8Aux_cons, decodeRune_ascii b s hb, if_neg hne]
  rfl

/-- A string that is valid UTF-8 is its own valid form. -/
theorem toValidUTF8Aux_valid (n : Nat) :
    ∀ (s : List Nat) (v : Nat), s.length ≤ n → validUTF8Aux v s = true →
      toValidUTF8Aux n s = s := by
  induction n using Nat.strong_induction_on with
  | _ n ih =>
    intro s v hn hv
    rcases s with _ | ⟨b, s'⟩
    · cases n <;> rfl
    rcases n with _ | n
    · simp at hn
    rcases v with _ | v
    · simp [validUTF8Aux] at hv
    rw [validUTF8Aux_cons] at hv
    rw [toValidUTF8Aux_cons]
    by_cases herr : (decodeRune (b :: s')).1 = RuneError ∧ (decodeRune (b :: s')).2 = 1
    · rw [if_pos herr] at hv; exact absurd hv (by simp)
    rw [if_neg herr] at hv ⊢
    have hpos : 1 ≤ (decodeRune (b :: s')).2 := by
      by_cases hb : b < 0x80
      · rw [decodeRune_ascii b s' hb]
      · have := (decodeRune_valid b s' (by omega) herr).two_le
        omega
    rw [ih n (by omega) _ v (by
      rw [List.length_drop]
      simp only [List.length_cons] at hn ⊢
      omega) hv]
    exact List.take_append_drop _ _

theorem toValidUTF8_valid (s : GoString) (h : validUTF8 s = true) : toValidUTF8 s = s :=
  toValidUTF8Aux_valid s.length s s.length le_rfl h

/-- Unquoting what `appendString` wrote gives the string as valid UTF-8. -/
theorem unquoteBody_appendStringBody_any (n : Nat) :
    ∀ (s : List Nat) (k : Nat), s.length ≤ n →
      (appendStringBody n s).length ≤ k →
      unquoteBody k (appendStringBody n s) = some (toValidUTF8Aux n s) := by
  induction n using Nat.strong_induction_on with
  | _ n ih =>
    intro s k hn hk
    rcases n with _ | n
    · have hs : s = [] := List.length_eq_zero.mp (Nat.le_zero.mp hn)
      subst hs
      cases k <;> simp [appendStringBody, unquoteBody, toValidUTF8Aux]
    rcases s with _ | ⟨b, s'⟩
    · cases k <;> simp [appendStringBody, unquoteBody, toValidUTF8Aux]
    rcases k with _ | k
    · have := appendStringBody_length_pos n b s'; omega
    have hlen : s'.length ≤ n := by simpa using hn
    have ihn := ih n (Nat.lt_succ_self n)
    rw [appendStringBody_cons] at hk ⊢
    by_cases hb : b < 0x80
    · rw [toValidUTF8Aux_ascii n b s' hb]
      rw [if_pos hb] at hk ⊢
      by_cases hs : htmlSafe b = true
      · rw [if_pos hs] at hk ⊢
        have hp : 32 ≤ b ∧ b ≠ 34 ∧ b ≠ 92 ∧ b < 0x80 := by
          simp only [htmlSafe, decide_eq_true_eq] at hs; omega
        rw [unquoteBody_plain k b _ hp, ihn s' k hlen (by simpa using hk)]
        rfl
      · rw [if_neg hs] at hk ⊢
        split_ifs at hk ⊢ with h1 h2 h3 h4 h5 h6
        · rw [List.cons_append, List.cons_append, List.nil_append,
            unquoteBody_escape k b _ (by omega), ihn s' k hlen (by simp at hk; omega)]
          rfl
        · rw [List.cons_append, List.cons_append, List.nil_append,
            unquoteBody_escape_ctl k 98 b _ (by omega), ihn s' k hlen (by simp at hk; omega)]
          rfl
        · rw [List.cons_append, List.cons_append, List.nil_append,
            unquoteBody_escape_ctl k 102 b _ (by omega), ihn s' k hlen (by simp at hk; omega)]
          rfl
        · rw [List.cons_append, List.cons_append, List.nil_append,
            unquoteBody_escape_ctl k 110 b _ (by omega), ihn s' k hlen (by simp at hk; omega)]
          rfl
        · rw [List.cons_append, List.cons_append, List.nil_append,
            unquoteBody_escape_ctl k 114 b _ (by omega), ihn s' k hlen (by simp at hk; omega)]
          rfl
        · rw [List.cons_append, List.cons_append, List.nil_append,
            unquoteBody_escape_ctl k 116 b _ (by omega), ihn s' k hlen (by simp at hk; omega)]
          rfl
        · have hx1 := hexVal_hexDigit (b / 16) (by omega)
          have hx2 := hexVal_hexDigit (b % 16) (by omega)
          simp only [List.cons_append, List.nil_append] at hk ⊢
          rw [unquoteBody_u4 k 48 48 _ _ 0 0 (b / 16) (b % 16) _ (by decide) (by decide) hx1 hx2
            (by omega), ihn s' k hlen (by simp at hk; omega)]
          have e : 0 * 4096 + 0 * 256 + b / 16 * 16 + b % 16 = b := by omega
          have e1 : b ≤ 0x7F := by omega
          simp only [e, encodeRune, e1, if_true]
          rfl
    · have hb' : 0x80 ≤ b := by omega
      rw [if_neg hb] at hk ⊢
      rw [toValidUTF8Aux_cons]
      by_cases herr : (decodeRune (b :: s')).1 = RuneError ∧ (decodeRune (b :: s')).2 = 1
      · rw [if_pos herr] at hk ⊢
        rw [if_pos herr]
        simp only [List.cons_append, List.nil_append] at hk ⊢
        rw [unquoteBody_u4 k 102 102 102 100 15 15 15 13 _ (by decide) (by decide) (by decide)
          (by decide) (by omega), ihn s' k hlen (by simp at hk; omega)]
        rfl
      rw [if_neg herr] at hk ⊢
      rw [if_neg herr]
      have hok := decodeRune_valid b s' hb' herr
      have hlen' : ((b :: s').drop (decodeRune (b :: s')).2).length ≤ n := by
        rw [List.length_drop]
        have := hok.two_le
        simp only [List.length_cons]; omega
      split_ifs at hk ⊢ with h2
      · have hx := hexVal_hexDigit ((decodeRune (b :: s')).1 % 16) (by omega)
        simp only [List.cons_append, List.nil_append] at hk ⊢
        rw [unquoteBody_u4 k 50 48 50 _ 2 0 2 _ _ (by decide) (by decide) (by decide) hx
          (by omega), ihn _ k hlen' (by simp at hk; omega)]
        have e : 2 * 4096 + 0 * 256 + 2 * 16 + (decodeRune (b :: s')).1 % 16 =
            (decodeRune (b :: s')).1 := by omega
        rw [e, hok.enc]
        simp only [Option.map_some']
      · rw [unquoteBody_rune k b s' _ hb' hok, ihn _ k hlen' (by
          have := hok.two_le
          have := hok.le_len
          simp only [List.length_append, List.length_take] at hk
          omega)]
        simp only [Option.map_some']

/-- The value of the JSON string `Marshal` writes for a Go string is the string
as valid UTF-8. -/
theorem unquote_appendStringBody_any (s : GoString) :
    unquote (appendStringBody s.length s) = some (toValidUTF8 s) :=
  unquoteBody_appendStringBody_any s.length s _ le_rfl le_rfl

theorem b64Char_alphabet : ∀ n, n < 64 → b64Char n = base64Alphabet.getD n 0 := by
  decide

/-- `StdEncoding` writes the base64 encoding of RFC 4648. -/
theorem base64Encode_spec (n : Nat) :
    ∀ d : List Nat, d.length ≤ n → (∀ b ∈ d, b < 256) → base64Encode d = base64Spec d := by
  induction n using Nat.strong_induction_on with
  | _ n ih =>
    intro d hn hd
    rcases d with _ | ⟨a, _ | ⟨b, _ | ⟨c, rest⟩⟩⟩
    · rfl
    · have ha := hd a (by simp)
      simp only [base64Encode, base64Spec]
      rw [b64Char_alphabet _ (by omega), b64Char_alphabet _ (by omega)]
      have e1 : a * 16 / 64 = a / 4 := by omega
      have e2 : a * 16 % 64 = a % 4 * 16 := by omega
      rw [e1, e2]
    · have ha := hd a (by simp)
      have hb := hd b (by simp)
      simp only [base64Encode, base64Spec]
      rw [b64Char_alphabet _ (by omega), b64Char_alphabet _ (by omega),
        b64Char_alphabet _ (by omega)]
      have e1 : (a * 256 + b) * 4 / 4096 = a / 4 := by omega
      have e2 : (a * 256 + b) * 4 / 64 % 64 = a % 4 * 16 + b / 16 := by omega
      have e3 : (a * 256 + b) * 4 % 64 = b % 16 * 4 := by omega
      rw [e1, e2, e3]
    · have ha := hd a (by simp)
      have hb := hd b (by simp)
      have hc := hd c (by simp)
      simp only [base64Encode, base64Spec]
      rw [b64Char_alphabet _ (by omega), b64Char_alphabet _ (by omega),
        b64Char_alphabet _ (by omega), b64Char_alphabet _ (by omega),
        ih rest.length (by simp only [List.length_cons] at hn; omega) rest le_rfl
          (fun x hx => hd x (by simp [hx]))]
      have e1 : (a * 65536 + b * 256 + c) / 262144 = a / 4 := by omega
      have e2 : (a * 65536 + b * 256 + c) / 4096 % 64 = a % 4 * 16 + b / 16 := by omega
      have e3 : (a * 65536 + b * 256 + c) / 64 % 64 = b % 16 * 4 + c / 64 := by omega
      have e4 : (a * 65536 + b * 256 + c) % 64 = c % 64 := by omega
      rw [e1, e2, e3, e4]

/-- `Time.MarshalJSON` writes an RFC 3339 text that denotes the time. -/
theorem appendFormatRFC3339_spec (t : Time) (hw : t.wellFormed = true) (hr : t.rfc3339 = true) :
    IsRFC3339Text t (appendFormatRFC3339 t) := by
  have heq := appendFormatRFC3339_eq t hw hr
  have hw' := hw
  have hr' := hr
  simp only [Time.wellFormed, decide_eq_true_eq] at hw'
  simp only [Time.rfc3339, decide_eq_true_eq] at hr'
  obtain ⟨hm1, hm2, hd1, hd2, hh, hmi, hs, hn⟩ := hw'
  refine ⟨hr'.1, hr'.2.1, hm1, hm2, hd1, hd2, hh, hmi, hs,
    appendNano t.nsec, formatZone t.offset, ?_, ?_, ?_⟩
  · rw [heq]
    simp only [dateTimeText, List.cons_append, List.nil_append, List.append_assoc]
  · by_cases h0 : t.nsec = 0
    · exact Or.inl ⟨h0, by rw [h0, appendNano_zero]⟩
    · obtain ⟨d, T, he, hdig, hlen, hval⟩ := appendNano_pos t.nsec h0 hn
      refine Or.inr ⟨d :: T, he, by simp, fun c hc => ?_, hlen, hval⟩
      have := hdig c hc
      simpa [isDigit] using this
  · rcases formatZone_cases t.offset ⟨hr'.2.2.1, hr'.2.2.2.1, hr'.2.2.2.2⟩ with
      ⟨h0, hz⟩ | ⟨sign, hh, mm, hs, hhh, hmm, hz, hoff⟩
    · exact Or.inl ⟨h0, hz⟩
    · exact Or.inr ⟨sign, hh, mm, hs, hhh, hmm, hz, hoff⟩

theorem appendFormatRFC3339_ascii (t : Time) (hw : t.wellFormed = true) (hr : t.rfc3339 = true) :
    ∀ c ∈ appendFormatRFC3339 t, 32 ≤ c ∧ c ≠ 34 ∧ c ≠ 92 ∧ c < 0x80 := by
  intro c hc
  have h3 := appendFormatRFC3339_chars t hw hr c hc
  refine ⟨h3.1, h3.2.1, h3.2.2, ?_⟩
  rw [appendFormatRFC3339_eq t hw hr] at hc
  simp only [Time.wellFormed, decide_eq_true_eq] at hw
  simp only [Time.rfc3339, decide_eq_true_eq] at hr
  obtain ⟨hm1, hm2, hd1, hd2, hh, hmi, hs, hn⟩ := hw
  have hday : t.day ≤ 31 := by
    refine le_trans hd2 ?_
    unfold daysIn
    split_ifs <;> omega
  obtain ⟨y, hy⟩ := Int.eq_ofNat_of_zero_le hr.1
  have hylt : y < 10000 := by omega
  rw [hy] at hc
  simp only [Int.toNat_ofNat, List.mem_cons, List.mem_append] at hc
  rcases hc with h | h | h | h | h | h | h | h | h | h | h | h | h | h | h | h | h | h | h | h | h
  all_goals first
    | omega
    | (have hnano := appendNano_chars t.nsec hn c h
       omega)
    | (rcases formatZone_cases t.offset ⟨hr.2.2.1, hr.2.2.2.1, hr.2.2.2.2⟩ with
        ⟨_, hz⟩ | ⟨sign, hh', mm, hsg, hhh, hmm, hz, _⟩
       · rw [hz] at h
         simp only [List.mem_singleton] at h
         omega
       · rw [hz] at h
         simp only [List.mem_cons, List.mem_singleton, List.not_mem_nil, or_false] at h
         omega)

theorem parseValue_encodeByteSlice (data : Option (List Nat)) (hd : isBytes data = true)
    (g : Nat) (rest : List Nat) :
    parseValue (g + 1) 2 (encodeByteSlice data ++ 125 :: rest) =
      some (dataValue data, 125 :: rest) := by
  cases data with
  | none => exact parseValue_null g 2 _
  | some d =>
    have hb : ∀ b ∈ d, b < 256 := by
      simpa [isBytes, List.all_eq_true] using hd
    have hch := base64Encode_chars d.length d le_rfl hb
    simp only [encodeByteSlice, dataValue, List.cons_append, List.nil_append, List.append_assoc,
      ← base64Encode_spec d.length d le_rfl hb]
    exact parseValue_string g 2 _ _ _
      (scanString_key _ _ (fun c hc => by have := hch c hc; omega))

/-- The scanner on the text `Marshal` writes for a message whose timestamp has
an RFC 3339 text: the value of the wire layout. -/
theorem parseJSON_jsonMarshal (m : _message) (hw : m.Meta.Timestamp.wellFormed = true)
    (hr : m.Meta.Timestamp.rfc3339 = true) (hd : isBytes m.Payload.Data = true) :
    ∃ bytes, m.Marshal = Except.ok bytes ∧
      parseJSON bytes =
        some (wireValue (appendStringBody m.Meta.UUID.length m.Meta.UUID)
          (appendStringBody m.Meta.ParentID.length m.Meta.ParentID)
          (appendStringBody m.Meta.ResponseTo.length m.Meta.ResponseTo)
          (appendStringBody m.Meta.MsgType.length m.Meta.MsgType)
          (appendFormatRFC3339 m.Meta.Timestamp) (dataValue m.Payload.Data)) := by
  have hts : Time.MarshalJSON m.Meta.Timestamp =
      some ([34] ++ appendFormatRFC3339 m.Meta.Timestamp ++ [34]) := by
    simp only [Time.MarshalJSON, appendStrictRFC3339_ok _ hw hr, Option.map_some']
  refine ⟨_, by simp only [_message.Marshal, jsonMarshal, hts, appendString]; rfl, ?_⟩
  have hparse := fun f => parseValue_wire f
    (appendStringBody m.Meta.UUID.length m.Meta.UUID)
    (appendStringBody m.Meta.ParentID.length m.Meta.ParentID)
    (appendStringBody m.Meta.ResponseTo.length m.Meta.ResponseTo)
    (appendStringBody m.Meta.MsgType.length m.Meta.MsgType)
    (appendFormatRFC3339 m.Meta.Timestamp) (encodeByteSlice m.Payload.Data)
    (dataValue m.Payload.Data)
    (scanString_appendStringBody _ _) (scanString_appendStringBody _ _)
    (scanString_appendStringBody _ _) (scanString_appendStringBody _ _)
    (fun rest => scanString_key _ rest (appendFormatRFC3339_chars _ hw hr))
    (fun g rest => parseValue_encodeByteSlice _ hd g rest)
  generalize htxt : ([123, 34, 109, 101, 116, 97, 34, 58, 123, 34, 117, 117, 105, 100, 34, 58] ++
        ([34] ++ appendStringBody m.Meta.UUID.length m.Meta.UUID ++ [34]) ++
        [44, 34, 112, 97, 114, 101, 110, 116, 95, 105, 100, 34, 58] ++
        ([34] ++ appendStringBody m.Meta.ParentID.length m.Meta.ParentID ++ [34]) ++
        [44, 34, 114, 101, 115, 112, 111, 110, 115, 101, 95, 116, 111, 34, 58] ++
        ([34] ++ appendStringBody m.Meta.ResponseTo.length m.Meta.ResponseTo ++ [34]) ++
        [44, 34, 109, 115, 103, 95, 116, 121, 112, 101, 34, 58] ++
        ([34] ++ appendStringBody m.Meta.MsgType.length m.Meta.MsgType ++ [34]) ++
        [44, 34, 116, 105, 109, 101, 115, 116, 97, 109, 112, 34, 58] ++
        ([34] ++ appendFormatRFC3339 m.Meta.Timestamp ++ [34]) ++
        [125, 44, 34, 112, 97, 121, 108, 111, 97, 100, 34, 58, 123, 34, 100, 97, 116, 97, 34, 58] ++
        encodeByteSlice m.Payload.Data ++ [125, 125]) = txt at hparse ⊢
  have hlen : 8 ≤ txt.length := by
    rw [← htxt]; simp only [List.length_append, List.length_cons, List.length_nil]; omega
  obtain ⟨f, hf⟩ : ∃ f, txt.length + 1 = f + 9 := ⟨txt.length - 8, by omega⟩
  simp only [parseJSON, hf, hparse f, skipWS, if_true, wireValue]

/-- C17 (amended): for a message whose timestamp has an RFC 3339 text,
`Marshal` writes a JSON text whose value is an object with exactly the members
`meta` and `payload`; `meta` is an object with exactly the string members
`uuid`, `parent_id`, `response_to`, `msg_type` and `timestamp`; the value of
each of the first four strings is the field as valid UTF-8, every byte that is
not part of a valid UTF-8 sequence replaced by U+FFFD, which is the field itself
when the field is valid UTF-8; the string `timestamp` holds an RFC 3339 text
that denotes the timestamp; `payload` is an object with the one member `data`,
which holds `null` when `Data()` is nil and else the string of the base64
encoding of `Data()`. -/
theorem C17_wire_layout (m : _message) (hw : m.Timestamp.wellFormed = true)
    (hr : m.Timestamp.rfc3339 = true) (hd : isBytes m.Data = true) :
    (∃ bytes u p r t ts, m.Marshal = Except.ok bytes ∧
        JSONText bytes (wireValue u p r t ts (dataValue m.Data)) ∧
        unquote u = some (toValidUTF8 m.UUID) ∧ unquote p = some (toValidUTF8 m.ParentID) ∧
        unquote r = some (toValidUTF8 m.ResponseTo) ∧ unquote t = some (toValidUTF8 m.Type_) ∧
        unquote ts = some ts ∧ IsRFC3339Text m.Timestamp ts ∧ timestampText ts = true) ∧
      (∀ d, m.Data = some d → unquote (base64Spec d) = some (base64Spec d)) ∧
      (validUTF8 m.UUID = true → toValidUTF8 m.UUID = m.UUID) ∧
      (validUTF8 m.ParentID = true → toValidUTF8 m.ParentID = m.ParentID) ∧
      (validUTF8 m.ResponseTo = true → toValidUTF8 m.ResponseTo = m.ResponseTo) ∧
      (validUTF8 m.Type_ = true → toValidUTF8 m.Type_ = m.Type_) := by
  refine ⟨?_, ?_, toValidUTF8_valid _, toValidUTF8_valid _, toValidUTF8_valid _,
    toValidUTF8_valid _⟩
  · obtain ⟨bytes, hm, hp⟩ := parseJSON_jsonMarshal m hw hr hd
    have hts : timestampText (appendFormatRFC3339 m.Meta.Timestamp) = true := by
      rw [← parseRFC3339_isSome, parseRFC3339_appendFormatRFC3339 m.Meta.Timestamp hw hr]
      rfl
    exact ⟨bytes, _, _, _, _, _, hm, parseJSON_sound bytes _ hp,
      unquote_appendStringBody_any _, unquote_appendStringBody_any _,
      unquote_appendStringBody_any _, unquote_appendStringBody_any _,
      unquote_key _ (appendFormatRFC3339_ascii _ hw hr), appendFormatRFC3339_spec _ hw hr, hts⟩
  · intro d hdd
    have hd' : isBytes (some d) = true := by
      have h : m.Payload.Data = some d := hdd
      have hd2 : isBytes m.Payload.Data = true := hd
      rw [h] at hd2
      exact hd2
    have hb : ∀ b ∈ d, b < 256 := by
      simpa [isBytes, List.all_eq_true] using hd'
    have hch := base64Encode_chars d.length d le_rfl hb
    rw [← base64Encode_spec d.length d le_rfl hb]
    exact unquote_key _ (fun c hc => by have := hch c hc; omega)

/-- A witness of the amended C17: the message of type `grav.default` with the
payload `hi`, whose member `data` holds the string `aGk=`. -/
theorem C17_wire_layout_witness :
    sampleNow.wellFormed = true ∧ sampleNow.rfc3339 = true ∧ isBytes (some [104, 105]) = true ∧
      base64Spec [104, 105] = [97, 71, 107, 61] ∧
      ∃ bytes u p r t ts,
        (NewMsg sampleUUID sampleNow DefaultMsgType (some [104, 105]) [7]).Marshal =
          Except.ok bytes ∧
        JSONText bytes (wireValue u p r t ts (JValue.string [97, 71, 107, 61])) ∧
        unquote t = some DefaultMsgType ∧ IsRFC3339Text sampleNow ts :=
  ⟨by decide, by decide, by decide, by decide,
    (C17_wire_layout (NewMsg sampleUUID sampleNow DefaultMsgType (some [104, 105]) [7])
      (by decide) (by decide) (by decide)).1.elim
      (fun bytes h => h.elim fun u h => h.elim fun p h => h.elim fun r h => h.elim fun t h =>
        h.elim fun ts h =>
          ⟨bytes, u, p, r, t, ts, h.1, h.2.1, h.2.2.2.2.2.1, h.2.2.2.2.2.2.2.1⟩)⟩

set_option maxRecDepth 100000 in
/-- C17 fails as stated. For a message with nil data (`NewMsg(t, nil)`)
`Marshal` writes a text in which the member `data` holds `null`, not a base64
string. For the type string of the one byte `0xFF` the member `msg_type` holds
a string whose value is the three bytes of U+FFFD, not the field. For a clock
reading in the year 10000 `Marshal` writes nothing and returns an error. -/
theorem C17_counterexample_nil_data :
    (NewMsg sampleUUID sampleNow DefaultMsgType none []).Data = none ∧
      (NewMsg sampleUUID sampleNow DefaultMsgType none []).Marshal.toOption.bind parseJSON =
        some (wireValue
          [48, 48, 48, 49, 48, 50, 48, 51, 45, 48, 52, 48, 53, 45, 48, 54, 52, 55, 45, 56, 56, 48,
            57, 45, 48, 97, 48, 98, 48, 99, 48, 100, 48, 101, 102, 102]
          [] [] [103, 114, 97, 118, 46, 100, 101, 102, 97, 117, 108, 116]
          [50, 48, 50, 48, 45, 48, 55, 45, 48, 52, 84, 48, 57, 58, 48, 53, 58, 53, 57, 46, 49, 50,
            43, 48, 49, 58, 48, 48]
          JValue.null) ∧
      (NewMsg sampleUUID sampleNow [255] none []).Type_ = [255] ∧
      (∃ t, (NewMsg sampleUUID sampleNow [255] none []).Marshal.toOption.bind parseJSON =
          some (wireValue
            [48, 48, 48, 49, 48, 50, 48, 51, 45, 48, 52, 48, 53, 45, 48, 54, 52, 55, 45, 56, 56,
              48, 57, 45, 48, 97, 48, 98, 48, 99, 48, 100, 48, 101, 102, 102]
            [] [] t
            [50, 48, 50, 48, 45, 48, 55, 45, 48, 52, 84, 48, 57, 58, 48, 53, 58, 53, 57, 46, 49,
              50, 43, 48, 49, 58, 48, 48]
            JValue.null) ∧
        unquote t = some [239, 191, 189]) ∧
      (NewMsg sampleUUID { sampleNow with year := 10000 } DefaultMsgType none []).Marshal =
        Except.error GoError.timeMarshal := by
  refine ⟨rfl, ?_, rfl, ⟨[92, 117, 102, 102, 102, 100], ?_, by decide⟩, by rfl⟩
  · rfl
  · rfl

/-! ## Theorems: `Unmarshal` into an existing message -/

end Grav
